import Mathlib

/-!
Verification of the forge-clm NLP core (packages/nlp/src/forge_nlp) against its
specification.  The Python sources are shallowly embedded: text is `List Char`
(`Chars`), Python `int` is `Nat`, Python `float` is modelled as `Rat` (the
values the claims inspect are exactly representable and the arithmetic incurs
no rounding at the inspected points), regular-expression matching is hand
translated into explicit scanners with Python `re` leftmost / first-alternative
/ greedy semantics, and `re.finditer` is the generic scanner `finditer` below.
Python `dict` metadata becomes an association list over `MetaVal`.
`EntityAnn` embeds the source dataclass `EntityAnnotation` (shortened name).
-/

namespace Forge

abbrev Chars := List Char

/-- Python `str.isspace` characters relevant to `str.split`, `str.strip` and
the `\s` regex class (ASCII range, which is all the source texts use). -/
def isPySpace (c : Char) : Bool :=
  c = ' ' || c = '\t' || c = '\n' || c = '\r' || c = '\x0b' || c = '\x0c'

def isPyDigit (c : Char) : Bool := '0' ≤ c && c ≤ '9'

def isUpperAZ (c : Char) : Bool := 'A' ≤ c && c ≤ 'Z'

def isLowerAZ (c : Char) : Bool := 'a' ≤ c && c ≤ 'z'

def isAsciiLetter (c : Char) : Bool := isUpperAZ c || isLowerAZ c

/-- The regex `\w` class (ASCII part): letters, digits, underscore. -/
def isWordChar (c : Char) : Bool := isAsciiLetter c || isPyDigit c || c = '_'

/-- ASCII lower-casing, as `str.lower` acts on the source texts. -/
def pyToLower (c : Char) : Char :=
  if isUpperAZ c then Char.ofNat (c.toNat + 32) else c

/-- ASCII upper-casing, as `str.upper` acts on the source texts. -/
def pyToUpper (c : Char) : Char :=
  if isLowerAZ c then Char.ofNat (c.toNat - 32) else c

/-- Case-insensitive character comparison (Python `re.IGNORECASE`, ASCII). -/
def ciEq (a b : Char) : Bool := pyToLower a = pyToLower b

/-- Python slice `text[a:b]` for `0 ≤ a ≤ b` (clamping at the length). -/
def pySlice (s : Chars) (a b : Nat) : Chars := (s.drop a).take (b - a)

/-- Python `str.strip()`: drop leading and trailing whitespace. -/
def pyStrip (s : Chars) : Chars :=
  ((s.dropWhile isPySpace).reverse.dropWhile isPySpace).reverse

/-- Accumulator loop of `pyWords` (current word held in reverse). -/
def pyWordsAux : Chars → Chars → List Chars
  | [], cur => if cur.isEmpty then [] else [cur.reverse]
  | c :: rest, cur =>
    if isPySpace c then
      if cur.isEmpty then pyWordsAux rest []
      else cur.reverse :: pyWordsAux rest []
    else pyWordsAux rest (c :: cur)

/-- Python `str.split()` with no separator: whitespace-run splitting,
no empty pieces. -/
def pyWords (s : Chars) : List Chars := pyWordsAux s []

/-- `_word_count` from clause_chunker.py: `len(text.split())`. -/
def word_count (s : Chars) : Nat := (pyWords s).length

/-- Python `sep.join(parts)`. -/
def pyJoin (sep : Chars) (parts : List Chars) : Chars :=
  match parts with
  | [] => []
  | p :: ps => p ++ (ps.map (fun q => sep ++ q)).flatten

/-- Python substring test `needle in haystack` (also used for `re`-free
keyword containment). -/
def containsSub (haystack needle : Chars) : Bool :=
  match haystack with
  | [] => needle.isEmpty
  | _ :: rest => needle.isPrefixOf haystack || containsSub rest needle

/-- Strict lexicographic comparison of character lists by code point,
which is how Python compares `str` values. -/
def charsLt : Chars → Chars → Bool
  | [], [] => false
  | [], _ :: _ => true
  | _ :: _, [] => false
  | a :: as, b :: bs =>
    if a.toNat < b.toNat then true
    else if b.toNat < a.toNat then false
    else charsLt as bs

def strLtB (a b : String) : Bool := charsLt a.data b.data

/-- Python tuple comparison `(int, str) <=` used as a sort key. -/
def keyLe (a b : Nat × String) : Bool :=
  if a.1 < b.1 then true
  else if b.1 < a.1 then false
  else !(strLtB b.2 a.2)

/-- Stable insertion into a sorted list: later-processed elements land after
equal keys, matching Python's stable `sorted`/`list.sort`. -/
def pyInsert (le : α → α → Bool) (x : α) : List α → List α
  | [] => [x]
  | y :: ys => if le y x then y :: pyInsert le x ys else x :: y :: ys

/-- Python `sorted(l, key=...)` / `l.sort(key=...)`: a stable sort by a
boolean total preorder. -/
def pySortBy (le : α → α → Bool) (l : List α) : List α :=
  l.foldl (fun acc x => pyInsert le x acc) []

-- ─── Entity annotations (rule_based.py dataclass EntityAnnotation) ────

/-- Values stored in the open `metadata` dict of an annotation. -/
inductive MetaVal where
  | str (s : String)
  | num (q : Rat)
  | bool (b : Bool)
deriving DecidableEq

abbrev Meta := List (String × MetaVal)

/-- The `EntityAnnotation` dataclass of extractors/rule_based.py. -/
structure EntityAnn where
  entity_type : String
  entity_value : String
  start_char : Nat
  end_char : Nat
  confidence : Rat := 1
  metadata : Meta := []
deriving DecidableEq

def annKey (a : EntityAnn) : Nat × String := (a.start_char, a.entity_type)

def annLe (a b : EntityAnn) : Bool := keyLe (annKey a) (annKey b)

/-- Exact-duplicate key `(entity_type, start_char, end_char)`. -/
def dupKey (a : EntityAnn) : String × Nat × Nat :=
  (a.entity_type, a.start_char, a.end_char)

/-- `_spans_overlap` from combined_extractor.py (open-interval test). -/
def spans_overlap (a b : EntityAnn) : Bool :=
  a.start_char < b.end_char && b.start_char < a.end_char

-- ─── CombinedExtractor._merge (combined_extractor.py) ─────────────────

/-- The Tier-2 loop body of `CombinedExtractor._merge`: thread the merged
list and the `seen` key set through the NER results. -/
def mergeLoop (rule_results : List EntityAnn) :
    List EntityAnn → List (String × Nat × Nat) → List EntityAnn →
    List EntityAnn × List (String × Nat × Nat)
  | merged, seen, [] => (merged, seen)
  | merged, seen, ner_ann :: rest =>
    let key := dupKey ner_ann
    if key ∈ seen then
      mergeLoop rule_results merged seen rest
    else if rule_results.any (fun rb => spans_overlap ner_ann rb) then
      mergeLoop rule_results merged seen rest
    else
      mergeLoop rule_results (merged ++ [ner_ann]) (key :: seen) rest

/-- `CombinedExtractor._merge`: Tier-1 list kept whole, Tier-2 entries added
unless exact-duplicate or span-overlapping, result stably sorted by
`(start_char, entity_type)`. -/
def CombinedExtractor_merge (rule_results ner_results : List EntityAnn) :
    List EntityAnn :=
  let start : List EntityAnn × List (String × Nat × Nat) :=
    (rule_results, rule_results.map dupKey)
  let fin := mergeLoop rule_results start.1 start.2 ner_results
  pySortBy annLe fin.1

/-- Acceptance test the spec states for a Tier-2 annotation: key not already
in Tier-1 and span not overlapping any Tier-1 span. -/
def tier2Accept (rule_results : List EntityAnn) (b : EntityAnn) : Bool :=
  !(decide (dupKey b ∈ rule_results.map dupKey))
    && !(rule_results.any (fun rb => spans_overlap b rb))

/-- The Tier-2 acceptance loop rephrased as a recursion over the remaining
NER list, threading only the `seen` key set (used to relate `mergeLoop` to
the declarative merge descriptions). -/
def nerAcceptList (rule_results : List EntityAnn) :
    List (String × Nat × Nat) → List EntityAnn → List EntityAnn
  | _, [] => []
  | seen, b :: rest =>
    if dupKey b ∈ seen then nerAcceptList rule_results seen rest
    else if rule_results.any (fun rb => spans_overlap b rb) then
      nerAcceptList rule_results seen rest
    else b :: nerAcceptList rule_results (dupKey b :: seen) rest

/-- The merge output as the claim words it: full Tier-1 list plus exactly the
Tier-2 annotations passing `tier2Accept`, sorted by `(start_char,
entity_type)`. -/
def mergeSpecClaimed (rule_results ner_results : List EntityAnn) :
    List EntityAnn :=
  pySortBy annLe (rule_results ++ ner_results.filter (tier2Accept rule_results))

/-- Keep only the first occurrence of each `dupKey`, given keys already
taken. -/
def dedupByDupKey (seen : List (String × Nat × Nat)) :
    List EntityAnn → List EntityAnn
  | [] => []
  | b :: rest =>
    if dupKey b ∈ seen then dedupByDupKey seen rest
    else b :: dedupByDupKey (dupKey b :: seen) rest

/-- The merge output as amended: also drop a Tier-2 annotation whose key
equals the key of an earlier kept Tier-2 annotation. -/
def mergeSpecAmended (rule_results ner_results : List EntityAnn) :
    List EntityAnn :=
  pySortBy annLe (rule_results
    ++ dedupByDupKey [] (ner_results.filter (tier2Accept rule_results)))

/-- A minimal Tier-2 annotation used to separate the two merge readings. -/
def nerDupAnn : EntityAnn :=
  { entity_type := "SCOPE_DESCRIPTION", entity_value := "foo"
    start_char := 0, end_char := 3, confidence := 0 }

-- ─── Section detection (clause_chunker.py, SectionDetector) ───────────

/-- The `SectionType` enum of clause_chunker.py. -/
inductive SectionType where
  | SECTION_A | SECTION_B | SECTION_C | SECTION_D | SECTION_E | SECTION_F
  | SECTION_G | SECTION_H | SECTION_I | SECTION_J | SECTION_K | SECTION_L
  | SECTION_M | OTHER
deriving DecidableEq

/-- The string `.value` of a `SectionType` enum member. -/
def SectionType.value : SectionType → String
  | .SECTION_A => "SECTION_A"
  | .SECTION_B => "SECTION_B"
  | .SECTION_C => "SECTION_C"
  | .SECTION_D => "SECTION_D"
  | .SECTION_E => "SECTION_E"
  | .SECTION_F => "SECTION_F"
  | .SECTION_G => "SECTION_G"
  | .SECTION_H => "SECTION_H"
  | .SECTION_I => "SECTION_I"
  | .SECTION_J => "SECTION_J"
  | .SECTION_K => "SECTION_K"
  | .SECTION_L => "SECTION_L"
  | .SECTION_M => "SECTION_M"
  | .OTHER => "OTHER"

/-- `_LETTER_TO_SECTION`: map a section letter A–M to its type. -/
def letterToSection (c : Char) : Option SectionType :=
  if c = 'A' then some .SECTION_A else if c = 'B' then some .SECTION_B
  else if c = 'C' then some .SECTION_C else if c = 'D' then some .SECTION_D
  else if c = 'E' then some .SECTION_E else if c = 'F' then some .SECTION_F
  else if c = 'G' then some .SECTION_G else if c = 'H' then some .SECTION_H
  else if c = 'I' then some .SECTION_I else if c = 'J' then some .SECTION_J
  else if c = 'K' then some .SECTION_K else if c = 'L' then some .SECTION_L
  else if c = 'M' then some .SECTION_M else none

/-- The `DetectedSection` dataclass of clause_chunker.py. -/
structure DetectedSection where
  section_type : SectionType
  start_char : Nat
  end_char : Nat
  header_text : String := ""
deriving DecidableEq

/-- A pooled raw header match `(section type, start offset, header text)`
as accumulated in `SectionDetector.detect` before deduplication. -/
abbrev RawSection := SectionType × Nat × String

/-- Sort key of `raw.sort(key=lambda x: x[1])`: compare by start offset. -/
def rawSecLe (a b : RawSection) : Bool := decide (a.2.1 ≤ b.2.1)

/-- The type-dedup loop of `SectionDetector.detect`: keep the first
position-sorted occurrence of each section type. -/
def dedupSectionTypes (seen : List SectionType) :
    List RawSection → List RawSection
  | [] => []
  | r :: rest =>
    if r.1 ∈ seen then dedupSectionTypes seen rest
    else r :: dedupSectionTypes (r.1 :: seen) rest

/-- The end-assignment loop of `SectionDetector.detect`: each section runs
to the next section's start; the last runs to the text length. -/
def assignSectionEnds (textLen : Nat) :
    List RawSection → List DetectedSection
  | [] => []
  | r :: rest =>
    let e := match rest with
      | [] => textLen
      | r2 :: _ => r2.2.1
    { section_type := r.1, start_char := r.2.1, end_char := e
      header_text := r.2.2 } :: assignSectionEnds textLen rest

/-- The post-processing of `SectionDetector.detect` (clause_chunker.py,
after the four pattern loops have pooled `raw`): position sort, type dedup
keeping the earliest, re-sort, then end assignment. -/
def SectionDetector_post (textLen : Nat) (raw : List RawSection) :
    List DetectedSection :=
  if raw = [] then []
  else
    let sorted1 := pySortBy rawSecLe raw
    let deduped := dedupSectionTypes [] sorted1
    let sorted2 := pySortBy rawSecLe deduped
    assignSectionEnds textLen sorted2

-- ─── Quality checker (quality_checker.py) ─────────────────────────────

inductive IssueSeverity where
  | WARNING
  | ERROR
deriving DecidableEq

structure QualityIssue where
  severity : IssueSeverity
  code : String
  message : String
  details : Meta := []
deriving DecidableEq

structure QualityReport where
  issues : List QualityIssue := []
  needs_human_review : Bool := false
  review_reasons : List String := []
  entity_count : Nat := 0
  chunk_count : Nat := 0
deriving DecidableEq

/-- The `ContractMetadata` dataclass (contract_metadata_mapper.py).  Fields
the mapper fills from `metadata.get(...)` keep the dynamic `MetaVal` type;
plain-string fields stay `Option String`. -/
structure ContractMetadata where
  contract_number : Option String := none
  ceiling_value : Option MetaVal := none
  funded_value : Option MetaVal := none
  pop_start : Option MetaVal := none
  pop_end : Option MetaVal := none
  naics_code : Option String := none
  psc_code : Option String := none
  security_level : Option String := none
  cage_code : Option String := none
  uei_number : Option String := none
  contracting_officer_name : Option String := none
  far_clauses : List String := []
  dfars_clauses : List String := []
deriving DecidableEq

/-- Python `set(...)` cardinality of a value list: number of distinct
values (first occurrences retained by `List.eraseDups`-like dedup). -/
def pyDistinct (l : List String) : List String := l.eraseDups

def natToStr (n : Nat) : String := toString n

/-- `_check_conflicts` from quality_checker.py, returning the issues it
appends together with (review flag set?, reason appended?). -/
def check_conflicts (entities : List EntityAnn) :
    List QualityIssue × Bool × List String :=
  let contract_nums :=
    pyDistinct ((entities.filter
      (fun e => e.entity_type = "CONTRACT_NUMBER")).map (·.entity_value))
  let sec_levels :=
    pyDistinct ((entities.filter
      (fun e => e.entity_type = "SECURITY_LEVEL")).map (·.entity_value))
  let i1 : List QualityIssue :=
    if contract_nums.length > 1 then
      [{ severity := .ERROR
         code := "CONFLICTING_CONTRACT_NUMBERS"
         message := "Multiple different contract numbers found." }]
    else []
  let i2 : List QualityIssue :=
    if sec_levels.length > 1 then
      [{ severity := .WARNING
         code := "CONFLICTING_SECURITY_LEVELS"
         message := "Multiple security levels found." }]
    else []
  (i1 ++ i2,
   contract_nums.length > 1,
   if contract_nums.length > 1 then ["Conflicting contract numbers"] else [])

/-- The empty-chunk review trigger of `check_quality` (quality_checker.py):
`chunk_entity_counts` supplied, some chunk empty, and the empty ratio
strictly above one half; the float division is modelled in exact rational
arithmetic. -/
def emptyChunkTrigger (chunk_count : Nat) : Option (List Nat) → Bool
  | none => false
  | some counts =>
    let empty_chunks := (counts.filter (fun c => c = 0)).length
    empty_chunks > 0 && chunk_count > 0 &&
      ((empty_chunks : Rat) / (chunk_count : Rat) > 1/2)

/-- `check_quality` from quality_checker.py.  The empty-chunk ratio test
`empty_chunks / chunk_count > 0.5` is modelled in exact rational
arithmetic. -/
def check_quality (metadata : ContractMetadata) (entities : List EntityAnn)
    (chunk_count : Nat := 0)
    (chunk_entity_counts : Option (List Nat) := none) : QualityReport :=
  let missingContract := metadata.contract_number.isNone
  let i_contract : List QualityIssue :=
    if missingContract then
      [{ severity := .ERROR
         code := "MISSING_CONTRACT_NUMBER"
         message := "No contract number was extracted from the document." }]
    else []
  let i_ceiling : List QualityIssue :=
    if metadata.ceiling_value.isNone then
      [{ severity := .WARNING
         code := "MISSING_CEILING_VALUE"
         message := "No ceiling value was extracted from the document." }]
    else []
  let i_pop : List QualityIssue :=
    if metadata.pop_start.isNone || metadata.pop_end.isNone then
      [{ severity := .WARNING
         code := "MISSING_POP_DATES"
         message := "Missing period of performance date(s)." }]
    else []
  let low_conf := entities.filter (fun e => 0 < e.confidence && e.confidence < (3 : Rat)/5)
  let i_low : List QualityIssue :=
    if low_conf ≠ [] then
      [{ severity := .WARNING
         code := "LOW_CONFIDENCE_ENTITIES"
         message := natToStr low_conf.length ++ " entities have confidence below 0.6." }]
    else []
  let conflicts := check_conflicts entities
  let emptyTrigger := emptyChunkTrigger chunk_count chunk_entity_counts
  let i_empty : List QualityIssue :=
    if emptyTrigger then
      [{ severity := .WARNING
         code := "MANY_EMPTY_CHUNKS"
         message := "Chunks without entities. Possible OCR or text extraction issue." }]
    else []
  let noEntities := entities.length = 0
  let i_none : List QualityIssue :=
    if noEntities then
      [{ severity := .ERROR
         code := "NO_ENTITIES_EXTRACTED"
         message := "No entities were extracted from the document." }]
    else []
  { issues := i_contract ++ i_ceiling ++ i_pop ++ i_low ++ conflicts.1
      ++ i_empty ++ i_none
    needs_human_review :=
      missingContract || conflicts.2.1 || emptyTrigger || noEntities
    review_reasons :=
      (if missingContract then ["Missing contract number"] else [])
        ++ conflicts.2.2
        ++ (if emptyTrigger then
              ["Many chunks without entities — possible extraction issue"] else [])
        ++ (if noEntities then ["Zero entities extracted"] else [])
    entity_count := entities.length
    chunk_count := chunk_count }

-- ─── Pattern extractor battery (rule_based.py): scanning substrate ────

def chStr (l : Chars) : String := String.mk l

def charAt (s : Chars) (i : Nat) : Option Char := (s.drop i).head?

def charTest (s : Chars) (i : Nat) (p : Char → Bool) : Bool :=
  match charAt s i with
  | some c => p c
  | none => false

/-- Is the character at offset `i` a regex word character (out of range
counts as non-word)? -/
def wordAt (s : Chars) (i : Nat) : Bool := charTest s i isWordChar

/-- Regex `\b` between the previous character and the head of `s`. -/
def bdryStart (prev : Option Char) (s : Chars) : Bool :=
  (match prev with | some p => isWordChar p | none => false) != wordAt s 0

/-- Regex `\b` right after a word character ending at offset `i`. -/
def noWordAt (s : Chars) (i : Nat) : Bool := !wordAt s i

/-- Regex `\b` between offsets `i - 1` and `i` (both in range or not). -/
def bdryMid (s : Chars) (i : Nat) : Bool := wordAt s (i - 1) != wordAt s i

def litAt (lit : Chars) (s : Chars) (i : Nat) : Bool := lit.isPrefixOf (s.drop i)

def ciPrefOf : Chars → Chars → Bool
  | [], _ => true
  | _ :: _, [] => false
  | a :: as, b :: bs => ciEq a b && ciPrefOf as bs

def ciLitAt (lit : Chars) (s : Chars) (i : Nat) : Bool := ciPrefOf lit (s.drop i)

/-- Length of the maximal run of `p`-characters starting at offset `i`
(a greedy character-class star). -/
def runLen (p : Char → Bool) (s : Chars) (i : Nat) : Nat :=
  ((s.drop i).takeWhile p).length

/-- Exactly `n` characters of class `p` at offset `i` (all present). -/
def classRun (s : Chars) (i : Nat) (p : Char → Bool) (n : Nat) : Bool :=
  ((s.drop i).take n).length = n && ((s.drop i).take n).all p

def isDigitsN (s : Chars) (i n : Nat) : Bool := classRun s i isPyDigit n

def wsColon (c : Char) : Bool := isPySpace c || c = ':'

def alnumAZ (c : Char) : Bool := isUpperAZ c || isPyDigit c

def alnumCI (c : Char) : Bool := isAsciiLetter c || isPyDigit c

def digitsToNat (l : Chars) : Nat :=
  l.foldl (fun acc c => acc * 10 + (c.toNat - 48)) 0

def parseNatAt (s : Chars) (i n : Nat) : Nat :=
  digitsToNat ((s.drop i).take n)

/-- One pattern, hand-compiled: given the previous character and the
suffix at the scan position, the total matched length plus a payload. -/
abbrev Matcher (P : Type) := Option Char → Chars → Option (Nat × P)

/-- `re.finditer` on a matcher: scan left to right, emit
`(start, length, payload)`, resume after each match. -/
def finditerF {P : Type} (m : Matcher P) :
    Nat → Option Char → Chars → Nat → List (Nat × Nat × P)
  | _, _, [], _ => []
  | 0, _, _ :: _, _ => []
  | fuel + 1, prev, c :: rest, pos =>
    match m prev (c :: rest) with
    | some (len, p) =>
      (pos, len, p) :: finditerF m fuel (((c :: rest).take len).getLast?)
        ((c :: rest).drop len) (pos + len)
    | none => finditerF m fuel (some c) rest (pos + 1)

def finditer {P : Type} (m : Matcher P) (t : Chars) : List (Nat × Nat × P) :=
  finditerF m t.length none t 0

-- ─── Contract numbers (`_CONTRACT_PATTERNS`) ──────────────────────────

/-- Army shape `\bW911[A-Z]{2}-\d{2}-[A-Z]-\d{4}\b`. -/
def matchArmy : Matcher Unit := fun prev s =>
  if bdryStart prev s && litAt "W911".data s 0 && classRun s 4 isUpperAZ 2
      && charTest s 6 (· = '-') && isDigitsN s 7 2 && charTest s 9 (· = '-')
      && classRun s 10 isUpperAZ 1 && charTest s 11 (· = '-')
      && isDigitsN s 12 4 && noWordAt s 16 then
    some (16, ())
  else none

/-- Navy shape `\bN\d{5}-\d{2}-[A-Z]-\d{4}\b`. -/
def matchNavy : Matcher Unit := fun prev s =>
  if bdryStart prev s && charTest s 0 (· = 'N') && isDigitsN s 1 5
      && charTest s 6 (· = '-') && isDigitsN s 7 2 && charTest s 9 (· = '-')
      && classRun s 10 isUpperAZ 1 && charTest s 11 (· = '-')
      && isDigitsN s 12 4 && noWordAt s 16 then
    some (16, ())
  else none

/-- Air Force shape `\bFA\d{4}-\d{2}-[A-Z]-\d{4}\b`. -/
def matchAirForce : Matcher Unit := fun prev s =>
  if bdryStart prev s && litAt "FA".data s 0 && isDigitsN s 2 4
      && charTest s 6 (· = '-') && isDigitsN s 7 2 && charTest s 9 (· = '-')
      && classRun s 10 isUpperAZ 1 && charTest s 11 (· = '-')
      && isDigitsN s 12 4 && noWordAt s 16 then
    some (16, ())
  else none

/-- GSA shape `\bGS-\d{2}[A-Z]-\d{4}[A-Z]\b`. -/
def matchGsa : Matcher Unit := fun prev s =>
  if bdryStart prev s && litAt "GS-".data s 0 && isDigitsN s 3 2
      && classRun s 5 isUpperAZ 1 && charTest s 6 (· = '-')
      && isDigitsN s 7 4 && classRun s 11 isUpperAZ 1 && noWordAt s 12 then
    some (12, ())
  else none

/-- Generic shape `\b[A-Z][A-Z0-9]{5,}-\d{2}-[A-Z]-\d{4}\b` (the greedy
alphanumeric run cannot be shortened because a hyphen must follow it). -/
def matchGenericContract : Matcher Unit := fun prev s =>
  if bdryStart prev s && charTest s 0 isUpperAZ then
    let r := runLen alnumAZ s 1
    let i := 1 + r
    if 5 ≤ r && charTest s i (· = '-') && isDigitsN s (i + 1) 2
        && charTest s (i + 3) (· = '-') && classRun s (i + 4) isUpperAZ 1
        && charTest s (i + 5) (· = '-') && isDigitsN s (i + 6) 4
        && noWordAt s (i + 10) then
      some (i + 10, ())
    else none
  else none

/-- One pattern's match loop of `extract_contract_numbers`: skip exact
duplicates and spans overlapping an already-accepted span. -/
def contractScan (t : Chars) (agency : String) :
    List (Nat × Nat × Unit) → List (Nat × Nat) →
    List EntityAnn × List (Nat × Nat)
  | [], seen => ([], seen)
  | (pos, len, _) :: rest, seen =>
    if (pos, pos + len) ∈ seen then contractScan t agency rest seen
    else if seen.any (fun sp => pos < sp.2 && pos + len > sp.1) then
      contractScan t agency rest seen
    else
      let res := contractScan t agency rest ((pos, pos + len) :: seen)
      ({ entity_type := "CONTRACT_NUMBER"
         entity_value := chStr (pySlice t pos (pos + len))
         start_char := pos, end_char := pos + len, confidence := 1
         metadata := [("agency_format", .str agency)] } :: res.1, res.2)

def contractPatsLoop (t : Chars) :
    List (String × Matcher Unit) → List (Nat × Nat) → List EntityAnn
  | [], _ => []
  | (ag, m) :: ps, seen =>
    let r := contractScan t ag (finditer m t) seen
    r.1 ++ contractPatsLoop t ps r.2

/-- `extract_contract_numbers`: the five agency patterns in priority
order. -/
def extract_contract_numbers (t : Chars) : List EntityAnn :=
  contractPatsLoop t
    [("Army", matchArmy), ("Navy", matchNavy), ("Air Force", matchAirForce),
      ("GSA", matchGsa), ("Generic", matchGenericContract)] []

-- ─── CLIN (`_CLIN_RE`) ────────────────────────────────────────────────

/-- `\bCLIN\s+(\d{4}[A-Z]{0,2})\b` (IGNORECASE); the payload is the group
span `(offset, length)` relative to the match start. -/
def matchClin : Matcher (Nat × Nat) := fun prev s =>
  if bdryStart prev s && ciLitAt "CLIN".data s 0 then
    let w := runLen isPySpace s 4
    if 1 ≤ w && isDigitsN s (4 + w) 4 then
      let base := 4 + w + 4
      let lr := runLen isAsciiLetter s base
      if 2 ≤ lr && noWordAt s (base + 2) then
        some (base + 2, (4 + w, 6))
      else if 1 ≤ lr && noWordAt s (base + 1) then
        some (base + 1, (4 + w, 5))
      else if noWordAt s base then
        some (base, (4 + w, 4))
      else none
    else none
  else none

/-- `extract_clins`: value is the captured CLIN code, span the full
`CLIN NNNN` match. -/
def extract_clins (t : Chars) : List EntityAnn :=
  (finditer matchClin t).map (fun m =>
    { entity_type := "CLIN"
      entity_value := chStr (pySlice t (m.1 + m.2.2.1) (m.1 + m.2.2.1 + m.2.2.2))
      start_char := m.1, end_char := m.1 + m.2.1, confidence := 1
      metadata := [] })

-- ─── Security levels (`_SECURITY_PATTERNS`) ───────────────────────────

def matchTsSci : Matcher Unit := fun prev s =>
  if bdryStart prev s && litAt "TS/SCI".data s 0 && noWordAt s 6 then
    some (6, ())
  else none

def matchTopSecret : Matcher Unit := fun prev s =>
  if bdryStart prev s && ciLitAt "TOP".data s 0 then
    let w := runLen isPySpace s 3
    if 1 ≤ w && ciLitAt "SECRET".data s (3 + w) && noWordAt s (3 + w + 6) then
      some (3 + w + 6, ())
    else none
  else none

/-- `\bSECRET\b(?!\s+(?:service|sauce|key|weapon))` (IGNORECASE). -/
def matchSecretLvl : Matcher Unit := fun prev s =>
  if bdryStart prev s && ciLitAt "SECRET".data s 0 && noWordAt s 6 then
    let w := runLen isPySpace s 6
    if 1 ≤ w && (ciLitAt "service".data s (6 + w)
        || ciLitAt "sauce".data s (6 + w) || ciLitAt "key".data s (6 + w)
        || ciLitAt "weapon".data s (6 + w)) then
      none
    else some (6, ())
  else none

def matchCui : Matcher Unit := fun prev s =>
  if bdryStart prev s && ciLitAt "CUI".data s 0 && noWordAt s 3 then
    some (3, ())
  else if bdryStart prev s && ciLitAt "Controlled".data s 0 then
    let w1 := runLen isPySpace s 10
    if 1 ≤ w1 && ciLitAt "Unclassified".data s (10 + w1) then
      let p := 10 + w1 + 12
      let w2 := runLen isPySpace s p
      if 1 ≤ w2 && ciLitAt "Information".data s (p + w2)
          && noWordAt s (p + w2 + 11) then
        some (p + w2 + 11, ())
      else none
    else none
  else none

def matchFouo : Matcher Unit := fun prev s =>
  if bdryStart prev s && ciLitAt "FOUO".data s 0 && noWordAt s 4 then
    some (4, ())
  else if bdryStart prev s && ciLitAt "For".data s 0 then
    let w1 := runLen isPySpace s 3
    if 1 ≤ w1 && ciLitAt "Official".data s (3 + w1) then
      let p := 3 + w1 + 8
      let w2 := runLen isPySpace s p
      if 1 ≤ w2 && ciLitAt "Use".data s (p + w2) then
        let q := p + w2 + 3
        let w3 := runLen isPySpace s q
        if 1 ≤ w3 && ciLitAt "Only".data s (q + w3)
            && noWordAt s (q + w3 + 4) then
          some (q + w3 + 4, ())
        else none
      else none
    else none
  else none

def matchUnclassified : Matcher Unit := fun prev s =>
  if bdryStart prev s && ciLitAt "UNCLASSIFIED".data s 0 && noWordAt s 12 then
    some (12, ())
  else none

/-- One security pattern's loop: suppress matches overlapping an already
accepted (more specific) span; value is the canonical level name, the raw
matched text goes to metadata. -/
def securityScan (t : Chars) (level : String) :
    List (Nat × Nat × Unit) → List (Nat × Nat) →
    List EntityAnn × List (Nat × Nat)
  | [], seen => ([], seen)
  | (pos, len, _) :: rest, seen =>
    if seen.any (fun sp => pos < sp.2 && pos + len > sp.1) then
      securityScan t level rest seen
    else
      let res := securityScan t level rest ((pos, pos + len) :: seen)
      ({ entity_type := "SECURITY_LEVEL", entity_value := level
         start_char := pos, end_char := pos + len, confidence := 1
         metadata := [("raw_text", .str (chStr (pySlice t pos (pos + len))))] }
        :: res.1, res.2)

def securityPatsLoop (t : Chars) :
    List (String × Matcher Unit) → List (Nat × Nat) → List EntityAnn
  | [], _ => []
  | (lv, m) :: ps, seen =>
    let r := securityScan t lv (finditer m t) seen
    r.1 ++ securityPatsLoop t ps r.2

/-- `extract_security_levels`: priority-ordered markings, later
less-specific matches suppressed on span overlap. -/
def extract_security_levels (t : Chars) : List EntityAnn :=
  securityPatsLoop t
    [("TS/SCI", matchTsSci), ("TOP_SECRET", matchTopSecret),
      ("SECRET", matchSecretLvl), ("CUI", matchCui), ("FOUO", matchFouo),
      ("UNCLASSIFIED", matchUnclassified)] []

-- ─── FAR / DFARS clause citations ─────────────────────────────────────

/-- Payload of a clause-citation match: length of the captured base
`NN.NNN-N{1,4}` and the optional `Alt` numeral span. -/
structure ClauseG where
  baseLen : Nat
  alt : Option (Nat × Nat)
deriving DecidableEq

/-- The optional `(?:\s+Alt(?:ernate)?\s+([IVX]+|\d+))?` tail starting at
offset `e`; consumes nothing on failure. -/
def altTry (s : Chars) (e : Nat) : Nat × Option (Nat × Nat) :=
  let w1 := runLen isPySpace s e
  if w1 = 0 then (e, none)
  else
    let p := e + w1
    if !litAt "Alt".data s p then (e, none)
    else
      let p2 := if litAt "ernate".data s (p + 3) then p + 9 else p + 3
      let w2 := runLen isPySpace s p2
      if w2 = 0 then (e, none)
      else
        let q := p2 + w2
        let ivx := runLen (fun c => c = 'I' || c = 'V' || c = 'X') s q
        if 1 ≤ ivx then (q + ivx, some (q, ivx))
        else
          let dg := runLen isPyDigit s q
          if 1 ≤ dg then (q + dg, some (q, dg)) else (e, none)

/-- The optional `(?:\s*\(Dev\))?` tail starting at offset `e`. -/
def devTry (s : Chars) (e : Nat) : Nat :=
  let w := runLen isPySpace s e
  if litAt "(Dev)".data s (e + w) then e + w + 5 else e

/-- `_FAR_CLAUSE_RE`: `\b(52\.\d{3}-\d{1,4})` with optional `(Dev)` and
`Alt` tails. -/
def matchFar : Matcher ClauseG := fun prev s =>
  if bdryStart prev s && litAt "52.".data s 0 && isDigitsN s 3 3
      && charTest s 6 (· = '-') then
    let run := runLen isPyDigit s 7
    if run = 0 then none
    else
      let d := min run 4
      let baseLen := 7 + d
      let devEnd := devTry s baseLen
      let fin := altTry s devEnd
      some (fin.1, ⟨baseLen, fin.2⟩)
  else none

/-- `_DFARS_CLAUSE_RE`: `\b(252\.\d{3}-\d{4})` with optional tails. -/
def matchDfars : Matcher ClauseG := fun prev s =>
  if bdryStart prev s && litAt "252.".data s 0 && isDigitsN s 4 3
      && charTest s 7 (· = '-') && isDigitsN s 8 4 then
    let baseLen := 12
    let devEnd := devTry s baseLen
    let fin := altTry s devEnd
    some (fin.1, ⟨baseLen, fin.2⟩)
  else none

/-- Shared body of `extract_far_clauses` / `extract_dfars_clauses`:
`full = m.group(0).strip()`, span `[m.start(), m.start() + len(full))`,
metadata `clause_base`, `deviation` (if `"(Dev)" in full`), `alternate`. -/
def clauseAnnOf (etype : String) (t : Chars) (m : Nat × Nat × ClauseG) :
    EntityAnn :=
  let pos := m.1
  let full := pyStrip (pySlice t pos (pos + m.2.1))
  { entity_type := etype
    entity_value := chStr full
    start_char := pos, end_char := pos + full.length, confidence := 1
    metadata :=
      [("clause_base", .str (chStr (pySlice t pos (pos + m.2.2.baseLen))))]
      ++ (if containsSub full "(Dev)".data then [("deviation", .bool true)]
          else [])
      ++ (match m.2.2.alt with
          | some sp =>
            [("alternate", .str (chStr (pySlice t (pos + sp.1)
              (pos + sp.1 + sp.2))))]
          | none => []) }

def extract_far_clauses (t : Chars) : List EntityAnn :=
  (finditer matchFar t).map (clauseAnnOf "FAR_CLAUSE" t)

def extract_dfars_clauses (t : Chars) : List EntityAnn :=
  (finditer matchDfars t).map (clauseAnnOf "DFARS_CLAUSE" t)

-- ─── Dollar amounts (`_DOLLAR_RE`) ────────────────────────────────────

/-- Payload of a dollar match: the digit-group span and the optional
multiplier-suffix span, relative to the match start. -/
structure DollarG where
  g1off : Nat
  g1len : Nat
  mult : Option (Nat × Nat)
deriving DecidableEq

def isMultChar (c : Char) : Bool :=
  c = 'k' || c = 'K' || c = 'm' || c = 'M' || c = 'b' || c = 'B'
    || c = 't' || c = 'T'

/-- One attempt of the `\s*(mult)?\b` tail at whitespace length `j`:
multiplier present (with, then without, `illion`) before absent-with-`\b`. -/
def multHereTry (s : Chars) (e j : Nat) : Option (Nat × Option (Nat × Nat)) :=
  let p := e + j
  let viaMult : Option (Nat × Option (Nat × Nat)) :=
    if charTest s p isMultChar then
      if litAt "illion".data s (p + 1) && noWordAt s (p + 7) then
        some (p + 7, some (p, 7))
      else if noWordAt s (p + 1) then some (p + 1, some (p, 1))
      else none
    else none
  match viaMult with
  | some r => some r
  | none => if bdryMid s p then some (p, none) else none

/-- The `\s*([kKmMbBtT](?:illion|illion)?)?\b` tail after the digit group
ending at `e`: Python's backtracking order over the greedy whitespace
length, from `j` down to zero. -/
def multTailTry (s : Chars) (e : Nat) : Nat → Option (Nat × Option (Nat × Nat))
  | 0 => multHereTry s e 0
  | j + 1 =>
    match multHereTry s e (j + 1) with
    | some r => some r
    | none => multTailTry s e j

/-- Try digit-group lengths from the greedy maximum down (Python
backtracking of `[\d,]+`), the optional decimal part only at the full
run. -/
def dollarG1Try (s : Chars) (q r : Nat) : Nat → Option (Nat × DollarG)
  | 0 => none
  | gl + 1 =>
    let glen := gl + 1
    let base := q + glen
    let withFrac : Option (Nat × DollarG) :=
      if glen = r && charTest s base (· = '.') then
        let fr := runLen isPyDigit s (base + 1)
        if 1 ≤ fr then
          let e := base + 1 + fr
          match multTailTry s e (runLen isPySpace s e) with
          | some (fin, mult) => some (fin, ⟨q, glen + 1 + fr, mult⟩)
          | none => none
        else none
      else none
    match withFrac with
    | some res => some res
    | none =>
      match multTailTry s base (runLen isPySpace s base) with
      | some (fin, mult) => some (fin, ⟨q, glen, mult⟩)
      | none => dollarG1Try s q r gl

/-- `_DOLLAR_RE`: `$`-prefixed or `USD `-prefixed amount with optional
decimal and multiplier suffix. -/
def matchDollar : Matcher DollarG := fun _ s =>
  if charTest s 0 (· = '$') then
    let w1 := runLen isPySpace s 1
    let q := 1 + w1
    let r := runLen (fun c => isPyDigit c || c = ',') s q
    if r = 0 then none else dollarG1Try s q r r
  else if litAt "USD".data s 0 then
    let w1 := runLen isPySpace s 3
    if w1 = 0 then none
    else
      let q := 3 + w1
      let r := runLen (fun c => isPyDigit c || c = ',') s q
      if r = 0 then none else dollarG1Try s q r r
  else none

/-- Python `float(...)` on a digit string with an optional single decimal
point, in exact rational arithmetic. -/
def parseDecimal (l : Chars) : Rat :=
  let ip := l.takeWhile isPyDigit
  match l.drop ip.length with
  | '.' :: frac =>
    let fd := frac.takeWhile isPyDigit
    (digitsToNat ip : Rat) + (digitsToNat fd : Rat) / ((10 : Rat) ^ fd.length)
  | _ => (digitsToNat ip : Rat)

/-- `_MULT_MAP.get(key, 1)` on the first suffix character. -/
def multMap (c : Char) : Rat :=
  if c = 'k' || c = 'K' then 1000
  else if c = 'm' || c = 'M' then 1000000
  else if c = 'b' || c = 'B' then 1000000000
  else if c = 't' || c = 'T' then 1000000000000
  else 1

/-- `_normalize_dollar`: strip commas, parse, scale by the multiplier. -/
def normalize_dollar (raw : Chars) (suffix : Option Chars) : Rat :=
  let cleaned := raw.filter (fun c => !(c = ','))
  let value := parseDecimal cleaned
  match suffix with
  | some (c :: _) => value * multMap c
  | _ => value

def extract_dollar_amounts (t : Chars) : List EntityAnn :=
  (finditer matchDollar t).map (fun m =>
    let pos := m.1
    let g := m.2.2
    let raw_digits := pySlice t (pos + g.g1off) (pos + g.g1off + g.g1len)
    let suffix := g.mult.map (fun sp => pySlice t (pos + sp.1) (pos + sp.1 + sp.2))
    let full := pyStrip (pySlice t pos (pos + m.2.1))
    { entity_type := "DOLLAR_AMOUNT"
      entity_value := chStr full
      start_char := pos, end_char := pos + full.length, confidence := 1
      metadata :=
        [("normalized_value", .num (normalize_dollar raw_digits suffix)),
          ("raw_text", .str (chStr full))] })

-- ─── Dates (`_DATE_*_RE`) ─────────────────────────────────────────────

/-- Group spans of a date match, relative to the match start. -/
structure DateG where
  g1off : Nat
  g1len : Nat
  g2off : Nat
  g2len : Nat
  g3off : Nat
  g3len : Nat
deriving DecidableEq

/-- `_MONTH_MAP`, in declaration order (the order of the regex
alternation `_MONTH_NAMES`). -/
def monthNames : List (Chars × Nat) :=
  [("january".data, 1), ("jan".data, 1), ("february".data, 2),
    ("feb".data, 2), ("march".data, 3), ("mar".data, 3), ("april".data, 4),
    ("apr".data, 4), ("may".data, 5), ("june".data, 6), ("jun".data, 6),
    ("july".data, 7), ("jul".data, 7), ("august".data, 8), ("aug".data, 8),
    ("september".data, 9), ("sep".data, 9), ("sept".data, 9),
    ("october".data, 10), ("oct".data, 10), ("november".data, 11),
    ("nov".data, 11), ("december".data, 12), ("dec".data, 12)]

/-- Try the month-name alternation at offset `i` with a continuation,
backtracking to the next alternative on continuation failure. -/
def monthTry (s : Chars) (i : Nat) (k : Nat → Option α) : List (Chars × Nat) → Option α
  | [] => none
  | (nm, _) :: rest =>
    if ciLitAt nm s i then
      match k nm.length with
      | some r => some r
      | none => monthTry s i k rest
    else monthTry s i k rest

/-- `_MONTH_MAP[name.lower()]` (0 if absent, which cannot happen for a
matched group). -/
def monthMapLookup (l : Chars) : Nat :=
  ((monthNames.find? (fun p => p.1 = l.map pyToLower)).map (·.2)).getD 0

/-- `_DATE_DMY_RE`: `\b(\d{1,2})\s+(month)\s+(\d{4})\b` (IGNORECASE). -/
def matchDMY : Matcher DateG := fun prev s =>
  if bdryStart prev s then
    let dayLen := if isDigitsN s 0 2 then 2 else if isDigitsN s 0 1 then 1 else 0
    if dayLen = 0 then none
    else
      let w1 := runLen isPySpace s dayLen
      if w1 = 0 then none
      else
        monthTry s (dayLen + w1) (fun mlen =>
          let j := dayLen + w1 + mlen
          let w2 := runLen isPySpace s j
          if 1 ≤ w2 && isDigitsN s (j + w2) 4 && noWordAt s (j + w2 + 4) then
            some (j + w2 + 4,
              ⟨0, dayLen, dayLen + w1, mlen, j + w2, 4⟩)
          else none) monthNames
  else none

/-- `_DATE_MDY_RE`: `\b(month)\s+(\d{1,2}),?\s+(\d{4})\b` (IGNORECASE). -/
def matchMDY : Matcher DateG := fun prev s =>
  if bdryStart prev s then
    monthTry s 0 (fun mlen =>
      let w1 := runLen isPySpace s mlen
      if w1 = 0 then none
      else
        let p := mlen + w1
        let dayLen := if isDigitsN s p 2 then 2
          else if isDigitsN s p 1 then 1 else 0
        if dayLen = 0 then none
        else
          let q := p + dayLen
          let q2 := if charTest s q (· = ',') then q + 1 else q
          let w2 := runLen isPySpace s q2
          if 1 ≤ w2 && isDigitsN s (q2 + w2) 4 && noWordAt s (q2 + w2 + 4) then
            some (q2 + w2 + 4, ⟨0, mlen, p, dayLen, q2 + w2, 4⟩)
          else none) monthNames
  else none

/-- `_DATE_ISO_RE`: `\b(\d{4})-(\d{2})-(\d{2})\b`. -/
def matchISO : Matcher DateG := fun prev s =>
  if bdryStart prev s && isDigitsN s 0 4 && charTest s 4 (· = '-')
      && isDigitsN s 5 2 && charTest s 7 (· = '-') && isDigitsN s 8 2
      && noWordAt s 10 then
    some (10, ⟨0, 4, 5, 2, 8, 2⟩)
  else none

/-- `_DATE_US_RE`: `\b(\d{1,2})/(\d{1,2})/(\d{4})\b`. -/
def matchUS : Matcher DateG := fun prev s =>
  if bdryStart prev s then
    let d1 := if isDigitsN s 0 2 && charTest s 2 (· = '/') then 2
      else if isDigitsN s 0 1 && charTest s 1 (· = '/') then 1 else 0
    if d1 = 0 then none
    else
      let i := d1 + 1
      let d2 := if isDigitsN s i 2 && charTest s (i + 2) (· = '/') then 2
        else if isDigitsN s i 1 && charTest s (i + 1) (· = '/') then 1 else 0
      if d2 = 0 then none
      else
        let j := i + d2 + 1
        if isDigitsN s j 4 && noWordAt s (j + 4) then
          some (j + 4, ⟨0, d1, i, d2, j, 4⟩)
        else none
  else none

def isLeapYear (y : Nat) : Bool :=
  y % 4 = 0 && (y % 100 ≠ 0 || y % 400 = 0)

/-- `calendar.monthrange(year, month)[1]` for a valid month. -/
def monthDays (y m : Nat) : Nat :=
  if m = 2 then (if isLeapYear y then 29 else 28)
  else if m = 4 || m = 6 || m = 9 || m = 11 then 30
  else 31

/-- `_validate_date`. -/
def validate_date (y m d : Nat) : Bool :=
  1 ≤ m && m ≤ 12 && 1 ≤ d && d ≤ monthDays y m

def pad2 (n : Nat) : String := if n < 10 then "0" ++ toString n else toString n

def pad4 (n : Nat) : String :=
  if n < 10 then "000" ++ toString n
  else if n < 100 then "00" ++ toString n
  else if n < 1000 then "0" ++ toString n
  else toString n

/-- `_to_iso`. -/
def to_iso (y m d : Nat) : String := pad4 y ++ "-" ++ pad2 m ++ "-" ++ pad2 d

/-- (year, month, day) of a DMY match. -/
def dmyYMD (t : Chars) (pos : Nat) (g : DateG) : Nat × Nat × Nat :=
  (parseNatAt t (pos + g.g3off) g.g3len,
   monthMapLookup (pySlice t (pos + g.g2off) (pos + g.g2off + g.g2len)),
   parseNatAt t (pos + g.g1off) g.g1len)

/-- (year, month, day) of an MDY match. -/
def mdyYMD (t : Chars) (pos : Nat) (g : DateG) : Nat × Nat × Nat :=
  (parseNatAt t (pos + g.g3off) g.g3len,
   monthMapLookup (pySlice t (pos + g.g1off) (pos + g.g1off + g.g1len)),
   parseNatAt t (pos + g.g2off) g.g2len)

/-- (year, month, day) of an ISO match. -/
def isoYMD (t : Chars) (pos : Nat) (g : DateG) : Nat × Nat × Nat :=
  (parseNatAt t (pos + g.g1off) g.g1len,
   parseNatAt t (pos + g.g2off) g.g2len,
   parseNatAt t (pos + g.g3off) g.g3len)

/-- (year, month, day) of a US `MM/DD/YYYY` match. -/
def usYMD (t : Chars) (pos : Nat) (g : DateG) : Nat × Nat × Nat :=
  (parseNatAt t (pos + g.g3off) g.g3len,
   parseNatAt t (pos + g.g1off) g.g1len,
   parseNatAt t (pos + g.g2off) g.g2len)

/-- One format loop of `extract_dates`: validate the calendar date; in
the later loops (`checkSeen`) suppress a match whose start lies inside an
already-accepted span; accepted spans accumulate in `seen`. -/
def dateScan (t : Chars) (getYMD : Nat → DateG → Nat × Nat × Nat)
    (checkSeen : Bool) :
    List (Nat × Nat × DateG) → List (Nat × Nat) →
    List EntityAnn × List (Nat × Nat)
  | [], seen => ([], seen)
  | (pos, len, g) :: rest, seen =>
    let ymd := getYMD pos g
    if validate_date ymd.1 ymd.2.1 ymd.2.2 then
      if checkSeen && seen.any (fun sp => sp.1 ≤ pos && pos < sp.2) then
        dateScan t getYMD checkSeen rest seen
      else
        let res := dateScan t getYMD checkSeen rest ((pos, pos + len) :: seen)
        ({ entity_type := "DATE"
           entity_value := chStr (pySlice t pos (pos + len))
           start_char := pos, end_char := pos + len, confidence := 1
           metadata := [("iso_date", .str (to_iso ymd.1 ymd.2.1 ymd.2.2))] }
          :: res.1, res.2)
    else dateScan t getYMD checkSeen rest seen

/-- `extract_dates`: the four format loops in order, sharing
`seen_spans`. -/
def extract_dates (t : Chars) : List EntityAnn :=
  let r1 := dateScan t (dmyYMD t) false (finditer matchDMY t) []
  let r2 := dateScan t (mdyYMD t) true (finditer matchMDY t) r1.2
  let r3 := dateScan t (isoYMD t) true (finditer matchISO t) r2.2
  let r4 := dateScan t (usYMD t) true (finditer matchUS t) r3.2
  r1.1 ++ r2.1 ++ r3.1 ++ r4.1

/-- The four passes of `extract_dates`, named for the ordering claims. -/
def datePass1 (t : Chars) : List EntityAnn × List (Nat × Nat) :=
  dateScan t (dmyYMD t) false (finditer matchDMY t) []

def datePass2 (t : Chars) : List EntityAnn × List (Nat × Nat) :=
  dateScan t (mdyYMD t) true (finditer matchMDY t) (datePass1 t).2

def datePass3 (t : Chars) : List EntityAnn × List (Nat × Nat) :=
  dateScan t (isoYMD t) true (finditer matchISO t) (datePass2 t).2

def datePass4 (t : Chars) : List EntityAnn × List (Nat × Nat) :=
  dateScan t (usYMD t) true (finditer matchUS t) (datePass3 t).2

-- ─── NAICS codes (`_NAICS_RE`, `_PHONE_RE`, `_ZIP_PLUS4_RE`) ──────────

/-- Payload: offset of the six-digit group and whether the labeled
alternative matched. -/
structure NaicsG where
  g1off : Nat
  labeled : Bool
deriving DecidableEq

/-- `_NAICS_RE`: labeled alternative
`NAICS(?:\s+(?:Code|code))?[\s:]+(\d{6})` first, then the bare
`(?<=\b)(\d{6})(?=\b)`. -/
def matchNaics : Matcher NaicsG := fun prev s =>
  let labeled : Option (Nat × NaicsG) :=
    if litAt "NAICS".data s 0 then
      let withCode : Option (Nat × NaicsG) :=
        let w1 := runLen isPySpace s 5
        if 1 ≤ w1 && (litAt "Code".data s (5 + w1)
            || litAt "code".data s (5 + w1)) then
          let p := 5 + w1 + 4
          let w2 := runLen wsColon s p
          if 1 ≤ w2 && isDigitsN s (p + w2) 6 then
            some (p + w2 + 6, ⟨p + w2, true⟩)
          else none
        else none
      match withCode with
      | some r => some r
      | none =>
        let w2 := runLen wsColon s 5
        if 1 ≤ w2 && isDigitsN s (5 + w2) 6 then
          some (5 + w2 + 6, ⟨5 + w2, true⟩)
        else none
    else none
  match labeled with
  | some r => some r
  | none =>
    if bdryStart prev s && isDigitsN s 0 6 && noWordAt s 6 then
      some (6, ⟨0, false⟩)
    else none

/-- `_PHONE_RE`: `\(?\d{3}\)?[-.\s]?\d{3}[-.\s]?\d{4}` (all optional
parts deterministic, their classes being disjoint from digits). -/
def matchPhone : Matcher Unit := fun _ s =>
  let sep := fun c => c = '-' || c = '.' || isPySpace c
  let i0 := if charTest s 0 (· = '(') then 1 else 0
  if isDigitsN s i0 3 then
    let i1 := i0 + 3
    let i2 := if charTest s i1 (· = ')') then i1 + 1 else i1
    let i3 := if charTest s i2 sep then i2 + 1 else i2
    if isDigitsN s i3 3 then
      let i4 := i3 + 3
      let i5 := if charTest s i4 sep then i4 + 1 else i4
      if isDigitsN s i5 4 then some (i5 + 4, ()) else none
    else none
  else none

/-- `_ZIP_PLUS4_RE`: `\d{5}-\d{4}`. -/
def matchZip : Matcher Unit := fun _ s =>
  if isDigitsN s 0 5 && charTest s 5 (· = '-') && isDigitsN s 6 4 then
    some (10, ())
  else none

/-- `extract_naics_codes`: adjacent-digit, phone-span, zip-span and (for
unlabeled hits) leading-digit and NAICS-context filters. -/
def extract_naics_codes (t : Chars) : List EntityAnn :=
  let phones := finditer matchPhone t
  let zips := finditer matchZip t
  (finditer matchNaics t).filterMap (fun m =>
    let cs := m.1 + m.2.2.g1off
    let ce := cs + 6
    if 0 < cs && charTest t (cs - 1) isPyDigit then none
    else if charTest t ce isPyDigit then none
    else if phones.any (fun pm => pm.1 ≤ cs && cs < pm.1 + pm.2.1) then none
    else if zips.any (fun zm => zm.1 ≤ cs && cs < zm.1 + zm.2.1) then none
    else if !m.2.2.labeled &&
        (charTest t cs (· = '0')
          || !containsSub ((pySlice t (cs - 100) cs).map pyToUpper)
               "NAICS".data) then none
    else some
      { entity_type := "NAICS_CODE"
        entity_value := chStr (pySlice t cs ce)
        start_char := cs, end_char := ce, confidence := 1
        metadata := [("labeled", .bool m.2.2.labeled)] })

-- ─── PSC / CAGE / UEI codes ───────────────────────────────────────────

/-- A single captured-group span `(offset, length)` relative to the match
start. -/
structure G1 where
  off : Nat
  len : Nat
deriving DecidableEq

/-- The `([A-Z][A-Z0-9]{3})\b` group of `_PSC_RE` at offset `p`. -/
def pscGroupAt (s : Chars) (p : Nat) : Option (Nat × G1) :=
  if charTest s p isAsciiLetter && classRun s (p + 1) alnumCI 3
      && noWordAt s (p + 4) then
    some (p + 4, ⟨p, 4⟩)
  else none

/-- The shared `[\s:]+` separator plus code group of `_PSC_RE`, starting
at offset `p`. -/
def pscTail (s : Chars) (p : Nat) : Option (Nat × G1) :=
  let cr := runLen wsColon s p
  if 1 ≤ cr then pscGroupAt s (p + cr) else none

/-- `_PSC_RE` (IGNORECASE): label alternation, `[\s:]+`, the code
group. -/
def matchPsc : Matcher G1 := fun _ s =>
  let alt1 : Option (Nat × G1) :=
    if ciLitAt "PSC".data s 0 then
      let wsMax := runLen isPySpace s 3
      let withCode :=
        if ciLitAt "Code".data s (3 + wsMax) then pscTail s (3 + wsMax + 4)
        else none
      match withCode with
      | some r => some r
      | none => pscTail s 3
    else none
  match alt1 with
  | some r => some r
  | none =>
    let alt2 : Option (Nat × G1) :=
      if ciLitAt "Product".data s 0 then
        let w1 := runLen isPySpace s 7
        if 1 ≤ w1 && ciLitAt "Service".data s (7 + w1) then
          let p := 7 + w1 + 7
          let w2 := runLen isPySpace s p
          if 1 ≤ w2 && ciLitAt "Code".data s (p + w2) then
            pscTail s (p + w2 + 4)
          else none
        else none
      else none
    match alt2 with
    | some r => some r
    | none =>
      if ciLitAt "Product/Service".data s 0 then
        let w1 := runLen isPySpace s 15
        if 1 ≤ w1 && ciLitAt "Code".data s (15 + w1) then
          pscTail s (15 + w1 + 4)
        else none
      else none

def extract_psc_codes (t : Chars) : List EntityAnn :=
  (finditer matchPsc t).map (fun m =>
    { entity_type := "PSC_CODE"
      entity_value := chStr (pySlice t (m.1 + m.2.2.off)
        (m.1 + m.2.2.off + m.2.2.len))
      start_char := m.1 + m.2.2.off, end_char := m.1 + m.2.2.off + m.2.2.len
      confidence := 1, metadata := [] })

/-- The `[\s:]*` separator plus 5-character group of `_CAGE_RE`, starting
at offset `p`. -/
def cageTail (s : Chars) (p : Nat) : Option (Nat × G1) :=
  let cr := runLen wsColon s p
  if classRun s (p + cr) alnumCI 5 && noWordAt s (p + cr + 5) then
    some (p + cr + 5, (⟨p + cr, 5⟩ : G1))
  else none

/-- `_CAGE_RE` (IGNORECASE): `(?:CAGE\s+Code|CAGE\s*:)[\s:]*([A-Z0-9]{5})\b`. -/
def matchCage : Matcher G1 := fun _ s =>
  let alt1 : Option (Nat × G1) :=
    if ciLitAt "CAGE".data s 0 then
      let w1 := runLen isPySpace s 4
      if 1 ≤ w1 && ciLitAt "Code".data s (4 + w1) then cageTail s (4 + w1 + 4)
      else none
    else none
  match alt1 with
  | some r => some r
  | none =>
    if ciLitAt "CAGE".data s 0 then
      let w := runLen isPySpace s 4
      if charTest s (4 + w) (· = ':') then cageTail s (4 + w + 1) else none
    else none

def extract_cage_codes (t : Chars) : List EntityAnn :=
  (finditer matchCage t).map (fun m =>
    { entity_type := "CAGE_CODE"
      entity_value := chStr (pySlice t (m.1 + m.2.2.off)
        (m.1 + m.2.2.off + m.2.2.len))
      start_char := m.1 + m.2.2.off, end_char := m.1 + m.2.2.off + m.2.2.len
      confidence := 1, metadata := [] })

/-- The `[\s:]+` separator plus 12-character group of `_UEI_RE`, starting
at offset `p`. -/
def ueiTail (s : Chars) (p : Nat) : Option (Nat × G1) :=
  let cr := runLen wsColon s p
  if 1 ≤ cr && classRun s (p + cr) alnumCI 12 && noWordAt s (p + cr + 12) then
    some (p + cr + 12, (⟨p + cr, 12⟩ : G1))
  else none

/-- `_UEI_RE` (IGNORECASE):
`(?:UEI|Unique\s+Entity\s+(?:ID|Identifier))[\s:]+([A-Z0-9]{12})\b`. -/
def matchUei : Matcher G1 := fun _ s =>
  let alt1 : Option (Nat × G1) :=
    if ciLitAt "UEI".data s 0 then ueiTail s 3 else none
  match alt1 with
  | some r => some r
  | none =>
    if ciLitAt "Unique".data s 0 then
      let w1 := runLen isPySpace s 6
      if 1 ≤ w1 && ciLitAt "Entity".data s (6 + w1) then
        let p0 := 6 + w1 + 6
        let w2 := runLen isPySpace s p0
        if 1 ≤ w2 then
          let p := p0 + w2
          let viaID := if ciLitAt "ID".data s p then ueiTail s (p + 2)
            else none
          match viaID with
          | some r => some r
          | none =>
            if ciLitAt "Identifier".data s p then ueiTail s (p + 10)
            else none
        else none
      else none
    else none

def extract_uei_numbers (t : Chars) : List EntityAnn :=
  (finditer matchUei t).map (fun m =>
    { entity_type := "UEI_NUMBER"
      entity_value := chStr (pySlice t (m.1 + m.2.2.off)
        (m.1 + m.2.2.off + m.2.2.len))
      start_char := m.1 + m.2.2.off, end_char := m.1 + m.2.2.off + m.2.2.len
      confidence := 1, metadata := [] })

-- ─── Period-of-performance ranges (`_POP_RE`, `_POP_FROM_RE`) ─────────

/-- The `_MN` month alternation of the POP date fragments, in source
order (full names, then abbreviations without `May`). -/
def popMonths : List Chars :=
  ["January".data, "February".data, "March".data, "April".data, "May".data,
    "June".data, "July".data, "August".data, "September".data,
    "October".data, "November".data, "December".data, "Jan".data,
    "Feb".data, "Mar".data, "Apr".data, "Jun".data, "Jul".data, "Aug".data,
    "Sep".data, "Sept".data, "Oct".data, "Nov".data, "Dec".data]

/-- Candidate end offsets of `\d{1,2}\s+MN\s+\d{4}` at `i`, in regex
preference order. -/
def fragA (s : Chars) (i : Nat) : List Nat :=
  let dl := if isDigitsN s i 2 then 2 else if isDigitsN s i 1 then 1 else 0
  if dl = 0 then []
  else
    let w1 := runLen isPySpace s (i + dl)
    if w1 = 0 then []
    else
      popMonths.filterMap (fun nm =>
        if ciLitAt nm s (i + dl + w1) then
          let j := i + dl + w1 + nm.length
          let w2 := runLen isPySpace s j
          if 1 ≤ w2 && isDigitsN s (j + w2) 4 then some (j + w2 + 4)
          else none
        else none)

/-- Candidate end offsets of `MN\s+\d{1,2},?\s+\d{4}` at `i`. -/
def fragB (s : Chars) (i : Nat) : List Nat :=
  popMonths.filterMap (fun nm =>
    if ciLitAt nm s i then
      let w1 := runLen isPySpace s (i + nm.length)
      if w1 = 0 then none
      else
        let p := i + nm.length + w1
        let dl := if isDigitsN s p 2 then 2
          else if isDigitsN s p 1 then 1 else 0
        if dl = 0 then none
        else
          let q := p + dl
          let q2 := if charTest s q (· = ',') then q + 1 else q
          let w2 := runLen isPySpace s q2
          if 1 ≤ w2 && isDigitsN s (q2 + w2) 4 then some (q2 + w2 + 4)
          else none
    else none)

/-- Candidate end offset of `\d{4}-\d{2}-\d{2}` at `i`. -/
def fragC (s : Chars) (i : Nat) : List Nat :=
  if isDigitsN s i 4 && charTest s (i + 4) (· = '-') && isDigitsN s (i + 5) 2
      && charTest s (i + 7) (· = '-') && isDigitsN s (i + 8) 2 then
    [i + 10]
  else []

/-- Candidate end offset of `\d{1,2}/\d{1,2}/\d{4}` at `i`. -/
def fragD (s : Chars) (i : Nat) : List Nat :=
  let d1 := if isDigitsN s i 2 && charTest s (i + 2) (· = '/') then 2
    else if isDigitsN s i 1 && charTest s (i + 1) (· = '/') then 1 else 0
  if d1 = 0 then []
  else
    let p := i + d1 + 1
    let d2 := if isDigitsN s p 2 && charTest s (p + 2) (· = '/') then 2
      else if isDigitsN s p 1 && charTest s (p + 1) (· = '/') then 1 else 0
    if d2 = 0 then []
    else
      let j := p + d2 + 1
      if isDigitsN s j 4 then [j + 4] else []

/-- Candidate end offsets of the `_DATE_FRAG` alternation at `i`, in
alternative order. -/
def dateFragEnds (s : Chars) (i : Nat) : List Nat :=
  fragA s i ++ fragB s i ++ fragC s i ++ fragD s i

/-- The `\s+(?:through|thru|to|-|–|—)\s+` separator followed by the
second fragment, starting right after a first-fragment candidate end. -/
def popSepThenFrag (s : Chars) (e1 : Nat) : Option (Nat × Nat) :=
  let wA := runLen isPySpace s e1
  if wA = 0 then none
  else
    (["through".data, "thru".data, "to".data, "-".data, "–".data,
        "—".data] : List Chars).findSome? (fun sep =>
      if ciLitAt sep s (e1 + wA) then
        let p := e1 + wA + sep.length
        let wB := runLen isPySpace s p
        if wB = 0 then none
        else
          (dateFragEnds s (p + wB)).findSome? (fun e2 =>
            some (p + wB, e2))
      else none)

/-- `_POP_FROM_RE`: `\bfrom\s+(frag)\s+to\s+(frag)`; payload is the two
fragment spans. -/
def matchPopFrom : Matcher (G1 × G1) := fun prev s =>
  if bdryStart prev s && ciLitAt "from".data s 0 then
    let w1 := runLen isPySpace s 4
    if w1 = 0 then none
    else
      let i := 4 + w1
      (dateFragEnds s i).findSome? (fun e1 =>
        let wA := runLen isPySpace s e1
        if wA = 0 then none
        else if ciLitAt "to".data s (e1 + wA) then
          let p := e1 + wA + 2
          let wB := runLen isPySpace s p
          if wB = 0 then none
          else
            (dateFragEnds s (p + wB)).findSome? (fun e2 =>
              some (e2, (⟨i, e1 - i⟩, (⟨p + wB, e2 - (p + wB)⟩ : G1))))
        else none)
  else none

/-- The two-fragment body of `_POP_RE` starting at offset `k`: first
fragment, separator, second fragment. -/
def popCont (s : Chars) (k : Nat) : Option (Nat × (G1 × G1)) :=
  (dateFragEnds s k).findSome? (fun e1 =>
    (popSepThenFrag s e1).map (fun f2 =>
      (f2.2, ((⟨k, e1 - k⟩ : G1), (⟨f2.1, f2.2 - f2.1⟩ : G1)))))

/-- `_POP_RE`: optional `(?:period\s+of\s+performance|POP)[:\s]*` prefix,
fragment, separator alternation, fragment. -/
def matchPop : Matcher (G1 × G1) := fun _ s =>
  let prefEnd : Option Nat :=
    if ciLitAt "period".data s 0 then
      let w1 := runLen isPySpace s 6
      if 1 ≤ w1 && ciLitAt "of".data s (6 + w1) then
        let p := 6 + w1 + 2
        let w2 := runLen isPySpace s p
        if 1 ≤ w2 && ciLitAt "performance".data s (p + w2) then
          some (p + w2 + 11 + runLen wsColon s (p + w2 + 11))
        else none
      else none
    else if ciLitAt "POP".data s 0 then
      some (3 + runLen wsColon s 3)
    else none
  match prefEnd with
  | some pe =>
    (match popCont s pe with
      | some r => some r
      | none => popCont s 0)
  | none => popCont s 0

/-- `_parse_date_fragment`: anchored `.match` of the four date regexes in
order, each validated; returns the ISO string. -/
def parse_date_fragment (frag : Chars) : Option String :=
  let f := pyStrip frag
  let tryOne := fun (m : Matcher DateG)
      (getYMD : Chars → Nat → DateG → Nat × Nat × Nat) =>
    match m none f with
    | some (_, g) =>
      let ymd := getYMD f 0 g
      if validate_date ymd.1 ymd.2.1 ymd.2.2 then
        some (to_iso ymd.1 ymd.2.1 ymd.2.2)
      else none
    | none => none
  match tryOne matchDMY dmyYMD with
  | some r => some r
  | none =>
    match tryOne matchMDY mdyYMD with
    | some r => some r
    | none =>
      match tryOne matchISO isoYMD with
      | some r => some r
      | none => tryOne matchUS usYMD

/-- A POP candidate `(start, end, start_iso, end_iso)`. -/
abbrev PopCand := Nat × Nat × String × String

/-- Candidate sort key of `extract_pop_ranges`: longer span first, then
earlier start (`(-(end-start), start)`). -/
def popCandLe (a b : PopCand) : Bool :=
  if b.2.1 - b.1 < a.2.1 - a.1 then true
  else if a.2.1 - a.1 < b.2.1 - b.1 then false
  else a.1 ≤ b.1

/-- The greedy overlap filter of `extract_pop_ranges`. -/
def popTake (t : Chars) : List PopCand → List (Nat × Nat) → List EntityAnn
  | [], _ => []
  | c :: rest, taken =>
    if taken.any (fun sp => c.1 < sp.2 && sp.1 < c.2.1) then
      popTake t rest taken
    else
      { entity_type := "POP_RANGE"
        entity_value := chStr (pyStrip (pySlice t c.1 c.2.1))
        start_char := c.1, end_char := c.2.1, confidence := 1
        metadata := [("start_date", .str c.2.2.1), ("end_date", .str c.2.2.2)] }
        :: popTake t rest ((c.1, c.2.1) :: taken)

/-- `extract_pop_ranges`: collect candidates from both patterns, keep
those whose fragments parse as valid dates, prefer longer spans, drop
overlaps, sort by start. -/
def extract_pop_ranges (t : Chars) : List EntityAnn :=
  let mkCands := fun (ms : List (Nat × Nat × (G1 × G1))) =>
    ms.filterMap (fun m =>
      let f1 := pySlice t (m.1 + m.2.2.1.off) (m.1 + m.2.2.1.off + m.2.2.1.len)
      let f2 := pySlice t (m.1 + m.2.2.2.off) (m.1 + m.2.2.2.off + m.2.2.2.len)
      match parse_date_fragment f1, parse_date_fragment f2 with
      | some iso1, some iso2 => some ((m.1, m.1 + m.2.1, iso1, iso2) : PopCand)
      | _, _ => none)
  let candidates := mkCands (finditer matchPopFrom t)
    ++ mkCands (finditer matchPop t)
  let sortedCands := pySortBy popCandLe candidates
  let results := popTake t sortedCands []
  pySortBy (fun a b => decide (a.start_char ≤ b.start_char)) results

-- ─── Battery orchestrator (`extract_all_entities`) ────────────────────

/-- `_ALL_EXTRACTORS` concatenated in source order. -/
def allExtractorResults (t : Chars) : List EntityAnn :=
  extract_far_clauses t ++ extract_dfars_clauses t
    ++ extract_contract_numbers t ++ extract_naics_codes t
    ++ extract_psc_codes t ++ extract_cage_codes t ++ extract_uei_numbers t
    ++ extract_dollar_amounts t ++ extract_dates t ++ extract_pop_ranges t
    ++ extract_security_levels t ++ extract_clins t

/-- `extract_all_entities`: concatenate, stably sort by
`(start_char, entity_type)`, drop exact `(type, start, end)` duplicates
keeping the first in sorted order. -/
def extract_all_entities (t : Chars) : List EntityAnn :=
  dedupByDupKey [] (pySortBy annLe (allExtractorResults t))

-- ─── Clause chunker (clause_chunker.py) ───────────────────────────────

/-- Length of the `re.split` separator `\n\s*\n|\n(?=[ \t]+\S)` matching at
the start of `s`, if any.  The greedy-with-backtrack `\n\s*\n` consumes the
leading newline and the whitespace run up to its last contained newline;
the lookahead alternative consumes just the newline. -/
def paraSepLen (s : Chars) : Option Nat :=
  match s with
  | '\n' :: rest =>
    let ws := rest.takeWhile isPySpace
    if ws.contains '\n' then
      some (1 + (ws.length - (ws.reverse.takeWhile (fun c => !(c = '\n'))).length))
    else
      let st := rest.takeWhile (fun c => c = ' ' || c = '\t')
      if !st.isEmpty &&
          (match rest.drop st.length with
            | c2 :: _ => !isPySpace c2
            | [] => false) then
        some 1
      else none
  | _ => none

/-- Fuel-driven body of `reSplitParas`; the fuel (initially the text
length) strictly exceeds the characters consumed per step, so the
exhaustion arm is never reached. -/
def reSplitParasF : Nat → Chars → List Chars
  | _, [] => [[]]
  | 0, s => [s]
  | fuel + 1, c :: rest =>
    match paraSepLen (c :: rest) with
    | some k => [] :: reSplitParasF fuel (rest.drop (k - 1))
    | none =>
      match reSplitParasF fuel rest with
      | [] => [[c]]
      | p :: ps => (c :: p) :: ps

/-- `re.split(r"\n\s*\n|\n(?=[ \t]+\S)", text)` from
`ClauseChunker._chunk_paragraphs`. -/
def reSplitParas (s : Chars) : List Chars := reSplitParasF s.length s

/-- Length of the `re.split` separator `(?<=[.!?])\s+` at the start of `s`
given the previous character, if any. -/
def sentSepLen (prev : Option Char) (s : Chars) : Option Nat :=
  match prev with
  | some p =>
    if p = '.' || p = '!' || p = '?' then
      let ws := s.takeWhile isPySpace
      if ws.isEmpty then none else some ws.length
    else none
  | none => none

/-- Fuel-driven body of `reSplitSents` (fuel initially the text length). -/
def reSplitSentsF : Nat → Option Char → Chars → List Chars
  | _, _, [] => [[]]
  | 0, _, s => [s]
  | fuel + 1, prev, c :: rest =>
    match sentSepLen prev (c :: rest) with
    | some k => [] :: reSplitSentsF fuel none (rest.drop (k - 1))
    | none =>
      match reSplitSentsF fuel (some c) rest with
      | [] => [[c]]
      | p :: ps => (c :: p) :: ps

/-- `re.split(r"(?<=[.!?])\s+", text)` from `ClauseChunker._force_split`,
scanning with the previous character for the look-behind. -/
def reSplitSents (prev : Option Char) (s : Chars) : List Chars :=
  reSplitSentsF s.length prev s

/-- Lines of a text (used for the header and table/list heuristics). -/
def splitLines (s : Chars) : List Chars :=
  match s with
  | [] => [[]]
  | '\n' :: rest => [] :: splitLines rest
  | c :: rest =>
    match splitLines rest with
    | [] => [[c]]
    | p :: ps => (c :: p) :: ps

/-- `_has_table`: a line containing two pipes, or a double tab. -/
def has_table (s : Chars) : Bool :=
  (splitLines s).any (fun ln => 2 ≤ (ln.filter (fun c => c = '|')).length)
    || containsSub s ['\t', '\t']

/-- One list-bullet test of `_has_list` starting at a line-start suffix:
`\s*` then `[(\[][a-z0-9]+[)\]]` or `\d+\.` or `[-•*]`, then `\s+`. -/
def bulletAt (s : Chars) : Bool :=
  let t := s.dropWhile isPySpace
  match t with
  | c :: rest =>
    if c = '(' || c = '[' then
      let run := rest.takeWhile (fun d => isLowerAZ d || isPyDigit d)
      match rest.drop run.length with
      | c2 :: rest2 =>
        !run.isEmpty && (c2 = ')' || c2 = ']') &&
          (match rest2 with
            | c3 :: _ => isPySpace c3
            | [] => false)
      | [] => false
    else if isPyDigit c then
      let run := (c :: rest).takeWhile isPyDigit
      match (c :: rest).drop run.length with
      | c2 :: rest2 =>
        c2 = '.' &&
          (match rest2 with
            | c3 :: _ => isPySpace c3
            | [] => false)
      | [] => false
    else if c = '-' || c = '•' || c = '*' then
      match rest with
      | c2 :: _ => isPySpace c2
      | [] => false
    else false
  | [] => false

/-- `_has_list`: the bullet pattern matches at some line start. -/
def has_list (s : Chars) : Bool :=
  bulletAt s || go s
where
  go : Chars → Bool
    | [] => false
    | '\n' :: rest => bulletAt rest || go rest
    | _ :: rest => go rest

/-- The chunk `metadata` dict filled by `ClauseChunker._make_chunk` (plus
the `document_id` added by `DocumentProcessor.process`). -/
structure ChunkMeta where
  word_count : Nat
  char_count : Nat
  has_table : Bool
  has_list : Bool
  parent_clause : Option Chars
  document_id : Option String := none
deriving DecidableEq

/-- The `DocumentChunk` dataclass of clause_chunker.py. -/
structure DocumentChunk where
  chunk_text : Chars
  section_type : String
  clause_number : Option Chars
  chunk_index : Nat
  metadata : ChunkMeta
deriving DecidableEq

/-- Chunker size configuration (`target_tokens`, `max_tokens`,
`overlap_tokens`; defaults 500 / 600 / 50). -/
structure ChunkCfg where
  target_tokens : Nat := 500
  max_tokens : Nat := 600
  overlap_tokens : Nat := 50
deriving DecidableEq

/-- `ClauseChunker._make_chunk`. -/
def make_chunk (text : Chars) (section_type : SectionType)
    (clause_number : Option Chars) : DocumentChunk :=
  { chunk_text := text
    section_type := section_type.value
    clause_number := clause_number
    chunk_index := 0
    metadata :=
      { word_count := word_count text
        char_count := text.length
        has_table := has_table text
        has_list := has_list text
        parent_clause := clause_number } }

/-- The overlap-seeding loop shared by `_chunk_paragraphs` and
`_force_split`: walk the closed chunk's parts most-recent-first, taking
whole parts while the overlap budget is not exceeded. -/
def overlapTail (overlap_tokens : Nat) (parts : List Chars) :
    List Chars × Nat :=
  go parts.reverse [] 0
where
  go : List Chars → List Chars → Nat → List Chars × Nat
    | [], acc, wc => (acc, wc)
    | p :: rest, acc, wc =>
      let pwc := word_count p
      if wc + pwc > overlap_tokens then (acc, wc)
      else go rest (p :: acc) (wc + pwc)

/-- The sentence loop of `ClauseChunker._force_split`. -/
def forceSplitLoop (cfg : ChunkCfg) (st : SectionType) (cn : Option Chars) :
    List Chars → List Chars → Nat → List DocumentChunk
  | [], current, _ =>
    if current ≠ [] then [make_chunk (pyJoin [' '] current) st cn] else []
  | sent :: rest, current, cwc =>
    let swc := word_count sent
    if cwc + swc > cfg.target_tokens ∧ current ≠ [] then
      let chunk := make_chunk (pyJoin [' '] current) st cn
      let ov := overlapTail cfg.overlap_tokens current
      chunk :: forceSplitLoop cfg st cn rest (ov.1 ++ [sent]) (ov.2 + swc)
    else forceSplitLoop cfg st cn rest (current ++ [sent]) (cwc + swc)

/-- `ClauseChunker._force_split`: sentence-level splitting with overlap. -/
def force_split (cfg : ChunkCfg) (text : Chars) (st : SectionType)
    (cn : Option Chars) : List DocumentChunk :=
  forceSplitLoop cfg st cn (reSplitSents none text) [] 0

/-- The paragraph loop of `ClauseChunker._chunk_paragraphs`. -/
def paraLoop (cfg : ChunkCfg) (st : SectionType) (cn : Option Chars) :
    List Chars → List Chars → Nat → List DocumentChunk
  | [], current, _ =>
    if current ≠ [] then
      [make_chunk (pyJoin ['\n', '\n'] current) st cn]
    else []
  | para :: rest, current, cwc =>
    let pwc := word_count para
    if pwc > cfg.max_tokens then
      (if current ≠ [] then
        [make_chunk (pyJoin ['\n', '\n'] current) st cn]
      else [])
      ++ force_split cfg para st cn
      ++ paraLoop cfg st cn rest [] 0
    else if cwc + pwc > cfg.target_tokens ∧ current ≠ [] then
      let chunk := make_chunk (pyJoin ['\n', '\n'] current) st cn
      let ov := overlapTail cfg.overlap_tokens current
      chunk :: paraLoop cfg st cn rest (ov.1 ++ [para]) (ov.2 + pwc)
    else paraLoop cfg st cn rest (current ++ [para]) (cwc + pwc)

/-- `ClauseChunker._chunk_paragraphs`. -/
def chunk_paragraphs (cfg : ChunkCfg) (text : Chars) (st : SectionType)
    (cn : Option Chars) : List DocumentChunk :=
  let text := pyStrip text
  if text = [] then []
  else
    let paragraphs :=
      ((reSplitParas text).map pyStrip).filter (fun p => !p.isEmpty)
    if paragraphs = [] then []
    else paraLoop cfg st cn paragraphs [] 0

/-- Match of `_CLAUSE_HEADER_RE` against a single (newline-free) line:
optional leading spaces/tabs, a FAR (`52.`) or DFARS (`252.`) clause
number `NN.NNN-N{1,4}`, at least one space/tab, then a non-empty title.
Returns the captured clause number. -/
def lineClauseHeader (line : Chars) : Option Chars :=
  let st := line.takeWhile (fun c => c = ' ' || c = '\t')
  let u := line.drop st.length
  let tryBase : Option (Chars × Chars) :=
    if ['5', '2', '.'].isPrefixOf u then some (['5', '2'], u.drop 3)
    else if ['2', '5', '2', '.'].isPrefixOf u then some (['2', '5', '2'], u.drop 4)
    else none
  match tryBase with
  | none => none
  | some (base, v) =>
    let d3 := (v.take 3).filter isPyDigit
    if d3.length = 3 ∧ v.drop 3 ≠ [] ∧ (v.drop 3).head? = some '-' then
      let w := v.drop 4
      let run := w.takeWhile isPyDigit
      let d := min run.length 4
      if 1 ≤ run.length ∧ run.length ≤ 4 then
        match w.drop d with
        | c2 :: rest2 =>
          if (c2 = ' ' || c2 = '\t') && !rest2.isEmpty then
            some (base ++ ['.'] ++ v.take 3 ++ ['-'] ++ run)
          else none
        | [] => none
      else none
    else none

/-- Fuel-driven body of `linesWithPos` (fuel initially the text length). -/
def linesWithPosF : Nat → Nat → Chars → List (Nat × Chars)
  | _, p, [] => [(p, [])]
  | 0, p, s => [(p, s)]
  | fuel + 1, p, s =>
    let line := s.takeWhile (fun c => !(c = '\n'))
    match s.drop line.length with
    | [] => [(p, line)]
    | _ :: rest => (p, line) :: linesWithPosF fuel (p + line.length + 1) rest

/-- Line starts with absolute offsets. -/
def linesWithPos (p : Nat) (s : Chars) : List (Nat × Chars) :=
  linesWithPosF s.length p s

/-- `_CLAUSE_HEADER_RE.finditer(section_text)`: the multiline `^` anchor
means at most one match per line; each match starts at its line start. -/
def clauseHeaderPositions (s : Chars) : List (Nat × Chars) :=
  (linesWithPos 0 s).filterMap
    (fun pl => (lineClauseHeader pl.2).map (fun g1 => (pl.1, g1)))

/-- The per-clause loop of `ClauseChunker._chunk_section_i`. -/
def clauseLoop (cfg : ChunkCfg) (stext : Chars) :
    List (Nat × Chars) → List DocumentChunk
  | [] => []
  | (start, cn) :: rest =>
    let e := match rest with
      | [] => stext.length
      | (s2, _) :: _ => s2
    let clause_text := pyStrip (pySlice stext start e)
    (if clause_text = [] then []
     else if word_count clause_text ≤ cfg.max_tokens then
       [make_chunk clause_text .SECTION_I (some cn)]
     else chunk_paragraphs cfg clause_text .SECTION_I (some cn))
    ++ clauseLoop cfg stext rest

/-- `ClauseChunker._chunk_section_i`. -/
def chunk_section_i (cfg : ChunkCfg) (section_text : Chars) :
    List DocumentChunk :=
  let cms := clauseHeaderPositions section_text
  match cms with
  | [] => chunk_paragraphs cfg section_text .SECTION_I none
  | first :: _ =>
    let pre_text := pyStrip (pySlice section_text 0 first.1)
    (if pre_text ≠ [] then chunk_paragraphs cfg pre_text .SECTION_I none
     else [])
    ++ clauseLoop cfg section_text cms

/-- Sequential `chunk_index` reassignment at the end of
`ClauseChunker.chunk_document`. -/
def reindexChunks (chunks : List DocumentChunk) : List DocumentChunk :=
  chunks.enum.map (fun ic => { ic.2 with chunk_index := ic.1 })

/-- `ClauseChunker.chunk_document`: the no-section fallback returns the
paragraph chunking of the whole text directly; otherwise each section is
chunked (Section I via clause-level chunking) and `chunk_index` is
reassigned sequentially. -/
def ClauseChunker_chunk_document (cfg : ChunkCfg) (text : Chars)
    (sections : List DetectedSection) : List DocumentChunk :=
  if sections = [] then chunk_paragraphs cfg text .OTHER none
  else
    reindexChunks ((sections.map (fun sec =>
      let section_text := pySlice text sec.start_char sec.end_char
      if sec.section_type = .SECTION_I then chunk_section_i cfg section_text
      else chunk_paragraphs cfg section_text sec.section_type none)).flatten)

/-- The failing C1 input: 601 whitespace-separated one-letter words with no
sentence punctuation and no blank lines. -/
def c1Text : Chars := pyJoin [' '] (List.replicate 601 ['w'])

/-- `n` copies of `" w"`; `'w' :: wSpaceBlock n` is the text of `n + 1`
space-separated `w` words. -/
def wSpaceBlock : Nat → Chars
  | 0 => []
  | n + 1 => ' ' :: 'w' :: wSpaceBlock n

-- ─── C2 definitions ───────────────────────────────────────────────────

/-- One row of `audit.agent_execution_log` as written by
`DbClient.log_agent_execution` in `IngestionPipeline.ingest`
(ingestion_pipeline.py).  `input_summary` is the pair
`{"s3_key": ..., "document_type": ...}`, kept as the two fields below;
`output_summary` (populated only on the success entry) and wall-clock
timestamps are not modelled. -/
structure AuditEntry where
  agent_type : String
  task_id : String
  status : String
  s3_key : String
  document_type : String
  error_details : Option String
deriving DecidableEq, Repr

/-- First index of `pat` in `hay` (Python `str.index` / the `in` operator):
`some i` iff `pat` occurs and `i` is its first occurrence. -/
def strIndexOf : Chars → Chars → Option Nat
  | hay, pat =>
    if pat.isPrefixOf hay then some 0
    else match hay with
      | [] => none
      | _ :: t => (strIndexOf t pat).map (· + 1)

/-- The chunk-local re-indexed copy of an entity built inside
`_assign_entities_to_chunks` (`local_entity = EntityAnnotation(...)`
with `start_char = local_start`, `end_char = local_start + len(text)`). -/
def assignLocal (e : EntityAnn) (i : Nat) : EntityAnn :=
  { entity_type := e.entity_type, entity_value := e.entity_value,
    start_char := i, end_char := i + e.entity_value.length,
    confidence := e.confidence, metadata := e.metadata }

/-- First chunk (by index) whose text contains `v`, with the local offset
of the first occurrence — the `for i, chunk in enumerate(chunks): if
entity_text in chunk.chunk_text: ... break` search of
`_assign_entities_to_chunks`. -/
def firstContaining : List Chars → Chars → Option (Nat × Nat)
  | [], _ => none
  | t :: ts, v =>
    match strIndexOf t v with
    | some j => some (0, j)
    | none => (firstContaining ts v).map (fun p => (p.1 + 1, p.2))

/-- `_assign_entities_to_chunks` (ingestion_pipeline.py): each entity goes
to the first chunk whose text contains its value, re-indexed to
chunk-local offsets; entities matching no chunk are dropped.  Stated over
the chunk texts; entity order inside each bucket is input order, exactly
as the Python `result[i].append` loop produces. -/
def assign_entities_to_chunks (entities : List EntityAnn) (texts : List Chars) :
    List (List EntityAnn) :=
  (List.range texts.length).map (fun i =>
    entities.filterMap (fun e =>
      match firstContaining texts e.entity_value.data with
      | some p => if p.1 = i then some (assignLocal e p.2) else none
      | none => none))

/-- The collaborators of `IngestionPipeline.ingest`, shallowly embedded.
`σ` is the database state; the S3 client, text extractors, NER extractor,
`DocumentProcessor.process`, `EmbeddingService.embed_chunks`,
`map_entities_to_metadata` and `check_quality` are modelled as
`Except`-valued functions (any of them may raise), specialised to the
fixed bucket/key/model-version arguments; the `DbClient` methods
additionally transform `σ`, and `log_agent_execution` is total.
`Content`, `Chk`, `EChk`, `M`, `Q` are the payload types of the document
bytes, chunks, embedded chunks, contract metadata and quality report. -/
structure IngestEnv (σ Content Chk EChk M Q : Type) where
  get_object : Except String Content
  extract_text_from_docx : Content → Except String Chars
  extract_text_from_pdf : Content → Except String Chars
  use_ner : Bool
  ner_extract : Chars → Except String (List EntityAnn)
  doc_process : Chars → Except String (List Chk)
  chunk_text : Chk → Chars
  embed_chunks : List Chk → Except String (List EChk)
  map_entities_to_metadata : Chars → List EntityAnn → Except String M
  check_quality : M → List EntityAnn → Nat → List Nat → Except String Q
  needs_human_review : Q → Bool
  upsert_contract : M → σ → Except String (String × σ)
  store_chunks : String → List EChk → σ → Except String (List String × σ)
  store_entity_anns : List String → List EChk → List (List EntityAnn) → σ →
    Except String (Nat × σ)
  log_exec : AuditEntry → σ → σ

/-- The intermediate values of `ingest` computed before the first database
write (steps 1–7 of the method body). -/
structure PreData (Chk EChk M Q : Type) where
  text : Chars
  entities : List EntityAnn
  chunks : List Chk
  embedded : List EChk
  metadata : M
  entities_per_chunk : List (List EntityAnn)
  quality : Q

/-- Steps 1–7 of `ingest` (fetch, text extraction and emptiness check,
entity extraction, chunking, embedding, metadata mapping, entity
assignment and quality check): none of these touches the database state,
and the first raised error aborts the rest.  Error strings are the
`str(exc)` of the two `ValueError`s raised inline. -/
def prePersist (env : IngestEnv σ Content Chk EChk M Q)
    (document_type : String) : Except String (PreData Chk EChk M Q) := do
  let content ← env.get_object
  let text ←
    if document_type = "docx" then env.extract_text_from_docx content
    else if document_type = "pdf" then env.extract_text_from_pdf content
    else Except.error ("Unsupported document type: " ++ document_type)
  if pyStrip text = [] then
    Except.error "Document produced empty text after extraction"
  else
    let entities ←
      if env.use_ner then env.ner_extract text
      else Except.ok (extract_all_entities text)
    let chunks ← env.doc_process text
    let embedded ← env.embed_chunks chunks
    let metadata ← env.map_entities_to_metadata text entities
    let entities_per_chunk :=
      assign_entities_to_chunks entities (chunks.map env.chunk_text)
    let quality ← env.check_quality metadata entities chunks.length
      (entities_per_chunk.map List.length)
    Except.ok { text, entities, chunks, embedded, metadata,
                entities_per_chunk, quality }

/-- The `IngestionResult` dataclass (`duration_ms`, which depends on
wall-clock time, is not modelled). -/
structure IngResult (M Q : Type) where
  contract_id : String
  s3_key : String
  document_type : String
  text_length : Nat
  chunk_count : Nat
  entity_count : Nat
  chunks_stored : Nat
  anns_stored : Nat
  metadata : M
  quality : Q

/-- The RUNNING audit entry written at the top of `ingest`. -/
def runningEntry (task_id s3_key document_type : String) : AuditEntry :=
  { agent_type := "ingestion_pipeline", task_id, status := "RUNNING",
    s3_key, document_type, error_details := none }

/-- The FAILURE audit entry written by the `except` handler, carrying
`str(exc)`. -/
def failureEntry (task_id s3_key document_type err : String) : AuditEntry :=
  { agent_type := "ingestion_pipeline", task_id, status := "FAILURE",
    s3_key, document_type, error_details := some err }

/-- The terminal entry of a successful run:
`"SUCCESS" if not quality.needs_human_review else "NEEDS_REVIEW"`. -/
def successEntry (task_id s3_key document_type : String)
    (needs_rev : Bool) : AuditEntry :=
  { agent_type := "ingestion_pipeline", task_id,
    status := if needs_rev then "NEEDS_REVIEW" else "SUCCESS",
    s3_key, document_type, error_details := none }

/-- Step 8 and 9 of `ingest`: the three database writes in order
(`upsert_contract`, `store_chunks`, `store_entity_annotations`) and the
terminal success entry.  An error from a write returns the state **as
already transformed by the preceding writes** — there is no transaction
or rollback in the source. -/
def persistPhase (env : IngestEnv σ Content Chk EChk M Q)
    (s3_key document_type task_id : String) (pd : PreData Chk EChk M Q)
    (s : σ) : Except String (IngResult M Q) × σ :=
  match env.upsert_contract pd.metadata s with
  | Except.error e => (Except.error e, s)
  | Except.ok (contract_id, s) =>
    match env.store_chunks contract_id pd.embedded s with
    | Except.error e => (Except.error e, s)
    | Except.ok (chunk_ids, s) =>
      match env.store_entity_anns chunk_ids pd.embedded pd.entities_per_chunk s with
      | Except.error e => (Except.error e, s)
      | Except.ok (ann_count, s) =>
        (Except.ok
          { contract_id, s3_key, document_type,
            text_length := pd.text.length,
            chunk_count := pd.chunks.length,
            entity_count := pd.entities.length,
            chunks_stored := chunk_ids.length,
            anns_stored := ann_count,
            metadata := pd.metadata, quality := pd.quality },
         env.log_exec
           (successEntry task_id s3_key document_type
             (env.needs_human_review pd.quality)) s)

/-- The `try` body of `ingest` after the RUNNING entry: the pure phase
followed, on success, by the persistence phase. -/
def ingestBody (env : IngestEnv σ Content Chk EChk M Q)
    (s3_key document_type task_id : String) (s : σ) :
    Except String (IngResult M Q) × σ :=
  match prePersist env document_type with
  | Except.error e => (Except.error e, s)
  | Except.ok pd => persistPhase env s3_key document_type task_id pd s

/-- `IngestionPipeline.ingest` (ingestion_pipeline.py, lines 317–449):
write the RUNNING entry, run the body; on any raised error the `except`
handler writes one FAILURE entry carrying `str(exc)` over whatever state
the body left behind, and re-raises (the `Except.error` result).
`task_id` (a fresh `uuid4` in the source) is a parameter. -/
def ingest (env : IngestEnv σ Content Chk EChk M Q)
    (s3_key document_type task_id : String) (s : σ) :
    Except String (IngResult M Q) × σ :=
  match ingestBody env s3_key document_type task_id
      (env.log_exec (runningEntry task_id s3_key document_type) s) with
  | (Except.ok r, s2) => (Except.ok r, s2)
  | (Except.error e, s2) =>
    (Except.error e,
     env.log_exec (failureEntry task_id s3_key document_type e) s2)

-- concrete instantiation: an in-memory database state

/-- A concrete database state for instantiating `ingest`: the tables a
`DbClient` writes (contract rows, chunk rows, an annotation count) plus
the audit log. -/
structure CState where
  contracts : List String
  chunk_rows : List String
  ann_rows : Nat
  logs : List AuditEntry
deriving DecidableEq, Repr

/-- The empty initial database state. -/
def exS0 : CState := { contracts := [], chunk_rows := [], ann_rows := 0, logs := [] }

/-- A concrete environment whose stages all succeed up to `store_chunks`,
which raises after `upsert_contract` has already written a contract row. -/
def exEnv : IngestEnv CState Unit Unit Unit Unit Unit :=
  { get_object := Except.ok ()
  , extract_text_from_docx := fun _ => Except.ok ['S', 'O', 'W']
  , extract_text_from_pdf := fun _ => Except.ok []
  , use_ner := true
  , ner_extract := fun _ => Except.ok []
  , doc_process := fun _ => Except.ok [()]
  , chunk_text := fun _ => []
  , embed_chunks := fun ks => Except.ok ks
  , map_entities_to_metadata := fun _ _ => Except.ok ()
  , check_quality := fun _ _ _ _ => Except.ok ()
  , needs_human_review := fun _ => false
  , upsert_contract := fun _ s =>
      Except.ok ("contract-1", { s with contracts := s.contracts ++ ["contract-1"] })
  , store_chunks := fun _ _ _ => Except.error "store_chunks: connection lost"
  , store_entity_anns := fun _ _ _ s => Except.ok (0, s)
  , log_exec := fun en s => { s with logs := s.logs ++ [en] } }

/-- `exEnv` with an S3 fetch that raises: a failure before any
persistence call. -/
def exEnvPre : IngestEnv CState Unit Unit Unit Unit Unit :=
  { exEnv with get_object := Except.error "s3 unavailable" }

/-- `exEnv` with a succeeding `store_chunks`: a fully successful run. -/
def exEnvOk : IngestEnv CState Unit Unit Unit Unit Unit :=
  { exEnv with store_chunks := fun _ _ s =>
      Except.ok (["chunk-1"], { s with chunk_rows := s.chunk_rows ++ ["chunk-1"] }) }

/-- The `PreData` that `prePersist exEnv "docx"` produces. -/
def exPreData : PreData Unit Unit Unit Unit :=
  { text := ['S', 'O', 'W'], entities := [], chunks := [()], embedded := [()],
    metadata := (), entities_per_chunk := [[]], quality := () }

/-- The database state after `exEnv`'s `upsert_contract`: the RUNNING
entry plus the persisted contract row. -/
def exPostUpsert : CState :=
  { contracts := ["contract-1"], chunk_rows := [], ann_rows := 0,
    logs := [runningEntry "task-1" "doc.docx" "docx"] }

-- ═════════════════════════════ THEOREMS ══════════════════════════════

theorem charsLt_irrefl : ∀ a : Chars, charsLt a a = false
  | [] => rfl
  | c :: rest => by
    simp only [charsLt, lt_irrefl, if_false]
    exact charsLt_irrefl rest

theorem charsLt_asymm : ∀ a b : Chars, charsLt a b = true → charsLt b a = false
  | [], [] => by simp [charsLt]
  | [], _ :: _ => by simp [charsLt]
  | _ :: _, [] => by simp [charsLt]
  | a :: as, b :: bs => by
    intro h
    by_cases h1 : a.toNat < b.toNat
    · have h2 : ¬ b.toNat < a.toNat := by omega
      simp [charsLt, h1, h2]
    · by_cases h2 : b.toNat < a.toNat
      · simp [charsLt, h1, h2] at h
      · simp [charsLt, h1, h2] at h ⊢
        exact charsLt_asymm as bs h

theorem charsLt_trans :
    ∀ a b c : Chars, charsLt a b = true → charsLt b c = true →
      charsLt a c = true
  | [], [], _ => by simp [charsLt]
  | [], _ :: _, [] => by intro _ h; simp [charsLt] at h
  | [], _ :: _, _ :: _ => by intros; simp [charsLt]
  | _ :: _, [], _ => by intro h; simp [charsLt] at h
  | _ :: _, _ :: _, [] => by intro _ h; simp [charsLt] at h
  | a :: as, b :: bs, c :: cs => by
    intro h1 h2
    by_cases hab : a.toNat < b.toNat
    · by_cases hbc : b.toNat < c.toNat
      · simp [charsLt, show a.toNat < c.toNat by omega]
      · by_cases hcb : c.toNat < b.toNat
        · simp [charsLt, hbc, hcb] at h2
        · simp [charsLt, show a.toNat < c.toNat by omega]
    · by_cases hba : b.toNat < a.toNat
      · simp [charsLt, hab, hba] at h1
      · simp [charsLt, hab, hba] at h1
        by_cases hbc : b.toNat < c.toNat
        · simp [charsLt, show a.toNat < c.toNat by omega]
        · by_cases hcb : c.toNat < b.toNat
          · simp [charsLt, hbc, hcb] at h2
          · simp [charsLt, hbc, hcb] at h2
            have hac1 : ¬ a.toNat < c.toNat := by omega
            have hac2 : ¬ c.toNat < a.toNat := by omega
            simp [charsLt, hac1, hac2]
            exact charsLt_trans as bs cs h1 h2

theorem charsLt_connex :
    ∀ a b : Chars, charsLt a b = false → charsLt b a = false → a = b
  | [], [] => by simp
  | [], _ :: _ => by simp [charsLt]
  | _ :: _, [] => by intro _ h; simp [charsLt] at h
  | a :: as, b :: bs => by
    intro ha hb
    by_cases h1 : a.toNat < b.toNat
    · simp [charsLt, h1] at ha
    · by_cases h2 : b.toNat < a.toNat
      · simp [charsLt, h1, h2] at hb
      · simp [charsLt, h1, h2] at ha hb
        have hc : a = b := by
          apply Char.eq_of_val_eq
          apply UInt32.eq_of_toBitVec_eq
          apply BitVec.eq_of_toNat_eq
          change a.toNat = b.toNat
          omega
        rw [hc, charsLt_connex as bs ha hb]

theorem charsLt_le_trans (a b c : Chars) (h1 : charsLt b a = false)
    (h2 : charsLt c b = false) : charsLt c a = false := by
  by_contra hca
  have hca : charsLt c a = true := by simpa using hca
  by_cases hab : charsLt a b = true
  · have hcb : charsLt c b = true := charsLt_trans c a b hca hab
    rw [h2] at hcb
    exact absurd hcb (by simp)
  · have hab' : charsLt a b = false := by simpa using hab
    have heq : a = b := charsLt_connex a b hab' h1
    rw [heq] at hca
    rw [hca] at h2
    exact absurd h2 (by simp)

theorem keyLe_total (a b : Nat × String) : keyLe a b = true ∨ keyLe b a = true := by
  unfold keyLe
  by_cases h1 : a.1 < b.1
  · left
    simp [h1]
  · by_cases h2 : b.1 < a.1
    · right
      simp [h2]
    · by_cases h3 : charsLt b.2.data a.2.data = true
      · right
        have h4 : charsLt a.2.data b.2.data = false := charsLt_asymm _ _ h3
        simp [h1, h2, strLtB, h4]
      · left
        simp [h1, h2, strLtB, Bool.eq_false_iff.mpr h3]

theorem keyLe_trans (a b c : Nat × String) (h1 : keyLe a b = true)
    (h2 : keyLe b c = true) : keyLe a c = true := by
  unfold keyLe at h1 h2 ⊢
  by_cases hab : a.1 < b.1
  · by_cases hbc : b.1 < c.1
    · simp [show a.1 < c.1 by omega]
    · by_cases hcb : c.1 < b.1
      · simp [hbc, hcb] at h2
      · simp [show a.1 < c.1 by omega]
  · by_cases hba : b.1 < a.1
    · simp [hab, hba] at h1
    · simp [hab, hba, strLtB] at h1
      by_cases hbc : b.1 < c.1
      · simp [show a.1 < c.1 by omega]
      · by_cases hcb : c.1 < b.1
        · simp [hbc, hcb] at h2
        · simp [hbc, hcb, strLtB] at h2
          have hac1 : ¬ a.1 < c.1 := by omega
          have hac2 : ¬ c.1 < a.1 := by omega
          simp [hac1, hac2, strLtB]
          exact charsLt_le_trans _ _ _ h1 h2

/-- Sortedness predicate used for the merge and battery ordering claims. -/
def IsSortedBy (le : α → α → Bool) (l : List α) : Prop :=
  l.Chain' (fun a b => le a b = true)

theorem pyInsert_head (le : α → α → Bool) (x : α) :
    ∀ ys : List α, (pyInsert le x ys).head? = some x ∨
      ((pyInsert le x ys).head? = ys.head? ∧ ys ≠ [])
  | [] => .inl rfl
  | y :: ys => by
    unfold pyInsert
    split
    · exact .inr ⟨rfl, by simp⟩
    · exact .inl rfl

theorem pyInsert_sorted (le : α → α → Bool)
    (total : ∀ a b, le a b = true ∨ le b a = true) (x : α) :
    ∀ l : List α, IsSortedBy le l → IsSortedBy le (pyInsert le x l)
  | [], _ => by simp [pyInsert, IsSortedBy]
  | y :: ys, h => by
    unfold pyInsert
    split
    · rename_i hyx
      have htail : IsSortedBy le ys := h.tail
      have hrec := pyInsert_sorted le total x ys htail
      refine List.chain'_cons'.mpr ⟨?_, hrec⟩
      intro b hb
      rcases pyInsert_head le x ys with hh | ⟨hh, hne⟩
      · rw [hh] at hb
        have hbx : x = b := by simpa using hb
        rw [← hbx]
        exact hyx
      · rw [hh] at hb
        have := List.chain'_cons'.mp h
        exact this.1 b hb
    · rename_i hyx
      have hxy : le x y = true := by
        rcases total x y with ht | ht
        · exact ht
        · exact absurd ht hyx
      exact List.chain'_cons'.mpr ⟨by simpa using hxy, h⟩

theorem pySortBy_go_sorted (le : α → α → Bool)
    (total : ∀ a b, le a b = true ∨ le b a = true) :
    ∀ (l : List α) (acc : List α), IsSortedBy le acc →
      IsSortedBy le (l.foldl (fun s x => pyInsert le x s) acc)
  | [], _, h => h
  | x :: xs, acc, h =>
    pySortBy_go_sorted le total xs (pyInsert le x acc)
      (pyInsert_sorted le total x acc h)

theorem pySortBy_sorted (le : α → α → Bool)
    (total : ∀ a b, le a b = true ∨ le b a = true) (l : List α) :
    IsSortedBy le (pySortBy le l) :=
  pySortBy_go_sorted le total l [] (by simp [IsSortedBy])

theorem pyInsert_perm (le : α → α → Bool) (x : α) :
    ∀ l : List α, (pyInsert le x l).Perm (x :: l)
  | [] => by simp [pyInsert]
  | y :: ys => by
    unfold pyInsert
    split
    · exact ((pyInsert_perm le x ys).cons y).trans (List.Perm.swap x y ys)
    · exact List.Perm.refl _

theorem pySortBy_go_perm (le : α → α → Bool) :
    ∀ (l : List α) (acc : List α),
      (l.foldl (fun s x => pyInsert le x s) acc).Perm (acc ++ l)
  | [], acc => by simp
  | x :: xs, acc => by
    have h1 := pySortBy_go_perm le xs (pyInsert le x acc)
    have h2 : (pyInsert le x acc ++ xs).Perm ((x :: acc) ++ xs) :=
      (pyInsert_perm le x acc).append_right xs
    have h3 : ((x :: acc) ++ xs).Perm (acc ++ x :: xs) := by
      simpa using List.perm_middle.symm
    exact (h1.trans h2).trans h3

theorem pySortBy_perm (le : α → α → Bool) (l : List α) :
    (pySortBy le l).Perm l := by
  simpa using pySortBy_go_perm le l []

theorem annLe_total (a b : EntityAnn) : annLe a b = true ∨ annLe b a = true :=
  keyLe_total _ _

-- ─── C4: tiered merge ─────────────────────────────────────────────────

theorem mergeLoop_fst (rule_results : List EntityAnn) :
    ∀ (ner : List EntityAnn) (merged : List EntityAnn)
      (seen : List (String × Nat × Nat)),
      (mergeLoop rule_results merged seen ner).1 =
        merged ++ nerAcceptList rule_results seen ner
  | [], merged, seen => by simp [mergeLoop, nerAcceptList]
  | b :: rest, merged, seen => by
    unfold mergeLoop nerAcceptList
    by_cases h1 : dupKey b ∈ seen
    · simp [h1, mergeLoop_fst rule_results rest merged seen]
    · by_cases h2 : rule_results.any (fun rb => spans_overlap b rb)
      · simp [h1, h2, mergeLoop_fst rule_results rest merged seen]
      · simp [h1, h2, mergeLoop_fst rule_results rest (merged ++ [b]) _]

theorem nerAcceptList_eq_filter_dedup (rule_results : List EntityAnn) :
    ∀ (ner : List EntityAnn) (extra : List (String × Nat × Nat)),
      nerAcceptList rule_results (extra ++ rule_results.map dupKey) ner =
        dedupByDupKey extra (ner.filter (tier2Accept rule_results))
  | [], extra => by simp [nerAcceptList, dedupByDupKey]
  | b :: rest, extra => by
    have hrec1 := nerAcceptList_eq_filter_dedup rule_results rest extra
    have hrec2 : nerAcceptList rule_results
        (dupKey b :: (extra ++ rule_results.map dupKey)) rest =
        dedupByDupKey (dupKey b :: extra)
          (rest.filter (tier2Accept rule_results)) :=
      nerAcceptList_eq_filter_dedup rule_results rest (dupKey b :: extra)
    by_cases hkey : dupKey b ∈ rule_results.map dupKey
    · have hacc : tier2Accept rule_results b = false := by
        simp [tier2Accept, hkey]
      simp [nerAcceptList, List.filter_cons, hkey, hacc, hrec1]
    · by_cases hextra : dupKey b ∈ extra
      · by_cases hacc : tier2Accept rule_results b = true
        · have hov : rule_results.any (fun rb => spans_overlap b rb) = false := by
            simp only [tier2Accept, Bool.and_eq_true, Bool.not_eq_true'] at hacc
            exact hacc.2
          simp [nerAcceptList, List.filter_cons, hkey, hextra, hacc,
            dedupByDupKey, hrec1]
        · simp [nerAcceptList, List.filter_cons, hkey, hextra, hacc, hrec1]
      · by_cases hov : rule_results.any (fun rb => spans_overlap b rb) = true
        · have hacc : tier2Accept rule_results b = false := by
            simp [tier2Accept, hov]
          simp [nerAcceptList, List.filter_cons, hkey, hextra, hov, hacc, hrec1]
        · have hacc : tier2Accept rule_results b = true := by
            simp only [tier2Accept, Bool.and_eq_true, Bool.not_eq_true']
            exact ⟨by simpa using hkey, by simpa using hov⟩
          simp [nerAcceptList, List.filter_cons, hkey, hextra, hov, hacc,
            dedupByDupKey, hrec2]

/-- C4 counterexample: on the Tier-2 input `[x, x]` (the same annotation
twice) with empty Tier-1, `_merge` keeps only the first copy, while the
claim's description — Tier-1 plus exactly the Tier-2 annotations whose key
is absent from Tier-1 and whose span overlaps no Tier-1 span — keeps both.
So the claim's equation fails at this input. -/
theorem C4_counterexample :
    ¬(CombinedExtractor_merge [] [nerDupAnn, nerDupAnn] =
        mergeSpecClaimed [] [nerDupAnn, nerDupAnn]) := by
  decide

/-- C4 (amended): `CombinedExtractor._merge` equals the claimed description
amended in one point: a Tier-2 annotation is also discarded when its
`(type, start, end)` key equals the key of an earlier *kept* Tier-2
annotation (first occurrence wins).  Output stays stably sorted by
`(start_char, entity_type)`. -/
theorem C4_merge_amended (rule_results ner_results : List EntityAnn) :
    CombinedExtractor_merge rule_results ner_results =
      mergeSpecAmended rule_results ner_results := by
  unfold CombinedExtractor_merge mergeSpecAmended
  have h1 := mergeLoop_fst rule_results ner_results rule_results
    (rule_results.map dupKey)
  have h2 : nerAcceptList rule_results (rule_results.map dupKey) ner_results =
      dedupByDupKey [] (ner_results.filter (tier2Accept rule_results)) := by
    have := nerAcceptList_eq_filter_dedup rule_results ner_results []
    simpa using this
  simp [h1, h2]

-- ─── C7: quality checker review flag ──────────────────────────────────

theorem ratio_gt_half_iff (e c : Nat) (hc : 0 < c) :
    ((1 : Rat)/2 < (e : Rat)/(c : Rat)) ↔ c < 2 * e := by
  rw [div_lt_div_iff₀ (by norm_num) (by exact_mod_cast hc : (0 : Rat) < (c : Rat))]
  rw [one_mul, mul_comm]
  exact_mod_cast Iff.rfl

theorem emptyChunkTrigger_iff (chunk_count : Nat)
    (chunk_entity_counts : Option (List Nat)) :
    emptyChunkTrigger chunk_count chunk_entity_counts =
      (match chunk_entity_counts with
        | none => false
        | some counts =>
          decide (0 < chunk_count ∧
            chunk_count < 2 * (counts.filter (fun c => c = 0)).length)) := by
  cases chunk_entity_counts with
  | none => rfl
  | some counts =>
    show (_ && _ && _) = _
    by_cases hc : 0 < chunk_count
    · by_cases he : chunk_count < 2 * (counts.filter (fun c => c = 0)).length
      · have he0 : 0 < (counts.filter (fun c => c = 0)).length := by omega
        have hrq := (ratio_gt_half_iff ((counts.filter (fun c => c = 0)).length)
          chunk_count hc).mpr he
        rw [one_div] at hrq
        simp [hc, he, he0, hrq]
      · have hr : ¬((1 : Rat)/2 <
            (((counts.filter (fun c => c = 0)).length : Rat)) /
              ((chunk_count : Rat))) := fun hx =>
          he ((ratio_gt_half_iff _ _ hc).mp hx)
        rw [one_div] at hr
        simp [he, hr]
    · simp [hc]

/-- C7: `check_quality` sets `needs_human_review` exactly when one of the
four review-triggering rules fires (missing contract number, multiple
distinct contract numbers, more than half of the chunks without entities,
zero entities); `review_reasons` is non-empty exactly when review is needed
and lists one reason per fired rule in evaluation order. -/
theorem C7_check_quality_review (metadata : ContractMetadata)
    (entities : List EntityAnn) (chunk_count : Nat)
    (chunk_entity_counts : Option (List Nat)) :
    (check_quality metadata entities chunk_count
        chunk_entity_counts).needs_human_review =
      (metadata.contract_number.isNone
        || decide (1 < (pyDistinct ((entities.filter
              (fun e => e.entity_type = "CONTRACT_NUMBER")).map
                (·.entity_value))).length)
        || (match chunk_entity_counts with
            | none => false
            | some counts =>
              decide (0 < chunk_count ∧
                chunk_count < 2 * (counts.filter (fun c => c = 0)).length))
        || decide (entities = []))
    ∧ ((check_quality metadata entities chunk_count
          chunk_entity_counts).review_reasons ≠ [] ↔
        (check_quality metadata entities chunk_count
          chunk_entity_counts).needs_human_review = true)
    ∧ (check_quality metadata entities chunk_count
        chunk_entity_counts).review_reasons =
      (if metadata.contract_number.isNone then ["Missing contract number"]
        else [])
      ++ (if 1 < (pyDistinct ((entities.filter
              (fun e => e.entity_type = "CONTRACT_NUMBER")).map
                (·.entity_value))).length
          then ["Conflicting contract numbers"] else [])
      ++ (if emptyChunkTrigger chunk_count chunk_entity_counts
          then ["Many chunks without entities — possible extraction issue"]
          else [])
      ++ (if entities = [] then ["Zero entities extracted"] else []) := by
  have hlen : (decide (entities.length = 0)) = (decide (entities = [])) := by
    by_cases h : entities = []
    · simp [h]
    · simp [h, List.length_eq_zero]
  refine ⟨?_, ?_, ?_⟩
  · unfold check_quality
    simp only [check_conflicts]
    rw [← emptyChunkTrigger_iff, hlen]
  · unfold check_quality
    simp only [check_conflicts]
    by_cases h1 : metadata.contract_number.isNone <;>
      by_cases h2 : 1 < (pyDistinct ((entities.filter
        (fun e => e.entity_type = "CONTRACT_NUMBER")).map
          (·.entity_value))).length <;>
      by_cases h3 : emptyChunkTrigger chunk_count chunk_entity_counts = true <;>
      by_cases h4 : entities.length = 0 <;>
      simp [h1, h2, h3, h4]
  · unfold check_quality
    simp only [check_conflicts]
    by_cases h1 : metadata.contract_number.isNone <;>
      by_cases h2 : 1 < (pyDistinct ((entities.filter
        (fun e => e.entity_type = "CONTRACT_NUMBER")).map
          (·.entity_value))).length <;>
      by_cases h3 : emptyChunkTrigger chunk_count chunk_entity_counts = true <;>
      by_cases h4 : entities = [] <;>
      simp [h1, h2, h3, h4, List.length_eq_zero]

-- ─── C6: section detector invariants ──────────────────────────────────

theorem rawSecLe_total (a b : RawSection) :
    rawSecLe a b = true ∨ rawSecLe b a = true := by
  unfold rawSecLe
  rcases Nat.le_total a.2.1 b.2.1 with h | h
  · left
    simpa using h
  · right
    simpa using h

theorem dedupSectionTypes_subset :
    ∀ (seen : List SectionType) (l : List RawSection) (x : RawSection),
      x ∈ dedupSectionTypes seen l → x ∈ l ∧ x.1 ∉ seen
  | _, [], x => by simp [dedupSectionTypes]
  | seen, r :: rest, x => by
    unfold dedupSectionTypes
    by_cases h : r.1 ∈ seen
    · rw [if_pos h]
      intro hx
      have := dedupSectionTypes_subset seen rest x hx
      exact ⟨List.mem_cons.mpr (.inr this.1), this.2⟩
    · rw [if_neg h]
      intro hx
      rcases List.mem_cons.mp hx with rfl | hx'
      · exact ⟨List.mem_cons.mpr (.inl rfl), h⟩
      · have := dedupSectionTypes_subset (r.1 :: seen) rest x hx'
        exact ⟨List.mem_cons.mpr (.inr this.1),
          fun hc => this.2 (List.mem_cons.mpr (.inr hc))⟩

theorem dedupSectionTypes_nodup :
    ∀ (seen : List SectionType) (l : List RawSection),
      ((dedupSectionTypes seen l).map (·.1)).Nodup
  | _, [] => by simp [dedupSectionTypes]
  | seen, r :: rest => by
    unfold dedupSectionTypes
    by_cases h : r.1 ∈ seen
    · rw [if_pos h]
      exact dedupSectionTypes_nodup seen rest
    · rw [if_neg h]
      simp only [List.map_cons, List.nodup_cons]
      refine ⟨?_, dedupSectionTypes_nodup (r.1 :: seen) rest⟩
      intro hmem
      rcases List.mem_map.mp hmem with ⟨x, hx, hx1⟩
      have := dedupSectionTypes_subset (r.1 :: seen) rest x hx
      exact this.2 (List.mem_cons.mpr (.inl hx1))

theorem dedupSectionTypes_min :
    ∀ (l : List RawSection) (seen : List SectionType),
      l.Pairwise (fun a b => a.2.1 ≤ b.2.1) →
      ∀ x ∈ dedupSectionTypes seen l, ∀ y ∈ l, y.1 = x.1 →
        x.2.1 ≤ y.2.1
  | [], _, _ => by simp [dedupSectionTypes]
  | r :: rest, seen, hp => by
    unfold dedupSectionTypes
    by_cases h : r.1 ∈ seen
    · rw [if_pos h]
      intro x hx y hy heq
      have hsub := dedupSectionTypes_subset seen rest x hx
      rcases List.mem_cons.mp hy with rfl | hy'
      · exact absurd (heq ▸ h) hsub.2
      · exact dedupSectionTypes_min rest seen hp.of_cons x hx y hy' heq
    · rw [if_neg h]
      intro x hx y hy heq
      rcases List.mem_cons.mp hx with rfl | hx'
      · rcases List.mem_cons.mp hy with rfl | hy'
        · exact Nat.le_refl _
        · exact (List.pairwise_cons.mp hp).1 y hy'
      · have hsub := dedupSectionTypes_subset (r.1 :: seen) rest x hx'
        rcases List.mem_cons.mp hy with rfl | hy'
        · exact absurd (List.mem_cons.mpr (.inl heq.symm)) hsub.2
        · exact dedupSectionTypes_min rest (r.1 :: seen) hp.of_cons x hx' y
            hy' heq

theorem assignSectionEnds_mem :
    ∀ (tl : Nat) (l : List RawSection) (sec : DetectedSection),
      sec ∈ assignSectionEnds tl l →
      ∃ r ∈ l, r.1 = sec.section_type ∧ r.2.1 = sec.start_char
  | _, [], sec => by simp [assignSectionEnds]
  | tl, r :: rest, sec => by
    unfold assignSectionEnds
    intro hx
    rcases List.mem_cons.mp hx with rfl | hx'
    · exact ⟨r, List.mem_cons.mpr (.inl rfl), rfl, rfl⟩
    · rcases assignSectionEnds_mem tl rest sec hx' with ⟨r2, hr2, h1, h2⟩
      exact ⟨r2, List.mem_cons.mpr (.inr hr2), h1, h2⟩

theorem assignSectionEnds_contig :
    ∀ (tl : Nat) (l : List RawSection),
      (assignSectionEnds tl l).Chain' (fun a b => a.end_char = b.start_char)
  | _, [] => by simp [assignSectionEnds]
  | _, [_] => by simp [assignSectionEnds]
  | tl, r :: r2 :: rest => by
    have ih := assignSectionEnds_contig tl (r2 :: rest)
    refine List.chain'_cons'.mpr ⟨?_, ih⟩
    intro b hb
    unfold assignSectionEnds at hb
    simp only [List.head?_cons, Option.mem_def, Option.some.injEq] at hb
    rw [← hb]

theorem assignSectionEnds_sorted :
    ∀ (tl : Nat) (l : List RawSection),
      l.Chain' (fun a b => a.2.1 ≤ b.2.1) →
      (assignSectionEnds tl l).Chain'
        (fun a b => a.start_char ≤ b.start_char)
  | _, [], _ => by simp [assignSectionEnds]
  | _, [_], _ => by simp [assignSectionEnds]
  | tl, r :: r2 :: rest, h => by
    have ih := assignSectionEnds_sorted tl (r2 :: rest) h.tail
    refine List.chain'_cons'.mpr ⟨?_, ih⟩
    intro b hb
    unfold assignSectionEnds at hb
    simp only [List.head?_cons, Option.mem_def, Option.some.injEq] at hb
    rw [← hb]
    exact (List.chain'_cons.mp h).1

theorem assignSectionEnds_last :
    ∀ (tl : Nat) (l : List RawSection) (sec : DetectedSection),
      (assignSectionEnds tl l).getLast? = some sec → sec.end_char = tl
  | _, [], sec => by simp [assignSectionEnds]
  | tl, [r], sec => by
    simp only [assignSectionEnds, List.getLast?_singleton, Option.some.injEq]
    intro h
    rw [← h]
  | tl, r :: r2 :: rest, sec => by
    intro h
    apply assignSectionEnds_last tl (r2 :: rest) sec
    cases rest with
    | nil =>
      simp only [assignSectionEnds] at h ⊢
      rwa [List.getLast?_cons_cons] at h
    | cons r3 rest2 =>
      simp only [assignSectionEnds] at h ⊢
      rwa [List.getLast?_cons_cons] at h

/-- C6: on any pooled raw header-match list (hence on every input text),
`SectionDetector.detect`'s post-processing yields sections sorted by
`start_char`, contiguous (each end equals the next start), the last ending
at the text length, with pairwise distinct section types, each kept section
starting no later than any raw match of the same type. -/
theorem C6_section_detect_invariants (textLen : Nat) (raw : List RawSection) :
    (SectionDetector_post textLen raw).Chain'
        (fun a b => a.start_char ≤ b.start_char)
    ∧ (SectionDetector_post textLen raw).Chain'
        (fun a b => a.end_char = b.start_char)
    ∧ (∀ sec, (SectionDetector_post textLen raw).getLast? = some sec →
        sec.end_char = textLen)
    ∧ ((SectionDetector_post textLen raw).map (·.section_type)).Nodup
    ∧ (∀ sec ∈ SectionDetector_post textLen raw, ∀ r ∈ raw,
        r.1 = sec.section_type → sec.start_char ≤ r.2.1) := by
  unfold SectionDetector_post
  by_cases hraw : raw = []
  · simp [hraw]
  · rw [if_neg hraw]
    have hs1sorted : (pySortBy rawSecLe raw).Chain'
        (fun a b : RawSection => a.2.1 ≤ b.2.1) :=
      (pySortBy_sorted rawSecLe rawSecLe_total raw).imp
        (fun a b h => by simpa [rawSecLe] using h)
    have hs2sorted : (pySortBy rawSecLe
        (dedupSectionTypes [] (pySortBy rawSecLe raw))).Chain'
        (fun a b : RawSection => a.2.1 ≤ b.2.1) :=
      (pySortBy_sorted rawSecLe rawSecLe_total _).imp
        (fun a b h => by simpa [rawSecLe] using h)
    refine ⟨assignSectionEnds_sorted _ _ hs2sorted,
      assignSectionEnds_contig _ _,
      fun sec h => assignSectionEnds_last _ _ sec h, ?_, ?_⟩
    · have hperm : (pySortBy rawSecLe
          (dedupSectionTypes [] (pySortBy rawSecLe raw))).Perm
          (dedupSectionTypes [] (pySortBy rawSecLe raw)) :=
        pySortBy_perm _ _
      have hnd := dedupSectionTypes_nodup [] (pySortBy rawSecLe raw)
      have hmapperm := hperm.map (·.1)
      have hnd2 : ((pySortBy rawSecLe
          (dedupSectionTypes [] (pySortBy rawSecLe raw))).map (·.1)).Nodup :=
        (hmapperm.nodup_iff).mpr hnd
      have htypes :
          (assignSectionEnds textLen (pySortBy rawSecLe
            (dedupSectionTypes [] (pySortBy rawSecLe raw)))).map
              (·.section_type) =
          (pySortBy rawSecLe
            (dedupSectionTypes [] (pySortBy rawSecLe raw))).map (·.1) := by
        generalize (pySortBy rawSecLe
          (dedupSectionTypes [] (pySortBy rawSecLe raw))) = l
        induction l with
        | nil => simp [assignSectionEnds]
        | cons r rest ih => simp [assignSectionEnds, ih]
      rw [htypes]
      exact hnd2
    · intro sec hsec r hr heq
      rcases assignSectionEnds_mem _ _ sec hsec with ⟨r2, hr2, ht, hs⟩
      have hr2' : r2 ∈ dedupSectionTypes [] (pySortBy rawSecLe raw) :=
        (pySortBy_perm rawSecLe _).mem_iff.mp hr2
      haveI : IsTrans RawSection (fun a b => a.2.1 ≤ b.2.1) :=
        ⟨fun _ _ _ => Nat.le_trans⟩
      have hpw : (pySortBy rawSecLe raw).Pairwise
          (fun a b => a.2.1 ≤ b.2.1) :=
        List.chain'_iff_pairwise.mp hs1sorted
      have hrs1 : r ∈ pySortBy rawSecLe raw :=
        (pySortBy_perm rawSecLe raw).mem_iff.mpr hr
      have := dedupSectionTypes_min _ [] hpw r2 hr2' r hrs1
        (by rw [heq, ht])
      rw [← hs]
      exact this

/-- Witness instantiating C6 on a concrete pooled match list: section A at 0
(with a duplicate A at 7 that is dropped) and section B at 5, text length 9. -/
theorem C6_section_detect_witness :
    ({ section_type := .SECTION_B, start_char := 5, end_char := 9
       header_text := "hB" } : DetectedSection).end_char = 9 ∧
    ({ section_type := .SECTION_A, start_char := 0, end_char := 5
       header_text := "hA" } : DetectedSection).start_char ≤ 7 :=
  ⟨(C6_section_detect_invariants 9
      [(.SECTION_B, 5, "hB"), (.SECTION_A, 0, "hA"),
        (.SECTION_A, 7, "hA2")]).2.2.1
      { section_type := .SECTION_B, start_char := 5, end_char := 9
        header_text := "hB" } (by decide),
   (C6_section_detect_invariants 9
      [(.SECTION_B, 5, "hB"), (.SECTION_A, 0, "hA"),
        (.SECTION_A, 7, "hA2")]).2.2.2.2
      { section_type := .SECTION_A, start_char := 0, end_char := 5
        header_text := "hA" } (by decide)
      (.SECTION_A, 7, "hA2") (by decide) (by decide)⟩

-- ─── C1: hard token budget ────────────────────────────────────────────

theorem flatten_rep_w (m : Nat) :
    ((List.replicate m ['w']).map (fun q => [' '] ++ q)).flatten =
      wSpaceBlock m := by
  induction m with
  | zero => rfl
  | succ k ih =>
    rw [List.replicate_succ, List.map_cons, List.flatten_cons, ih]
    rfl

theorem pyJoin_replicate_w (n : Nat) :
    pyJoin [' '] (List.replicate (n + 1) ['w']) = 'w' :: wSpaceBlock n := by
  rw [List.replicate_succ]
  show ['w'] ++ ((List.replicate n ['w']).map (fun q => [' '] ++ q)).flatten
    = _
  rw [flatten_rep_w]
  rfl

theorem pyWordsAux_wblock (n : Nat) :
    pyWordsAux ('w' :: wSpaceBlock n) [] = List.replicate (n + 1) ['w'] := by
  induction n with
  | zero => rfl
  | succ m ih =>
    show pyWordsAux ('w' :: ' ' :: 'w' :: wSpaceBlock m) [] = _
    rw [show pyWordsAux ('w' :: ' ' :: 'w' :: wSpaceBlock m) []
      = pyWordsAux (' ' :: 'w' :: wSpaceBlock m) ['w'] from rfl]
    rw [show pyWordsAux (' ' :: 'w' :: wSpaceBlock m) ['w']
      = ['w'] :: pyWordsAux ('w' :: wSpaceBlock m) [] from rfl]
    rw [ih]
    simp [List.replicate_succ]

theorem word_count_wblock (n : Nat) :
    word_count ('w' :: wSpaceBlock n) = n + 1 := by
  unfold word_count pyWords
  rw [pyWordsAux_wblock]
  simp

theorem wblock_mem (n : Nat) :
    ∀ c ∈ 'w' :: wSpaceBlock n, c = 'w' ∨ c = ' ' := by
  induction n with
  | zero =>
    intro c hc
    rw [show wSpaceBlock 0 = [] from rfl] at hc
    left
    simpa using hc
  | succ m ih =>
    intro c hc
    rw [show wSpaceBlock (m + 1) = ' ' :: 'w' :: wSpaceBlock m from rfl] at hc
    rcases List.mem_cons.mp hc with rfl | hc
    · left
      rfl
    rcases List.mem_cons.mp hc with rfl | hc
    · right
      rfl
    exact ih c hc

theorem wblock_getLast (n : Nat) :
    ('w' :: wSpaceBlock n).getLast? = some 'w' := by
  induction n with
  | zero => rfl
  | succ m ih =>
    rw [show ('w' :: wSpaceBlock (m + 1))
      = 'w' :: ' ' :: 'w' :: wSpaceBlock m from rfl]
    rw [List.getLast?_cons_cons, List.getLast?_cons_cons]
    exact ih

theorem pyStrip_eq_self (s : Chars)
    (h1 : ∀ c, s.head? = some c → isPySpace c = false)
    (h2 : ∀ c, s.getLast? = some c → isPySpace c = false) :
    pyStrip s = s := by
  unfold pyStrip
  have e1 : s.dropWhile isPySpace = s := by
    cases s with
    | nil => rfl
    | cons a u =>
      rw [List.dropWhile_cons]
      simp [h1 a rfl]
  rw [e1]
  have e2 : s.reverse.dropWhile isPySpace = s.reverse := by
    cases hr : s.reverse with
    | nil => rfl
    | cons a u =>
      rw [List.dropWhile_cons]
      have ha : s.getLast? = some a := by
        rw [← List.head?_reverse, hr]
        rfl
      simp [h2 a ha]
  rw [e2, List.reverse_reverse]

theorem paraSepLen_not_nl (c : Char) (rest : Chars) (hc : ¬(c = '\n')) :
    paraSepLen (c :: rest) = none := by
  unfold paraSepLen
  split
  · rename_i heq
    injection heq with h1 h2
    exact absurd h1 hc
  · rfl

theorem reSplitParasF_no_nl :
    ∀ (fuel : Nat) (s : Chars), (∀ c ∈ s, ¬(c = '\n')) →
      reSplitParasF fuel s = [s]
  | _, [], _ => by cases ‹Nat› <;> rfl
  | 0, _ :: _, _ => rfl
  | fuel + 1, c :: rest, h => by
    have hc : ¬(c = '\n') := h c (List.mem_cons.mpr (.inl rfl))
    have hrec := reSplitParasF_no_nl fuel rest
      (fun d hd => h d (List.mem_cons.mpr (.inr hd)))
    rw [show reSplitParasF (fuel + 1) (c :: rest)
      = (match paraSepLen (c :: rest) with
        | some k => [] :: reSplitParasF fuel (rest.drop (k - 1))
        | none =>
          match reSplitParasF fuel rest with
          | [] => [[c]]
          | p :: ps => (c :: p) :: ps) from rfl]
    rw [paraSepLen_not_nl c rest hc, hrec]

theorem sentSepLen_not_punct (prev : Option Char) (s : Chars)
    (h : ∀ p, prev = some p → ¬(p = '.' ∨ p = '!' ∨ p = '?')) :
    sentSepLen prev s = none := by
  unfold sentSepLen
  cases prev with
  | none => rfl
  | some p =>
    have hp := h p rfl
    have : (decide (p = '.') || decide (p = '!') || decide (p = '?')) = false := by
      simp only [Bool.or_eq_false_iff, decide_eq_false_iff_not]
      exact ⟨⟨fun hq => hp (.inl hq), fun hq => hp (.inr (.inl hq))⟩,
        fun hq => hp (.inr (.inr hq))⟩
    simp [this]

theorem reSplitSentsF_no_punct :
    ∀ (fuel : Nat) (prev : Option Char) (s : Chars),
      (∀ c ∈ s, ¬(c = '.' ∨ c = '!' ∨ c = '?')) →
      (∀ p, prev = some p → ¬(p = '.' ∨ p = '!' ∨ p = '?')) →
      reSplitSentsF fuel prev s = [s]
  | _, _, [], _, _ => by cases ‹Nat› <;> rfl
  | 0, _, _ :: _, _, _ => rfl
  | fuel + 1, prev, c :: rest, h, hprev => by
    have hc : ¬(c = '.' ∨ c = '!' ∨ c = '?') :=
      h c (List.mem_cons.mpr (.inl rfl))
    have hrec := reSplitSentsF_no_punct fuel (some c) rest
      (fun d hd => h d (List.mem_cons.mpr (.inr hd)))
      (fun p hp => by
        injection hp with hp
        rw [← hp]
        exact hc)
    rw [show reSplitSentsF (fuel + 1) prev (c :: rest)
      = (match sentSepLen prev (c :: rest) with
        | some k => [] :: reSplitSentsF fuel none (rest.drop (k - 1))
        | none =>
          match reSplitSentsF fuel (some c) rest with
          | [] => [[c]]
          | p :: ps => (c :: p) :: ps) from rfl]
    rw [sentSepLen_not_punct prev (c :: rest) hprev, hrec]

theorem wblock_strip (n : Nat) :
    pyStrip ('w' :: wSpaceBlock n) = 'w' :: wSpaceBlock n := by
  apply pyStrip_eq_self
  · intro c hc
    have h' : 'w' = c := by simpa using hc
    rw [← h']
    rfl
  · intro c hc
    rw [wblock_getLast n] at hc
    have h' : 'w' = c := by simpa using hc
    rw [← h']
    rfl

theorem force_split_wblock (n : Nat) :
    force_split {} ('w' :: wSpaceBlock n) .OTHER none =
      [make_chunk ('w' :: wSpaceBlock n) .OTHER none] := by
  unfold force_split
  have hs : reSplitSents none ('w' :: wSpaceBlock n)
      = ['w' :: wSpaceBlock n] := by
    unfold reSplitSents
    apply reSplitSentsF_no_punct
    · intro c hc
      rcases wblock_mem n c hc with rfl | rfl <;> simp
    · intro p hp
      simp at hp
  rw [hs]
  rw [show forceSplitLoop {} .OTHER none ['w' :: wSpaceBlock n] [] 0
    = (let swc := word_count ('w' :: wSpaceBlock n)
       if 0 + swc > ChunkCfg.target_tokens {} ∧ ([] : List Chars) ≠ [] then
         make_chunk (pyJoin [' '] []) .OTHER none ::
           forceSplitLoop {} .OTHER none []
             ((overlapTail (ChunkCfg.overlap_tokens {}) []).1
                ++ ['w' :: wSpaceBlock n])
             ((overlapTail (ChunkCfg.overlap_tokens {}) []).2 + swc)
       else forceSplitLoop {} .OTHER none [] ([] ++ ['w' :: wSpaceBlock n])
         (0 + swc)) from rfl]
  simp only []
  rw [if_neg (by simp)]
  rw [show forceSplitLoop {} .OTHER none []
      ([] ++ ['w' :: wSpaceBlock n]) (0 + word_count ('w' :: wSpaceBlock n))
    = if ([] ++ ['w' :: wSpaceBlock n] : List Chars) ≠ [] then
        [make_chunk (pyJoin [' '] ([] ++ ['w' :: wSpaceBlock n])) .OTHER none]
      else [] from rfl]
  rw [if_pos (by simp)]
  simp [pyJoin]

theorem chunk_paragraphs_wblock (n : Nat) (h : 600 < n + 1) :
    chunk_paragraphs {} ('w' :: wSpaceBlock n) .OTHER none =
      [make_chunk ('w' :: wSpaceBlock n) .OTHER none] := by
  unfold chunk_paragraphs
  simp only []
  rw [wblock_strip n]
  rw [if_neg (by simp)]
  have hp : reSplitParas ('w' :: wSpaceBlock n) = ['w' :: wSpaceBlock n] := by
    unfold reSplitParas
    apply reSplitParasF_no_nl
    intro c hc
    rcases wblock_mem n c hc with rfl | rfl <;> simp
  rw [hp]
  rw [show (['w' :: wSpaceBlock n].map pyStrip).filter (fun p => !p.isEmpty)
    = [pyStrip ('w' :: wSpaceBlock n)].filter (fun p => !p.isEmpty) from rfl]
  rw [wblock_strip n]
  rw [show (['w' :: wSpaceBlock n].filter (fun p => !p.isEmpty))
    = ['w' :: wSpaceBlock n] from by simp]
  rw [if_neg (by simp)]
  rw [show paraLoop {} .OTHER none ['w' :: wSpaceBlock n] [] 0
    = (let pwc := word_count ('w' :: wSpaceBlock n)
       if pwc > ChunkCfg.max_tokens {} then
        (if ([] : List Chars) ≠ [] then
          [make_chunk (pyJoin ['\n', '\n'] []) .OTHER none]
        else [])
        ++ force_split {} ('w' :: wSpaceBlock n) .OTHER none
        ++ paraLoop {} .OTHER none [] [] 0
       else if 0 + pwc > ChunkCfg.target_tokens {} ∧ ([] : List Chars) ≠ [] then
        make_chunk (pyJoin ['\n', '\n'] []) .OTHER none ::
          paraLoop {} .OTHER none []
            ((overlapTail (ChunkCfg.overlap_tokens {}) []).1
              ++ ['w' :: wSpaceBlock n])
            ((overlapTail (ChunkCfg.overlap_tokens {}) []).2 + pwc)
       else paraLoop {} .OTHER none [] ([] ++ ['w' :: wSpaceBlock n])
        (0 + pwc)) from rfl]
  simp only []
  rw [word_count_wblock n]
  rw [if_pos (by show 600 < n + 1; omega)]
  rw [force_split_wblock n]
  simp [paraLoop]

/-- C1 (code bug): on a document consisting of one paragraph of 601 words
with no sentence punctuation, `ClauseChunker.chunk_document` (default
budgets 500/600/50, no detected sections — the same fallback path
`DocumentProcessor.process` takes for this text) emits a single chunk of
601 words, exceeding the hard maximum of 600 that the spec — and the
repository's own test `test_no_chunk_exceeds_600_tokens` — declare as a
universal invariant: `_force_split` finds no sentence boundary and keeps
the whole oversized paragraph as one chunk. -/
theorem C1_hard_max_violated :
    (ClauseChunker_chunk_document {} c1Text []).map
        (fun c => c.metadata.word_count) = [601]
    ∧ ¬((ClauseChunker_chunk_document {} c1Text []).all
        (fun c => c.metadata.word_count ≤ 600)) := by
  have ht : c1Text = 'w' :: wSpaceBlock 600 := pyJoin_replicate_w 600
  have hcd : ClauseChunker_chunk_document {} c1Text []
      = [make_chunk ('w' :: wSpaceBlock 600) .OTHER none] := by
    unfold ClauseChunker_chunk_document
    rw [if_pos rfl, ht]
    exact chunk_paragraphs_wblock 600 (by omega)
  rw [hcd]
  constructor
  · simp [make_chunk, word_count_wblock 600]
  · simp [make_chunk, word_count_wblock 600]

-- ─── C10: text before the first detected section ──────────────────────

theorem pySlice_eq_of_drop_eq (t1 t2 : Chars) (k a b : Nat) (hk : k ≤ a)
    (hdrop : t1.drop k = t2.drop k) : pySlice t1 a b = pySlice t2 a b := by
  unfold pySlice
  have h1 : t1.drop a = t2.drop a := by
    have e1 : t1.drop a = (t1.drop k).drop (a - k) := by
      rw [List.drop_drop]
      congr 1
      omega
    have e2 : t2.drop a = (t2.drop k).drop (a - k) := by
      rw [List.drop_drop]
      congr 1
      omega
    rw [e1, e2, hdrop]
  rw [h1]

/-- C10: when chunking with a detected section list whose first section
starts at `k > 0` (all detected sections start at or after the first one),
the output depends only on `text[k:]`: any two texts agreeing from `k`
onward chunk identically, so the text before the first detected section
header reaches no produced chunk. -/
theorem C10_prefix_text_lost (cfg : ChunkCfg) (t1 t2 : Chars)
    (sections : List DetectedSection) (first : DetectedSection)
    (hfirst : sections.head? = some first)
    (_hpos : 0 < first.start_char)
    (hmin : ∀ s ∈ sections, first.start_char ≤ s.start_char)
    (hdrop : t1.drop first.start_char = t2.drop first.start_char) :
    ClauseChunker_chunk_document cfg t1 sections =
      ClauseChunker_chunk_document cfg t2 sections := by
  have hne : sections ≠ [] := by
    intro h
    rw [h] at hfirst
    simp at hfirst
  unfold ClauseChunker_chunk_document
  rw [if_neg hne, if_neg hne]
  congr 1
  congr 1
  apply List.map_congr_left
  intro sec hsec
  have hsl : pySlice t1 sec.start_char sec.end_char =
      pySlice t2 sec.start_char sec.end_char :=
    pySlice_eq_of_drop_eq t1 t2 first.start_char _ _ (hmin sec hsec) hdrop
  simp only [hsl]

/-- Witness for C10: two small documents differing only in the two
characters before the single detected section produce identical chunks. -/
theorem C10_prefix_text_lost_witness :
    ClauseChunker_chunk_document {} ("AB\n\nC. SCOPE\nhello world").data
        [{ section_type := .SECTION_C, start_char := 4, end_char := 24
           header_text := "C. SCOPE" }] =
      ClauseChunker_chunk_document {} ("XY\n\nC. SCOPE\nhello world").data
        [{ section_type := .SECTION_C, start_char := 4, end_char := 24
           header_text := "C. SCOPE" }] :=
  C10_prefix_text_lost {} _ _ _
    { section_type := .SECTION_C, start_char := 4, end_char := 24
      header_text := "C. SCOPE" }
    (by decide) (by decide) (by decide) (by decide)

-- ─── C5: extract_all_entities ordering and dedup ──────────────────────

theorem dedupByDupKey_sublist :
    ∀ (l : List EntityAnn) (seen : List (String × Nat × Nat)),
      (dedupByDupKey seen l).Sublist l
  | [], _ => by simp [dedupByDupKey]
  | b :: rest, seen => by
    unfold dedupByDupKey
    by_cases h : dupKey b ∈ seen
    · exact (if_pos h) ▸ (dedupByDupKey_sublist rest seen).cons b
    · exact (if_neg h) ▸ (dedupByDupKey_sublist rest _).cons₂ b

theorem dedupByDupKey_mem_not_seen :
    ∀ (l : List EntityAnn) (seen : List (String × Nat × Nat)) (a : EntityAnn),
      a ∈ dedupByDupKey seen l → dupKey a ∉ seen
  | [], _, _, ha => by simp [dedupByDupKey] at ha
  | b :: rest, seen, a, ha => by
    unfold dedupByDupKey at ha
    by_cases h : dupKey b ∈ seen
    · rw [if_pos h] at ha
      exact dedupByDupKey_mem_not_seen rest seen a ha
    · rw [if_neg h] at ha
      rcases List.mem_cons.mp ha with hab | ha2
      · rw [hab]; exact h
      · have := dedupByDupKey_mem_not_seen rest _ a ha2
        intro hmem
        exact this (List.mem_cons_of_mem _ hmem)

theorem dedupByDupKey_keys_nodup :
    ∀ (l : List EntityAnn) (seen : List (String × Nat × Nat)),
      ((dedupByDupKey seen l).map dupKey).Nodup
  | [], _ => by simp [dedupByDupKey]
  | b :: rest, seen => by
    unfold dedupByDupKey
    by_cases h : dupKey b ∈ seen
    · rw [if_pos h]
      exact dedupByDupKey_keys_nodup rest seen
    · rw [if_neg h]
      rw [List.map_cons, List.nodup_cons]
      refine ⟨?_, dedupByDupKey_keys_nodup rest _⟩
      intro hmem
      rcases List.mem_map.mp hmem with ⟨a, ha, hk⟩
      exact dedupByDupKey_mem_not_seen rest _ a ha
        (hk ▸ List.mem_cons_self _ _)

theorem dedupByDupKey_find?_eq :
    ∀ (l : List EntityAnn) (seen : List (String × Nat × Nat))
      (k : String × Nat × Nat), k ∉ seen →
      (dedupByDupKey seen l).find? (fun a => decide (dupKey a = k)) =
        l.find? (fun a => decide (dupKey a = k))
  | [], _, _, _ => by simp [dedupByDupKey]
  | b :: rest, seen, k, hk => by
    unfold dedupByDupKey
    by_cases h : dupKey b ∈ seen
    · rw [if_pos h]
      have hbk : ¬ dupKey b = k := by
        intro he; exact hk (he ▸ h)
      rw [List.find?_cons_of_neg _ (by simpa using hbk)]
      exact dedupByDupKey_find?_eq rest seen k hk
    · rw [if_neg h]
      by_cases hbk : dupKey b = k
      · rw [List.find?_cons_of_pos _ (by simpa using hbk),
          List.find?_cons_of_pos _ (by simpa using hbk)]
      · rw [List.find?_cons_of_neg _ (by simpa using hbk),
          List.find?_cons_of_neg _ (by simpa using hbk)]
        refine dedupByDupKey_find?_eq rest _ k ?_
        intro hmem
        rcases List.mem_cons.mp hmem with he | hs
        · exact hbk he.symm
        · exact hk hs

theorem annLe_trans (a b c : EntityAnn) (h1 : annLe a b = true)
    (h2 : annLe b c = true) : annLe a c = true :=
  keyLe_trans _ _ _ h1 h2

instance : IsTrans EntityAnn (fun a b => annLe a b = true) :=
  ⟨fun a b c => annLe_trans a b c⟩

/-- C5: for every input text, `extract_all_entities` returns a list sorted
by `(start_char, entity_type)` with no two annotations sharing a
`(entity_type, start_char, end_char)` key, and the annotation kept for each
key is the first annotation bearing that key in the stably sorted
concatenation of the twelve extractor outputs. -/
theorem C5_extract_all_sorted_dedup (t : Chars) :
    IsSortedBy annLe (extract_all_entities t)
    ∧ ((extract_all_entities t).map dupKey).Nodup
    ∧ ∀ k : String × Nat × Nat,
        (extract_all_entities t).find? (fun a => decide (dupKey a = k)) =
          (pySortBy annLe (allExtractorResults t)).find?
            (fun a => decide (dupKey a = k)) := by
  refine ⟨?_, ?_, ?_⟩
  · exact List.Chain'.sublist
      (pySortBy_sorted annLe annLe_total (allExtractorResults t))
      (dedupByDupKey_sublist _ [])
  · exact dedupByDupKey_keys_nodup _ []
  · intro k
    exact dedupByDupKey_find?_eq _ [] k (by simp)

-- ─── C9: dollar-amount normalization ──────────────────────────────────

/-- C9: `extract_dollar_amounts` on `"Funded amount of $1.2M."` returns
exactly one DOLLAR_AMOUNT annotation with normalized value `1200000`; in
general a present multiplier suffix scales the comma-stripped parsed digit
group by `_MULT_MAP` of its first character (k/K ↦ 10^3, m/M ↦ 10^6,
b/B ↦ 10^9, t/T ↦ 10^12), and every produced annotation stores the
normalized value and the raw matched text in its metadata. Python floats
are modelled as exact rationals. -/
theorem C9_dollar_normalization :
    extract_dollar_amounts ("Funded amount of $1.2M.").data =
      [{ entity_type := "DOLLAR_AMOUNT", entity_value := "$1.2M"
         start_char := 17, end_char := 22, confidence := 1
         metadata := [("normalized_value", .num 1200000),
           ("raw_text", .str "$1.2M")] }]
    ∧ (∀ (ds : Chars) (c : Char) (rest : Chars),
        normalize_dollar ds (some (c :: rest)) =
          parseDecimal (ds.filter (fun x => !(x = ','))) * multMap c)
    ∧ multMap 'k' = 1000 ∧ multMap 'K' = 1000
    ∧ multMap 'm' = 1000000 ∧ multMap 'M' = 1000000
    ∧ multMap 'b' = 1000000000 ∧ multMap 'B' = 1000000000
    ∧ multMap 't' = 1000000000000 ∧ multMap 'T' = 1000000000000
    ∧ ∀ t : Chars, (extract_dollar_amounts t).Forall
        (fun a => ∃ q : Rat,
          a.metadata = [("normalized_value", MetaVal.num q),
            ("raw_text", MetaVal.str a.entity_value)]) := by
  refine ⟨?_, fun ds c rest => rfl, rfl, rfl, rfl, rfl, rfl, rfl, rfl,
    rfl, ?_⟩
  · have h1 : extract_dollar_amounts ("Funded amount of $1.2M.").data =
        [{ entity_type := "DOLLAR_AMOUNT", entity_value := "$1.2M"
           start_char := 17, end_char := 22, confidence := 1
           metadata := [("normalized_value",
               .num (normalize_dollar ['1', '.', '2'] (some ['M']))),
             ("raw_text", .str "$1.2M")] }] := rfl
    have e1 : normalize_dollar ['1', '.', '2'] (some ['M']) =
        ((digitsToNat ['1'] : Rat)
            + (digitsToNat ['2'] : Rat) / (10 : Rat) ^ (1 : Nat))
          * multMap 'M' := rfl
    have d1 : digitsToNat ['1'] = 1 := rfl
    have d2 : digitsToNat ['2'] = 2 := rfl
    have hm : multMap 'M' = 1000000 := rfl
    have h2 : normalize_dollar ['1', '.', '2'] (some ['M']) = 1200000 := by
      rw [e1, d1, d2, hm]; norm_num
    rw [h1, h2]
  · intro t
    rw [List.forall_iff_forall_mem]
    intro a ha
    rcases List.mem_map.mp ha with ⟨m, _, rfl⟩
    exact ⟨_, rfl⟩

-- ─── C8: date extraction ──────────────────────────────────────────────

theorem finditerF_ge {P : Type} (m : Matcher P) :
    ∀ (fuel : Nat) (s : Chars) (prev : Option Char) (pos : Nat)
      (x : Nat × Nat × P), x ∈ finditerF m fuel prev s pos → pos ≤ x.1
  | 0, [], _, _, _ => by simp [finditerF]
  | 0, _ :: _, _, _, _ => by simp [finditerF]
  | fuel + 1, [], _, _, _ => by simp [finditerF]
  | fuel + 1, c :: rest, prev, pos, x => by
    intro hx
    unfold finditerF at hx
    split at hx
    · rename_i len p heq
      rcases List.mem_cons.mp hx with he | hx2
      · rw [he]
      · have := finditerF_ge m fuel _ _ (pos + len) x hx2
        omega
    · have := finditerF_ge m fuel rest (some c) (pos + 1) x hx
      omega

theorem finditerF_chain {P : Type} (m : Matcher P) :
    ∀ (fuel : Nat) (s : Chars) (prev : Option Char) (pos : Nat),
      List.Chain' (fun a b => a.1 + a.2.1 ≤ b.1) (finditerF m fuel prev s pos)
  | 0, [], _, _ => by simp [finditerF]
  | 0, _ :: _, _, _ => by simp [finditerF]
  | fuel + 1, [], _, _ => by simp [finditerF]
  | fuel + 1, c :: rest, prev, pos => by
    unfold finditerF
    split
    · rename_i len p heq
      refine List.chain'_cons'.mpr ⟨?_, finditerF_chain m fuel _ _ (pos + len)⟩
      intro y hy
      exact finditerF_ge m fuel _ _ _ y (List.mem_of_mem_head? hy)
    · exact finditerF_chain m fuel rest (some c) (pos + 1)

instance {P : Type} : IsTrans (Nat × Nat × P) (fun a b => a.1 + a.2.1 ≤ b.1) :=
  ⟨fun _ _ _ h1 h2 => le_trans h1 (le_trans (Nat.le_add_right _ _) h2)⟩

theorem finditer_pairwise {P : Type} (m : Matcher P) (t : Chars) :
    (finditer m t).Pairwise (fun a b => a.1 + a.2.1 ≤ b.1) :=
  List.chain'_iff_pairwise.mp (finditerF_chain m t.length t none 0)

theorem dateScan_seen_mono (t : Chars)
    (getYMD : Nat → DateG → Nat × Nat × Nat) (cs : Bool) :
    ∀ (ms : List (Nat × Nat × DateG)) (seen : List (Nat × Nat))
      (sp : Nat × Nat), sp ∈ seen → sp ∈ (dateScan t getYMD cs ms seen).2
  | [], _, _, hsp => hsp
  | (pos, len, g) :: rest, seen, sp, hsp => by
    unfold dateScan
    simp only []
    split
    · split
      · exact dateScan_seen_mono t getYMD cs rest seen sp hsp
      · exact dateScan_seen_mono t getYMD cs rest _ sp
          (List.mem_cons_of_mem _ hsp)
    · exact dateScan_seen_mono t getYMD cs rest seen sp hsp

theorem dateScan_out_spans (t : Chars)
    (getYMD : Nat → DateG → Nat × Nat × Nat) (cs : Bool) :
    ∀ (ms : List (Nat × Nat × DateG)) (seen : List (Nat × Nat))
      (a : EntityAnn), a ∈ (dateScan t getYMD cs ms seen).1 →
      (a.start_char, a.end_char) ∈ (dateScan t getYMD cs ms seen).2
  | [], seen, a, ha => by simp [dateScan] at ha
  | (pos, len, g) :: rest, seen, a, ha => by
    unfold dateScan at ha ⊢
    simp only [] at ha ⊢
    by_cases hv : validate_date (getYMD pos g).1 (getYMD pos g).2.1
        (getYMD pos g).2.2 = true
    · rw [if_pos hv] at ha ⊢
      by_cases hs : (cs && List.any seen fun sp => sp.1 ≤ pos && pos < sp.2)
          = true
      · rw [if_pos hs] at ha ⊢
        exact dateScan_out_spans t getYMD cs rest seen a ha
      · rw [if_neg hs] at ha ⊢
        rcases List.mem_cons.mp ha with hea | ha2
        · rw [hea]
          exact dateScan_seen_mono t getYMD cs rest _ _
            (List.mem_cons_self _ _)
        · exact dateScan_out_spans t getYMD cs rest _ a ha2
    · rw [if_neg hv] at ha ⊢
      exact dateScan_out_spans t getYMD cs rest seen a ha

theorem dateScan_avoid_seen (t : Chars)
    (getYMD : Nat → DateG → Nat × Nat × Nat) :
    ∀ (ms : List (Nat × Nat × DateG)) (seen : List (Nat × Nat))
      (a : EntityAnn), a ∈ (dateScan t getYMD true ms seen).1 →
      ∀ sp ∈ seen, ¬(sp.1 ≤ a.start_char ∧ a.start_char < sp.2)
  | [], seen, a, ha => by simp [dateScan] at ha
  | (pos, len, g) :: rest, seen, a, ha => by
    unfold dateScan at ha
    simp only [] at ha
    by_cases hv : validate_date (getYMD pos g).1 (getYMD pos g).2.1
        (getYMD pos g).2.2 = true
    · rw [if_pos hv] at ha
      by_cases hs : (true && List.any seen fun sp => sp.1 ≤ pos && pos < sp.2)
          = true
      · rw [if_pos hs] at ha
        exact dateScan_avoid_seen t getYMD rest seen a ha
      · rw [if_neg hs] at ha
        have hnone : ∀ sp ∈ seen, ¬(sp.1 ≤ pos ∧ pos < sp.2) := by
          intro sp hsp hcon
          apply hs
          simp only [Bool.true_and]
          refine List.any_eq_true.mpr ⟨sp, hsp, ?_⟩
          simp only [Bool.and_eq_true, decide_eq_true_eq]
          exact ⟨hcon.1, hcon.2⟩
        rcases List.mem_cons.mp ha with hea | ha2
        · rw [hea]
          intro sp hsp
          exact hnone sp hsp
        · intro sp hsp
          exact dateScan_avoid_seen t getYMD rest _ a ha2 sp
            (List.mem_cons_of_mem _ hsp)
    · rw [if_neg hv] at ha
      exact dateScan_avoid_seen t getYMD rest seen a ha

theorem dateScan_out_from_ms (t : Chars)
    (getYMD : Nat → DateG → Nat × Nat × Nat) (cs : Bool) :
    ∀ (ms : List (Nat × Nat × DateG)) (seen : List (Nat × Nat))
      (a : EntityAnn), a ∈ (dateScan t getYMD cs ms seen).1 →
      ∃ x ∈ ms, a.start_char = x.1 ∧ a.end_char = x.1 + x.2.1
  | [], seen, a, ha => by simp [dateScan] at ha
  | (pos, len, g) :: rest, seen, a, ha => by
    unfold dateScan at ha
    simp only [] at ha
    by_cases hv : validate_date (getYMD pos g).1 (getYMD pos g).2.1
        (getYMD pos g).2.2 = true
    · rw [if_pos hv] at ha
      by_cases hs : (cs && List.any seen fun sp => sp.1 ≤ pos && pos < sp.2)
          = true
      · rw [if_pos hs] at ha
        rcases dateScan_out_from_ms t getYMD cs rest seen a ha
          with ⟨x, hx, h1, h2⟩
        exact ⟨x, List.mem_cons_of_mem _ hx, h1, h2⟩
      · rw [if_neg hs] at ha
        rcases List.mem_cons.mp ha with hea | ha2
        · exact ⟨(pos, len, g), List.mem_cons_self _ _, by rw [hea], by rw [hea]⟩
        · rcases dateScan_out_from_ms t getYMD cs rest _ a ha2
            with ⟨x, hx, h1, h2⟩
          exact ⟨x, List.mem_cons_of_mem _ hx, h1, h2⟩
    · rw [if_neg hv] at ha
      rcases dateScan_out_from_ms t getYMD cs rest seen a ha
        with ⟨x, hx, h1, h2⟩
      exact ⟨x, List.mem_cons_of_mem _ hx, h1, h2⟩

theorem dateScan_out_pairwise (t : Chars)
    (getYMD : Nat → DateG → Nat × Nat × Nat) (cs : Bool) :
    ∀ (ms : List (Nat × Nat × DateG)) (seen : List (Nat × Nat)),
      ms.Pairwise (fun x y => x.1 + x.2.1 ≤ y.1) →
      (dateScan t getYMD cs ms seen).1.Pairwise
        (fun a b => ¬(a.start_char ≤ b.start_char ∧ b.start_char < a.end_char))
  | [], seen, _ => by simp [dateScan]
  | (pos, len, g) :: rest, seen, hp => by
    have hrest := List.Pairwise.of_cons hp
    have hhead : ∀ x ∈ rest, pos + len ≤ x.1 :=
      (List.pairwise_cons.mp hp).1
    unfold dateScan
    simp only []
    split
    · split
      · exact dateScan_out_pairwise t getYMD cs rest seen hrest
      · refine List.Pairwise.cons ?_
          (dateScan_out_pairwise t getYMD cs rest _ hrest)
        intro b hb
        show ¬(pos ≤ b.start_char ∧ b.start_char < pos + len)
        rcases dateScan_out_from_ms t getYMD cs rest _ b hb
          with ⟨x, hx, hbs, _⟩
        have := hhead x hx
        rw [hbs]
        intro hcon
        omega
    · exact dateScan_out_pairwise t getYMD cs rest seen hrest

theorem dateScan_out_valid (t : Chars)
    (getYMD : Nat → DateG → Nat × Nat × Nat) (cs : Bool) :
    ∀ (ms : List (Nat × Nat × DateG)) (seen : List (Nat × Nat))
      (a : EntityAnn), a ∈ (dateScan t getYMD cs ms seen).1 →
      a.entity_type = "DATE" ∧ ∃ y mo d, validate_date y mo d = true ∧
        a.metadata = [("iso_date", MetaVal.str (to_iso y mo d))]
  | [], seen, a, ha => by simp [dateScan] at ha
  | (pos, len, g) :: rest, seen, a, ha => by
    unfold dateScan at ha
    simp only [] at ha
    by_cases hv : validate_date (getYMD pos g).1 (getYMD pos g).2.1
        (getYMD pos g).2.2 = true
    · rw [if_pos hv] at ha
      by_cases hs : (cs && List.any seen fun sp => sp.1 ≤ pos && pos < sp.2)
          = true
      · rw [if_pos hs] at ha
        exact dateScan_out_valid t getYMD cs rest seen a ha
      · rw [if_neg hs] at ha
        rcases List.mem_cons.mp ha with hea | ha2
        · rw [hea]
          exact ⟨rfl, (getYMD pos g).1, (getYMD pos g).2.1,
            (getYMD pos g).2.2, hv, rfl⟩
        · exact dateScan_out_valid t getYMD cs rest _ a ha2
    · rw [if_neg hv] at ha
      exact dateScan_out_valid t getYMD cs rest seen a ha

theorem extract_dates_eq (t : Chars) :
    extract_dates t = (datePass1 t).1 ++ (datePass2 t).1 ++ (datePass3 t).1
      ++ (datePass4 t).1 := rfl

/-- C8 counterexample: on `"1/2/2026-03-04"` the ISO pass accepts the span
`[4,14)` first, then the US pass accepts `[0,8)` because the suppression
check only asks whether the *start* of the new match lies inside an
already-kept span (`s[0] <= span[0] < s[1]`), and `4 ≤ 0` is false.  The
two returned DATE annotations overlap, falsifying the claim's
pairwise-non-overlap consequence. -/
theorem C8_counterexample :
    extract_dates ("1/2/2026-03-04").data =
      [{ entity_type := "DATE", entity_value := "2026-03-04"
         start_char := 4, end_char := 14, confidence := 1
         metadata := [("iso_date", .str "2026-03-04")] },
       { entity_type := "DATE", entity_value := "1/2/2026"
         start_char := 0, end_char := 8, confidence := 1
         metadata := [("iso_date", .str "2026-01-02")] }]
    ∧ spans_overlap
        { entity_type := "DATE", entity_value := "2026-03-04"
          start_char := 4, end_char := 14, confidence := 1
          metadata := [("iso_date", .str "2026-03-04")] }
        { entity_type := "DATE", entity_value := "1/2/2026"
          start_char := 0, end_char := 8, confidence := 1
          metadata := [("iso_date", .str "2026-01-02")] } = true := by
  constructor
  · decide
  · decide

/-- C8 amended: every DATE annotation returned by `extract_dates` carries a
calendar-validated date (month 1–12, day within the month's true length,
leap years included) normalized to ISO in its metadata, and a match is
suppressed exactly when its *start* offset lies inside an
earlier-retained span — so for any two returned annotations in output
order, the later one's start does not lie inside the earlier one's span
(full spans may still overlap, as the counterexample shows). -/
theorem C8_dates_amended (t : Chars) :
    (∀ a ∈ extract_dates t, a.entity_type = "DATE" ∧
        ∃ y mo d, validate_date y mo d = true ∧
          a.metadata = [("iso_date", MetaVal.str (to_iso y mo d))])
    ∧ (extract_dates t).Pairwise
        (fun a b => ¬(a.start_char ≤ b.start_char ∧ b.start_char < a.end_char))
    := by
  have he := extract_dates_eq t
  constructor
  · intro a ha
    rw [he] at ha
    simp only [List.mem_append] at ha
    rcases ha with ((h | h) | h) | h
    · exact dateScan_out_valid t (dmyYMD t) false _ _ a h
    · exact dateScan_out_valid t (mdyYMD t) true _ _ a h
    · exact dateScan_out_valid t (isoYMD t) true _ _ a h
    · exact dateScan_out_valid t (usYMD t) true _ _ a h
  · rw [he]
    have hp1 := dateScan_out_pairwise t (dmyYMD t) false (finditer matchDMY t)
      [] (finditer_pairwise matchDMY t)
    have hp2 := dateScan_out_pairwise t (mdyYMD t) true (finditer matchMDY t)
      (datePass1 t).2 (finditer_pairwise matchMDY t)
    have hp3 := dateScan_out_pairwise t (isoYMD t) true (finditer matchISO t)
      (datePass2 t).2 (finditer_pairwise matchISO t)
    have hp4 := dateScan_out_pairwise t (usYMD t) true (finditer matchUS t)
      (datePass3 t).2 (finditer_pairwise matchUS t)
    have hsp1 : ∀ a ∈ (datePass1 t).1,
        (a.start_char, a.end_char) ∈ (datePass1 t).2 := fun a ha =>
      dateScan_out_spans t (dmyYMD t) false (finditer matchDMY t) [] a ha
    have hsp2 : ∀ a ∈ (datePass2 t).1,
        (a.start_char, a.end_char) ∈ (datePass2 t).2 := fun a ha =>
      dateScan_out_spans t (mdyYMD t) true (finditer matchMDY t)
        (datePass1 t).2 a ha
    have hsp3 : ∀ a ∈ (datePass3 t).1,
        (a.start_char, a.end_char) ∈ (datePass3 t).2 := fun a ha =>
      dateScan_out_spans t (isoYMD t) true (finditer matchISO t)
        (datePass2 t).2 a ha
    have hm2 : ∀ sp, sp ∈ (datePass1 t).2 → sp ∈ (datePass2 t).2 :=
      fun sp h => dateScan_seen_mono t (mdyYMD t) true (finditer matchMDY t)
        (datePass1 t).2 sp h
    have hm3 : ∀ sp, sp ∈ (datePass2 t).2 → sp ∈ (datePass3 t).2 :=
      fun sp h => dateScan_seen_mono t (isoYMD t) true (finditer matchISO t)
        (datePass2 t).2 sp h
    have hav2 : ∀ b ∈ (datePass2 t).1, ∀ sp ∈ (datePass1 t).2,
        ¬(sp.1 ≤ b.start_char ∧ b.start_char < sp.2) := fun b hb =>
      dateScan_avoid_seen t (mdyYMD t) (finditer matchMDY t)
        (datePass1 t).2 b hb
    have hav3 : ∀ b ∈ (datePass3 t).1, ∀ sp ∈ (datePass2 t).2,
        ¬(sp.1 ≤ b.start_char ∧ b.start_char < sp.2) := fun b hb =>
      dateScan_avoid_seen t (isoYMD t) (finditer matchISO t)
        (datePass2 t).2 b hb
    have hav4 : ∀ b ∈ (datePass4 t).1, ∀ sp ∈ (datePass3 t).2,
        ¬(sp.1 ≤ b.start_char ∧ b.start_char < sp.2) := fun b hb =>
      dateScan_avoid_seen t (usYMD t) (finditer matchUS t)
        (datePass3 t).2 b hb
    refine List.pairwise_append.mpr ⟨List.pairwise_append.mpr
      ⟨List.pairwise_append.mpr ⟨hp1, hp2, ?_⟩, hp3, ?_⟩, hp4, ?_⟩
    · intro a ha b hb
      exact hav2 b hb (a.start_char, a.end_char) (hsp1 a ha)
    · intro a ha b hb
      rcases List.mem_append.mp ha with h1 | h2
      · exact hav3 b hb (a.start_char, a.end_char) (hm2 _ (hsp1 a h1))
      · exact hav3 b hb (a.start_char, a.end_char) (hsp2 a h2)
    · intro a ha b hb
      rcases List.mem_append.mp ha with h12 | h3
      · rcases List.mem_append.mp h12 with h1 | h2
        · exact hav4 b hb (a.start_char, a.end_char)
            (hm3 _ (hm2 _ (hsp1 a h1)))
        · exact hav4 b hb (a.start_char, a.end_char) (hm3 _ (hsp2 a h2))
      · exact hav4 b hb (a.start_char, a.end_char) (hsp3 a h3)

-- ─── C3: extractor span/value infrastructure ──────────────────────────

theorem finditerF_sound {P : Type} (m : Matcher P) :
    ∀ (fuel : Nat) (s : Chars) (prev : Option Char) (pos : Nat)
      (x : Nat × Nat × P), x ∈ finditerF m fuel prev s pos →
      ∃ pr, m pr (s.drop (x.1 - pos)) = some (x.2.1, x.2.2)
  | 0, [], _, _, _ => by simp [finditerF]
  | 0, _ :: _, _, _, _ => by simp [finditerF]
  | fuel + 1, [], _, _, _ => by simp [finditerF]
  | fuel + 1, c :: rest, prev, pos, x => by
    intro hx
    unfold finditerF at hx
    split at hx
    · rename_i len p heq
      rcases List.mem_cons.mp hx with he | hx2
      · subst he
        exact ⟨prev, by rw [Nat.sub_self, List.drop_zero]; exact heq⟩
      · have hge := finditerF_ge m fuel _ _ (pos + len) x hx2
        obtain ⟨pr, hpr⟩ := finditerF_sound m fuel _ _ (pos + len) x hx2
        refine ⟨pr, ?_⟩
        rw [List.drop_drop] at hpr
        rwa [show len + (x.1 - (pos + len)) = x.1 - pos from by omega] at hpr
    · have hge := finditerF_ge m fuel rest (some c) (pos + 1) x hx
      obtain ⟨pr, hpr⟩ := finditerF_sound m fuel rest (some c) (pos + 1) x hx
      refine ⟨pr, ?_⟩
      rw [show x.1 - pos = x.1 - (pos + 1) + 1 from by omega]
      exact hpr

theorem finditer_sound {P : Type} (m : Matcher P) (t : Chars)
    (x : Nat × Nat × P) (hx : x ∈ finditer m t) :
    ∃ pr, m pr (t.drop x.1) = some (x.2.1, x.2.2) := by
  have h := finditerF_sound m t.length t none 0 x hx
  simpa using h

theorem pyToLower_space (d : Char) (hd : isPySpace d = true) :
    pyToLower d = d := by
  unfold isPySpace at hd
  simp only [Bool.or_eq_true, decide_eq_true_eq] at hd
  rcases hd with ((((h | h) | h) | h) | h) | h <;> subst h <;> decide

theorem ciEq_imp_nonspace (h d : Char)
    (hh : isPySpace (pyToLower h) = false) (hcd : ciEq h d = true) :
    isPySpace d = false := by
  have heq : pyToLower h = pyToLower d := by
    unfold ciEq at hcd
    exact of_decide_eq_true hcd
  cases hsp : isPySpace d with
  | false => rfl
  | true =>
    have hfix := pyToLower_space d hsp
    rw [hfix] at heq
    rw [heq] at hh
    rw [hsp] at hh
    exact Bool.noConfusion hh

theorem isPyDigit_nonspace (c : Char) (hc : isPyDigit c = true) :
    isPySpace c = false := by
  cases hs : isPySpace c
  · rfl
  · unfold isPySpace at hs
    simp only [Bool.or_eq_true, decide_eq_true_eq] at hs
    exfalso
    rcases hs with ((((h | h) | h) | h) | h) | h <;> subst h <;>
      simp [isPyDigit] at hc

theorem charTest_head (s : Chars) (p : Char → Bool)
    (h : charTest s 0 p = true) :
    ∃ c, s.head? = some c ∧ p c = true := by
  unfold charTest charAt at h
  rw [List.drop_zero] at h
  cases s with
  | nil => simp at h
  | cons c u => exact ⟨c, rfl, h⟩

theorem litAt_head (h : Char) (tl : Chars) (s : Chars)
    (hp : litAt (h :: tl) s 0 = true) : s.head? = some h := by
  unfold litAt at hp
  rw [List.drop_zero] at hp
  obtain ⟨u, hu⟩ := List.isPrefixOf_iff_prefix.mp hp
  rw [← hu]
  rfl

theorem ciLitAt_at_head (h : Char) (tl : Chars) (s : Chars) (i : Nat)
    (hp : ciLitAt (h :: tl) s i = true) :
    ∃ d, (s.drop i).head? = some d ∧ ciEq h d = true := by
  unfold ciLitAt at hp
  cases hdp : s.drop i with
  | nil => rw [hdp] at hp; simp [ciPrefOf] at hp
  | cons d u =>
    rw [hdp] at hp
    unfold ciPrefOf at hp
    simp only [Bool.and_eq_true] at hp
    exact ⟨d, rfl, hp.1⟩

theorem isDigitsN_at_head (s : Chars) (i n : Nat) (hn : 1 ≤ n)
    (h : isDigitsN s i n = true) :
    ∃ c, (s.drop i).head? = some c ∧ isPyDigit c = true := by
  unfold isDigitsN classRun at h
  simp only [Bool.and_eq_true] at h
  cases hdp : s.drop i with
  | nil =>
    rw [hdp] at h
    obtain ⟨h1, -⟩ := h
    simp at h1
    omega
  | cons c u =>
    rw [hdp] at h
    refine ⟨c, rfl, ?_⟩
    have hmem : c ∈ (c :: u).take n := by
      cases n with
      | zero => omega
      | succ k => simp [List.take]
    exact List.all_eq_true.mp h.2 c hmem

theorem pyStrip_prefix_parts (sl : Chars) (c : Char) (hc : sl.head? = some c)
    (hcw : isPySpace c = false) :
    pyStrip sl = sl.take (pyStrip sl).length ∧ 1 ≤ (pyStrip sl).length := by
  cases sl with
  | nil => simp at hc
  | cons d u =>
    have hdc : d = c := by simpa using hc
    subst hdc
    have hdw : List.dropWhile isPySpace (d :: u) = d :: u := by
      rw [List.dropWhile_cons, if_neg (by simp [hcw])]
    have hstrip : pyStrip (d :: u) =
        ((d :: u).reverse.dropWhile isPySpace).reverse := by
      unfold pyStrip
      rw [hdw]
    have hpre : pyStrip (d :: u) <+: (d :: u) := by
      rw [hstrip]
      have hsuf : (d :: u).reverse.dropWhile isPySpace <:+ (d :: u).reverse :=
        List.dropWhile_suffix _
      have := List.reverse_prefix.mpr hsuf
      simpa using this
    constructor
    · exact List.prefix_iff_eq_take.mp hpre
    · rw [hstrip]
      simp only [List.length_reverse]
      have hne : (d :: u).reverse.dropWhile isPySpace ≠ [] := by
        intro hnil
        have := List.dropWhile_eq_nil_iff.mp hnil d (by simp)
        rw [this] at hcw
        exact absurd hcw (by simp)
      have := List.length_pos.mpr hne
      omega

theorem strip_slice_eq (t : Chars) (pos len : Nat) (hlen : 1 ≤ len)
    (c : Char) (hc : (t.drop pos).head? = some c)
    (hcw : isPySpace c = false) :
    chStr (pyStrip (pySlice t pos (pos + len))) =
      chStr (pySlice t pos
        (pos + (pyStrip (pySlice t pos (pos + len))).length))
    ∧ pos < pos + (pyStrip (pySlice t pos (pos + len))).length := by
  have hsub : pos + len - pos = len := by omega
  have hslh : (pySlice t pos (pos + len)).head? = some c := by
    unfold pySlice
    rw [hsub]
    cases hdp : t.drop pos with
    | nil => rw [hdp] at hc; simp at hc
    | cons d u =>
      rw [hdp] at hc
      have hdc : d = c := by simpa using hc
      subst hdc
      cases len with
      | zero => omega
      | succ n => simp [List.take]
  obtain ⟨hpre, hposlen⟩ :=
    pyStrip_prefix_parts (pySlice t pos (pos + len)) c hslh hcw
  have hL1 : (pyStrip (pySlice t pos (pos + len))).length ≤
      (pySlice t pos (pos + len)).length := by
    have hl := congrArg List.length hpre
    rw [List.length_take] at hl
    omega
  have hL2 : (pySlice t pos (pos + len)).length ≤ len := by
    unfold pySlice
    rw [hsub]
    exact List.length_take_le _ _
  refine ⟨?_, by omega⟩
  have hsl : pySlice t pos (pos + len) = (t.drop pos).take len := by
    unfold pySlice
    rw [hsub]
  congr 1
  rw [hsl] at hpre hL1 hL2 ⊢
  have hRB : pySlice t pos (pos + (pyStrip ((t.drop pos).take len)).length)
      = (t.drop pos).take (pyStrip ((t.drop pos).take len)).length := by
    unfold pySlice
    congr 1
    omega
  rw [hRB]
  conv_lhs => rw [hpre]
  rw [List.take_take]
  congr 1
  omega

theorem matchArmy_pos (pr : Option Char) (s : Chars) (r : Nat × Unit)
    (h : matchArmy pr s = some r) : 1 ≤ r.1 := by
  unfold matchArmy at h
  split at h
  · have h1 := congrArg Prod.fst (Option.some.inj h)
    simp at h1
    omega
  · simp at h

theorem matchNavy_pos (pr : Option Char) (s : Chars) (r : Nat × Unit)
    (h : matchNavy pr s = some r) : 1 ≤ r.1 := by
  unfold matchNavy at h
  split at h
  · have h1 := congrArg Prod.fst (Option.some.inj h)
    simp at h1
    omega
  · simp at h

theorem matchAirForce_pos (pr : Option Char) (s : Chars) (r : Nat × Unit)
    (h : matchAirForce pr s = some r) : 1 ≤ r.1 := by
  unfold matchAirForce at h
  split at h
  · have h1 := congrArg Prod.fst (Option.some.inj h)
    simp at h1
    omega
  · simp at h

theorem matchGsa_pos (pr : Option Char) (s : Chars) (r : Nat × Unit)
    (h : matchGsa pr s = some r) : 1 ≤ r.1 := by
  unfold matchGsa at h
  split at h
  · have h1 := congrArg Prod.fst (Option.some.inj h)
    simp at h1
    omega
  · simp at h

theorem matchGenericContract_pos (pr : Option Char) (s : Chars)
    (r : Nat × Unit) (h : matchGenericContract pr s = some r) : 1 ≤ r.1 := by
  unfold matchGenericContract at h
  simp only [] at h
  split at h
  · split at h
    · have h1 := congrArg Prod.fst (Option.some.inj h)
      simp at h1
      omega
    · simp at h
  · simp at h

theorem matchTsSci_pos (pr : Option Char) (s : Chars) (r : Nat × Unit)
    (h : matchTsSci pr s = some r) : 1 ≤ r.1 := by
  unfold matchTsSci at h
  split at h
  · have h1 := congrArg Prod.fst (Option.some.inj h)
    simp at h1
    omega
  · simp at h

theorem matchTopSecret_pos (pr : Option Char) (s : Chars) (r : Nat × Unit)
    (h : matchTopSecret pr s = some r) : 1 ≤ r.1 := by
  unfold matchTopSecret at h
  simp only [] at h
  split at h
  · split at h
    · have h1 := congrArg Prod.fst (Option.some.inj h)
      simp at h1
      omega
    · simp at h
  · simp at h

theorem matchSecretLvl_pos (pr : Option Char) (s : Chars) (r : Nat × Unit)
    (h : matchSecretLvl pr s = some r) : 1 ≤ r.1 := by
  unfold matchSecretLvl at h
  simp only [] at h
  split at h
  · split at h
    · simp at h
    · have h1 := congrArg Prod.fst (Option.some.inj h)
      simp at h1
      omega
  · simp at h

theorem matchCui_pos (pr : Option Char) (s : Chars) (r : Nat × Unit)
    (h : matchCui pr s = some r) : 1 ≤ r.1 := by
  unfold matchCui at h
  simp only [] at h
  split at h
  · have h1 := congrArg Prod.fst (Option.some.inj h)
    simp at h1
    omega
  · split at h
    · split at h
      · split at h
        · have h1 := congrArg Prod.fst (Option.some.inj h)
          simp at h1
          omega
        · simp at h
      · simp at h
    · simp at h

theorem matchFouo_pos (pr : Option Char) (s : Chars) (r : Nat × Unit)
    (h : matchFouo pr s = some r) : 1 ≤ r.1 := by
  unfold matchFouo at h
  simp only [] at h
  split at h
  · have h1 := congrArg Prod.fst (Option.some.inj h)
    simp at h1
    omega
  · split at h
    · split at h
      · split at h
        · split at h
          · have h1 := congrArg Prod.fst (Option.some.inj h)
            simp at h1
            omega
          · simp at h
        · simp at h
      · simp at h
    · simp at h

theorem matchUnclassified_pos (pr : Option Char) (s : Chars) (r : Nat × Unit)
    (h : matchUnclassified pr s = some r) : 1 ≤ r.1 := by
  unfold matchUnclassified at h
  split at h
  · have h1 := congrArg Prod.fst (Option.some.inj h)
    simp at h1
    omega
  · simp at h

theorem pscTail_glen (s : Chars) (p : Nat) (r : Nat × G1)
    (h : pscTail s p = some r) : r.2.len = 4 := by
  unfold pscTail pscGroupAt at h
  simp only [] at h
  split at h
  · split at h
    · have h1 := congrArg (fun z => z.2.len) (Option.some.inj h)
      simpa using h1.symm
    · simp at h
  · simp at h

theorem matchPsc_glen (pr : Option Char) (s : Chars) (r : Nat × G1)
    (h : matchPsc pr s = some r) : r.2.len = 4 := by
  unfold matchPsc at h
  simp only [] at h
  split at h
  · rename_i r1 heq1
    obtain rfl := Option.some.inj h
    split at heq1
    · split at heq1
      · rename_i r2 heq2
        obtain rfl := Option.some.inj heq1
        split at heq2
        · exact pscTail_glen s _ _ heq2
        · simp at heq2
      · exact pscTail_glen s 3 _ heq1
    · simp at heq1
  · split at h
    · rename_i r2 heq2
      obtain rfl := Option.some.inj h
      split at heq2
      · split at heq2
        · split at heq2
          · exact pscTail_glen s _ _ heq2
          · simp at heq2
        · simp at heq2
      · simp at heq2
    · split at h
      · split at h
        · exact pscTail_glen s _ r h
        · simp at h
      · simp at h

theorem cageTail_glen (s : Chars) (p : Nat) (r : Nat × G1)
    (h : cageTail s p = some r) : r.2.len = 5 := by
  unfold cageTail at h
  simp only [] at h
  split at h
  · have h1 := congrArg (fun z => z.2.len) (Option.some.inj h)
    simpa using h1.symm
  · simp at h

theorem matchCage_glen (pr : Option Char) (s : Chars) (r : Nat × G1)
    (h : matchCage pr s = some r) : r.2.len = 5 := by
  unfold matchCage at h
  simp only [] at h
  split at h
  · rename_i r1 heq1
    obtain rfl := Option.some.inj h
    split at heq1
    · split at heq1
      · exact cageTail_glen s _ _ heq1
      · simp at heq1
    · simp at heq1
  · split at h
    · split at h
      · exact cageTail_glen s _ r h
      · simp at h
    · simp at h

theorem ueiTail_glen (s : Chars) (p : Nat) (r : Nat × G1)
    (h : ueiTail s p = some r) : r.2.len = 12 := by
  unfold ueiTail at h
  simp only [] at h
  split at h
  · have h1 := congrArg (fun z => z.2.len) (Option.some.inj h)
    simpa using h1.symm
  · simp at h

theorem matchUei_glen (pr : Option Char) (s : Chars) (r : Nat × G1)
    (h : matchUei pr s = some r) : r.2.len = 12 := by
  unfold matchUei at h
  simp only [] at h
  split at h
  · rename_i r1 heq1
    obtain rfl := Option.some.inj h
    split at heq1
    · exact ueiTail_glen s 3 _ heq1
    · simp at heq1
  · split at h
    · split at h
      · split at h
        · split at h
          · rename_i r2 heq2
            obtain rfl := Option.some.inj h
            split at heq2
            · exact ueiTail_glen s _ _ heq2
            · simp at heq2
          · split at h
            · exact ueiTail_glen s _ r h
            · simp at h
        · simp at h
      · simp at h
    · simp at h

theorem matchClin_facts (pr : Option Char) (s : Chars) (r : Nat × Nat × Nat)
    (h : matchClin pr s = some r) :
    r.1 = r.2.1 + r.2.2 ∧ 1 ≤ r.2.1 ∧ 1 ≤ r.2.2 ∧ s ≠ [] := by
  have hne : s ≠ [] := by
    intro hnil
    subst hnil
    unfold matchClin at h
    simp [ciLitAt, ciPrefOf, bdryStart] at h
  unfold matchClin at h
  simp only [] at h
  split at h
  · split at h
    · split at h
      · have h1 := Option.some.inj h
        refine ⟨?_, ?_, ?_, hne⟩ <;>
          · have h2 := congrArg Prod.fst h1
            have h3 := congrArg (fun z => z.2.1) h1
            have h4 := congrArg (fun z => z.2.2) h1
            simp at h2 h3 h4
            omega
      · split at h
        · have h1 := Option.some.inj h
          refine ⟨?_, ?_, ?_, hne⟩ <;>
            · have h2 := congrArg Prod.fst h1
              have h3 := congrArg (fun z => z.2.1) h1
              have h4 := congrArg (fun z => z.2.2) h1
              simp at h2 h3 h4
              omega
        · split at h
          · have h1 := Option.some.inj h
            refine ⟨?_, ?_, ?_, hne⟩ <;>
              · have h2 := congrArg Prod.fst h1
                have h3 := congrArg (fun z => z.2.1) h1
                have h4 := congrArg (fun z => z.2.2) h1
                simp at h2 h3 h4
                omega
          · simp at h
    · simp at h
  · simp at h

theorem monthTry_result {α : Type} (s : Chars) (i : Nat) (k : Nat → Option α) :
    ∀ (l : List (Chars × Nat)) (r : α), monthTry s i k l = some r →
      ∃ mlen, k mlen = some r
  | [], r => by simp [monthTry]
  | (nm, v) :: rest, r => by
    intro h
    unfold monthTry at h
    split at h
    · split at h
      · rename_i r' heq
        cases Option.some.inj h
        exact ⟨nm.length, heq⟩
      · exact monthTry_result s i k rest r h
    · exact monthTry_result s i k rest r h

theorem matchDMY_pos (pr : Option Char) (s : Chars) (r : Nat × DateG)
    (h : matchDMY pr s = some r) : 1 ≤ r.1 := by
  unfold matchDMY at h
  simp only [] at h
  repeat' split at h
  all_goals try simp at h
  all_goals
    (obtain ⟨mlen, hk⟩ := monthTry_result s _ _ monthNames r h
     try simp only [] at hk
     repeat' split at hk
     all_goals
       first
       | (have h1 := congrArg Prod.fst (Option.some.inj hk)
          simp at h1
          omega)
       | simp at hk)

theorem matchMDY_pos (pr : Option Char) (s : Chars) (r : Nat × DateG)
    (h : matchMDY pr s = some r) : 1 ≤ r.1 := by
  unfold matchMDY at h
  split at h
  · obtain ⟨mlen, hk⟩ := monthTry_result s _ _ monthNames r h
    simp only [] at hk
    repeat' split at hk
    all_goals
      first
      | (have h1 := congrArg Prod.fst (Option.some.inj hk)
         simp at h1
         omega)
      | simp at hk
  · simp at h

theorem matchISO_pos (pr : Option Char) (s : Chars) (r : Nat × DateG)
    (h : matchISO pr s = some r) : 1 ≤ r.1 := by
  unfold matchISO at h
  split at h
  · have h1 := congrArg Prod.fst (Option.some.inj h)
    simp at h1
    omega
  · simp at h

theorem matchUS_pos (pr : Option Char) (s : Chars) (r : Nat × DateG)
    (h : matchUS pr s = some r) : 1 ≤ r.1 := by
  unfold matchUS at h
  simp only [] at h
  repeat' split at h
  all_goals
    first
    | (have h1 := congrArg Prod.fst (Option.some.inj h)
       simp at h1
       omega)
    | simp at h

theorem devTry_ge (s : Chars) (e : Nat) : e ≤ devTry s e := by
  unfold devTry
  simp only []
  split <;> omega

theorem altTry_ge (s : Chars) (e : Nat) : e ≤ (altTry s e).1 := by
  unfold altTry
  simp only []
  repeat' split
  all_goals simp
  all_goals omega

theorem matchFar_facts (pr : Option Char) (s : Chars) (r : Nat × ClauseG)
    (h : matchFar pr s = some r) :
    1 ≤ r.1 ∧ s.head? = some '5' := by
  unfold matchFar at h
  simp only [] at h
  split at h
  · rename_i hcond
    simp only [Bool.and_eq_true] at hcond
    have hlit : litAt "52.".data s 0 = true := hcond.1.1.2
    constructor
    · split at h
      · simp at h
      · have h1 := congrArg Prod.fst (Option.some.inj h)
        simp at h1
        have g1 := devTry_ge s (7 + min (runLen isPyDigit s 7) 4)
        have g2 := altTry_ge s (devTry s (7 + min (runLen isPyDigit s 7) 4))
        omega
    · exact litAt_head '5' ['2', '.'] s hlit
  · simp at h

theorem matchDfars_facts (pr : Option Char) (s : Chars) (r : Nat × ClauseG)
    (h : matchDfars pr s = some r) :
    1 ≤ r.1 ∧ s.head? = some '2' := by
  unfold matchDfars at h
  simp only [] at h
  split at h
  · rename_i hcond
    simp only [Bool.and_eq_true] at hcond
    have hlit : litAt "252.".data s 0 = true := hcond.1.1.1.2
    constructor
    · have h1 := congrArg Prod.fst (Option.some.inj h)
      simp at h1
      have g1 := devTry_ge s 12
      have g2 := altTry_ge s (devTry s 12)
      omega
    · exact litAt_head '2' ['5', '2', '.'] s hlit
  · simp at h

theorem multHereTry_ge (s : Chars) (e j : Nat) (r : Nat × Option (Nat × Nat))
    (h : multHereTry s e j = some r) : e ≤ r.1 := by
  unfold multHereTry at h
  simp only [] at h
  split at h
  · rename_i r' heq
    obtain rfl := Option.some.inj h
    split at heq
    · split at heq
      · have h1 := congrArg Prod.fst (Option.some.inj heq)
        simp at h1
        omega
      · split at heq
        · have h1 := congrArg Prod.fst (Option.some.inj heq)
          simp at h1
          omega
        · simp at heq
    · simp at heq
  · split at h
    · have h1 := congrArg Prod.fst (Option.some.inj h)
      simp at h1
      omega
    · simp at h

theorem multTailTry_ge (s : Chars) (e : Nat) :
    ∀ (j : Nat) (r : Nat × Option (Nat × Nat)),
      multTailTry s e j = some r → e ≤ r.1
  | 0, r => fun h => multHereTry_ge s e 0 r (by simpa [multTailTry] using h)
  | j + 1, r => by
    intro h
    unfold multTailTry at h
    split at h
    · rename_i r' heq
      obtain rfl := Option.some.inj h
      exact multHereTry_ge s e (j + 1) _ heq
    · exact multTailTry_ge s e j r h

theorem dollarG1Try_ge (s : Chars) (q rr : Nat) :
    ∀ (fuel : Nat) (res : Nat × DollarG),
      dollarG1Try s q rr fuel = some res → q < res.1
  | 0, res => by simp [dollarG1Try]
  | gl + 1, res => by
    intro h
    unfold dollarG1Try at h
    simp only [] at h
    split at h
    · rename_i r' heq
      obtain rfl := Option.some.inj h
      split at heq
      · split at heq
        · split at heq
          · rename_i fin mult hmt
            have h1 := congrArg Prod.fst (Option.some.inj heq)
            simp at h1
            have hge := multTailTry_ge s _ _ _ hmt
            omega
          · simp at heq
        · simp at heq
      · simp at heq
    · split at h
      · rename_i fin mult hmt
        have h1 := congrArg Prod.fst (Option.some.inj h)
        simp at h1
        have hge := multTailTry_ge s _ _ _ hmt
        omega
      · exact dollarG1Try_ge s q rr gl res h

theorem matchDollar_facts (pr : Option Char) (s : Chars) (r : Nat × DollarG)
    (h : matchDollar pr s = some r) :
    1 ≤ r.1 ∧ ∃ c, s.head? = some c ∧ isPySpace c = false := by
  unfold matchDollar at h
  simp only [] at h
  split at h
  · rename_i hdol
    obtain ⟨c, hc, hcp⟩ := charTest_head s _ hdol
    have hceq : c = '$' := by simpa using hcp
    split at h
    · simp at h
    · have hge := dollarG1Try_ge s _ _ _ r h
      refine ⟨by omega, c, hc, ?_⟩
      rw [hceq]
      decide
  · split at h
    · rename_i hlit
      have hhd := litAt_head 'U' ['S', 'D'] s hlit
      split at h
      · simp at h
      · split at h
        · simp at h
        · have hge := dollarG1Try_ge s _ _ _ r h
          exact ⟨by omega, 'U', hhd, by decide⟩
    · simp at h

theorem fragA_lt (s : Chars) (i e : Nat) (he : e ∈ fragA s i) : i < e := by
  unfold fragA at he
  simp only [] at he
  repeat' split at he
  all_goals try simp at he
  all_goals
    (obtain ⟨nm, hnm, -, -, hf⟩ := he
     omega)

theorem fragB_lt (s : Chars) (i e : Nat) (he : e ∈ fragB s i) : i < e := by
  unfold fragB at he
  rcases List.mem_filterMap.mp he with ⟨nm, hnm, hf⟩
  simp only [] at hf
  repeat' split at hf
  all_goals
    first
    | (have h1 := Option.some.inj hf
       omega)
    | simp at hf

theorem fragC_lt (s : Chars) (i e : Nat) (he : e ∈ fragC s i) : i < e := by
  unfold fragC at he
  split at he
  · have : e = i + 10 := by simpa using he
    omega
  · simp at he

theorem fragD_lt (s : Chars) (i e : Nat) (he : e ∈ fragD s i) : i < e := by
  unfold fragD at he
  simp only [] at he
  repeat' split at he
  all_goals try simp at he
  all_goals omega

theorem dateFragEnds_lt (s : Chars) (i e : Nat)
    (he : e ∈ dateFragEnds s i) : i < e := by
  unfold dateFragEnds at he
  rcases List.mem_append.mp he with h123 | hD
  · rcases List.mem_append.mp h123 with h12 | hC
    · rcases List.mem_append.mp h12 with hA | hB
      · exact fragA_lt s i e hA
      · exact fragB_lt s i e hB
    · exact fragC_lt s i e hC
  · exact fragD_lt s i e hD

theorem popMonths_heads : ∀ nm ∈ popMonths, nm ≠ [] ∧
    isPySpace (pyToLower (nm.headD ' ')) = false := by decide

theorem fragA_head (s : Chars) (i e : Nat) (he : e ∈ fragA s i) :
    ∃ c, (s.drop i).head? = some c ∧ isPySpace c = false := by
  unfold fragA at he
  simp only [] at he
  split at he
  · rename_i h2
    obtain ⟨c, hc, hd⟩ := isDigitsN_at_head s i 2 (by omega) h2
    exact ⟨c, hc, isPyDigit_nonspace c hd⟩
  · split at he
    · rename_i h1
      obtain ⟨c, hc, hd⟩ := isDigitsN_at_head s i 1 (by omega) h1
      exact ⟨c, hc, isPyDigit_nonspace c hd⟩
    · simp at he

theorem fragB_head (s : Chars) (i e : Nat) (he : e ∈ fragB s i) :
    ∃ c, (s.drop i).head? = some c ∧ isPySpace c = false := by
  unfold fragB at he
  rcases List.mem_filterMap.mp he with ⟨nm, hnm, hf⟩
  obtain ⟨hne, hsp⟩ := popMonths_heads nm hnm
  cases nm with
  | nil => exact absurd rfl hne
  | cons h0 tl =>
    simp only [] at hf
    split at hf
    · rename_i hci
      obtain ⟨d, hd, hcieq⟩ := ciLitAt_at_head h0 tl s i hci
      exact ⟨d, hd, ciEq_imp_nonspace h0 d (by simpa using hsp) hcieq⟩
    · simp at hf

theorem fragC_head (s : Chars) (i e : Nat) (he : e ∈ fragC s i) :
    ∃ c, (s.drop i).head? = some c ∧ isPySpace c = false := by
  unfold fragC at he
  split at he
  · rename_i hcond
    simp only [Bool.and_eq_true] at hcond
    obtain ⟨c, hc, hd⟩ := isDigitsN_at_head s i 4 (by omega) hcond.1.1.1.1
    exact ⟨c, hc, isPyDigit_nonspace c hd⟩
  · simp at he

theorem fragD_head (s : Chars) (i e : Nat) (he : e ∈ fragD s i) :
    ∃ c, (s.drop i).head? = some c ∧ isPySpace c = false := by
  unfold fragD at he
  simp only [] at he
  split at he
  · rename_i hc2
    simp only [Bool.and_eq_true] at hc2
    obtain ⟨c, hc, hd⟩ := isDigitsN_at_head s i 2 (by omega) hc2.1
    exact ⟨c, hc, isPyDigit_nonspace c hd⟩
  · split at he
    · rename_i hc1
      simp only [Bool.and_eq_true] at hc1
      obtain ⟨c, hc, hd⟩ := isDigitsN_at_head s i 1 (by omega) hc1.1
      exact ⟨c, hc, isPyDigit_nonspace c hd⟩
    · simp at he

theorem dateFragEnds_head (s : Chars) (i e : Nat)
    (he : e ∈ dateFragEnds s i) :
    ∃ c, (s.drop i).head? = some c ∧ isPySpace c = false := by
  unfold dateFragEnds at he
  rcases List.mem_append.mp he with h123 | hD
  · rcases List.mem_append.mp h123 with h12 | hC
    · rcases List.mem_append.mp h12 with hA | hB
      · exact fragA_head s i e hA
      · exact fragB_head s i e hB
    · exact fragC_head s i e hC
  · exact fragD_head s i e hD

theorem popSepThenFrag_pos (s : Chars) (e1 : Nat) (f2 : Nat × Nat)
    (h : popSepThenFrag s e1 = some f2) : 1 ≤ f2.2 := by
  unfold popSepThenFrag at h
  simp only [] at h
  split at h
  · simp at h
  · obtain ⟨sep, hsep, hf⟩ := List.exists_of_findSome?_eq_some h
    try simp only [] at hf
    repeat' split at hf
    all_goals try simp at hf
    all_goals
      (obtain ⟨e2, he2, hsome⟩ := List.exists_of_findSome?_eq_some hf
       have hlt := dateFragEnds_lt _ _ _ he2
       have h1 := congrArg Prod.snd (Option.some.inj hsome)
       simp at h1
       omega)

theorem popCont_pos (s : Chars) (k : Nat) (r : Nat × (G1 × G1))
    (h : popCont s k = some r) : 1 ≤ r.1 := by
  unfold popCont at h
  obtain ⟨e1, he1, hf⟩ := List.exists_of_findSome?_eq_some h
  try simp only [] at hf
  cases hps : popSepThenFrag s e1 with
  | none => rw [hps] at hf; simp at hf
  | some f2 =>
    rw [hps] at hf
    simp only [Option.map_some'] at hf
    have h1 := congrArg Prod.fst (Option.some.inj hf)
    simp at h1
    have := popSepThenFrag_pos s e1 f2 hps
    omega

theorem popCont_head (s : Chars) (r : Nat × (G1 × G1))
    (h : popCont s 0 = some r) :
    ∃ c, s.head? = some c ∧ isPySpace c = false := by
  unfold popCont at h
  obtain ⟨e1, he1, -⟩ := List.exists_of_findSome?_eq_some h
  obtain ⟨c, hc, hns⟩ := dateFragEnds_head s 0 e1 he1
  simp only [List.drop_zero] at hc
  exact ⟨c, hc, hns⟩

theorem matchPopFrom_facts (pr : Option Char) (s : Chars)
    (r : Nat × (G1 × G1)) (h : matchPopFrom pr s = some r) :
    1 ≤ r.1 ∧ ∃ c, s.head? = some c ∧ isPySpace c = false := by
  unfold matchPopFrom at h
  simp only [] at h
  split at h
  · rename_i hcond
    simp only [Bool.and_eq_true] at hcond
    obtain ⟨d, hd, hci⟩ := ciLitAt_at_head 'f' ['r', 'o', 'm'] s 0 hcond.2
    simp only [List.drop_zero] at hd
    have hdns : isPySpace d = false := ciEq_imp_nonspace 'f' d (by decide) hci
    refine ⟨?_, d, hd, hdns⟩
    split at h
    · simp at h
    · obtain ⟨e1, he1, hf⟩ := List.exists_of_findSome?_eq_some h
      try simp only [] at hf
      repeat' split at hf
      all_goals try simp at hf
      all_goals
        (obtain ⟨e2, he2, hsome⟩ := List.exists_of_findSome?_eq_some hf
         have hlt := dateFragEnds_lt _ _ _ he2
         have h1 := congrArg Prod.fst (Option.some.inj hsome)
         simp at h1
         omega)
  · simp at h

theorem matchPop_facts (pr : Option Char) (s : Chars)
    (r : Nat × (G1 × G1)) (h : matchPop pr s = some r) :
    1 ≤ r.1 ∧ ∃ c, s.head? = some c ∧ isPySpace c = false := by
  unfold matchPop at h
  simp only [] at h
  split at h
  · rename_i pe heqpe
    have hhead : ∃ c, s.head? = some c ∧ isPySpace c = false := by
      split at heqpe
      · rename_i hper
        obtain ⟨d, hd, hci⟩ :=
          ciLitAt_at_head 'p' ['e', 'r', 'i', 'o', 'd'] s 0 hper
        simp only [List.drop_zero] at hd
        exact ⟨d, hd, ciEq_imp_nonspace 'p' d (by decide) hci⟩
      · split at heqpe
        · rename_i hpop
          obtain ⟨d, hd, hci⟩ := ciLitAt_at_head 'P' ['O', 'P'] s 0 hpop
          simp only [List.drop_zero] at hd
          exact ⟨d, hd, ciEq_imp_nonspace 'P' d (by decide) hci⟩
        · simp at heqpe
    refine ⟨?_, hhead⟩
    split at h
    · rename_i r' heq'
      obtain rfl := Option.some.inj h
      exact popCont_pos s pe _ heq'
    · exact popCont_pos s 0 r h
  · exact ⟨popCont_pos s 0 r h, popCont_head s r h⟩

theorem pyStrip_eq_self_of (sl : Chars) (c0 : Char) (h0 : sl.head? = some c0)
    (h0w : isPySpace c0 = false) (cL : Char) (hL : sl.getLast? = some cL)
    (hLw : isPySpace cL = false) : pyStrip sl = sl := by
  unfold pyStrip
  have h1 : sl.dropWhile isPySpace = sl := by
    cases sl with
    | nil => rfl
    | cons d u =>
      have hdc : d = c0 := by simpa using h0
      subst hdc
      rw [List.dropWhile_cons, if_neg (by simp [h0w])]
  rw [h1]
  have h2 : sl.reverse.dropWhile isPySpace = sl.reverse := by
    have hrh : sl.reverse.head? = some cL := by
      rw [List.head?_reverse]
      exact hL
    cases hrev : sl.reverse with
    | nil => rfl
    | cons d u =>
      rw [hrev] at hrh
      have hdc : d = cL := by simpa using hrh
      subst hdc
      rw [List.dropWhile_cons, if_neg (by simp [hLw])]
  rw [h2, List.reverse_reverse]

theorem isDigitsN_last (s : Chars) (p n : Nat) (hn : 1 ≤ n)
    (h : isDigitsN s p n = true) :
    ∃ c, (s.drop (p + n - 1)).head? = some c ∧ isPyDigit c = true := by
  have hdd : s.drop (p + n - 1) = (s.drop p).drop (n - 1) := by
    rw [List.drop_drop]
    congr 1
    omega
  rw [hdd]
  unfold isDigitsN classRun at h
  simp only [Bool.and_eq_true] at h
  have hlen : n ≤ (s.drop p).length := by
    have h1 := h.1
    simp only [List.length_take, decide_eq_true_eq] at h1
    omega
  cases hd : (s.drop p).drop (n - 1) with
  | nil =>
    exfalso
    have h0 : (s.drop p).length - (n - 1) = 0 := by
      have h00 := congrArg List.length hd
      rwa [List.length_drop, List.length_nil] at h00
    omega
  | cons c u =>
    refine ⟨c, rfl, ?_⟩
    have hc : ((s.drop p).drop (n - 1)).head? = some c := by rw [hd]; rfl
    rw [List.head?_drop] at hc
    have hc2 : ((s.drop p).take n)[n - 1]? = some c := by
      rw [List.getElem?_take_of_lt (by omega)]
      exact hc
    have hmem : c ∈ (s.drop p).take n := List.getElem?_mem hc2
    exact List.all_eq_true.mp h.2 c hmem

theorem take_getLast_of_head (l : Chars) (n : Nat) (hn : 1 ≤ n) (c : Char)
    (hc : (l.drop (n - 1)).head? = some c) :
    (l.take n).getLast? = some c := by
  obtain ⟨u, hu⟩ : ∃ u, l.drop (n - 1) = c :: u := by
    cases hd : l.drop (n - 1) with
    | nil => rw [hd] at hc; simp at hc
    | cons d v =>
      rw [hd] at hc
      have : d = c := by simpa using hc
      subst this
      exact ⟨v, rfl⟩
  have h1 : l.take n = l.take (n - 1) ++ [c] := by
    rw [show n = (n - 1) + 1 from by omega, List.take_add, hu]
    rfl
  rw [h1, List.getLast?_concat]

theorem fragA_end (s : Chars) (i e : Nat) (he : e ∈ fragA s i) :
    ∃ c, (s.drop (e - 1)).head? = some c ∧ isPyDigit c = true := by
  unfold fragA at he
  simp only [] at he
  repeat' split at he
  all_goals try simp at he
  all_goals
    (obtain ⟨nm, hnm, -, ⟨-, hdig⟩, heq⟩ := he
     subst heq
     exact isDigitsN_last s _ 4 (by omega) hdig)

theorem fragB_end (s : Chars) (i e : Nat) (he : e ∈ fragB s i) :
    ∃ c, (s.drop (e - 1)).head? = some c ∧ isPyDigit c = true := by
  unfold fragB at he
  rcases List.mem_filterMap.mp he with ⟨nm, hnm, hf⟩
  try simp only [] at hf
  repeat' split at hf
  all_goals
    first
    | (rename_i hcond
       simp only [Bool.and_eq_true, decide_eq_true_eq] at hcond
       have h1 := Option.some.inj hf
       subst h1
       exact isDigitsN_last s _ 4 (by omega) hcond.2)
    | simp at hf

theorem fragC_end (s : Chars) (i e : Nat) (he : e ∈ fragC s i) :
    ∃ c, (s.drop (e - 1)).head? = some c ∧ isPyDigit c = true := by
  unfold fragC at he
  split at he
  · rename_i hcond
    simp only [Bool.and_eq_true] at hcond
    have he10 : e = i + 10 := by simpa using he
    subst he10
    obtain ⟨c, hc, hd⟩ := isDigitsN_last s (i + 8) 2 (by omega) hcond.2
    refine ⟨c, ?_, hd⟩
    rw [show i + 10 - 1 = i + 8 + 2 - 1 from by omega]
    exact hc
  · simp at he

theorem fragD_end (s : Chars) (i e : Nat) (he : e ∈ fragD s i) :
    ∃ c, (s.drop (e - 1)).head? = some c ∧ isPyDigit c = true := by
  unfold fragD at he
  simp only [] at he
  repeat' split at he
  all_goals try simp at he
  all_goals
    (rename_i hdig
     subst he
     exact isDigitsN_last s _ 4 (by omega) hdig)

theorem dateFragEnds_end (s : Chars) (i e : Nat)
    (he : e ∈ dateFragEnds s i) :
    ∃ c, (s.drop (e - 1)).head? = some c ∧ isPyDigit c = true := by
  unfold dateFragEnds at he
  rcases List.mem_append.mp he with h123 | hD
  · rcases List.mem_append.mp h123 with h12 | hC
    · rcases List.mem_append.mp h12 with hA | hB
      · exact fragA_end s i e hA
      · exact fragB_end s i e hB
    · exact fragC_end s i e hC
  · exact fragD_end s i e hD

theorem popSepThenFrag_end (s : Chars) (e1 : Nat) (f2 : Nat × Nat)
    (h : popSepThenFrag s e1 = some f2) :
    ∃ c, (s.drop (f2.2 - 1)).head? = some c ∧ isPyDigit c = true := by
  unfold popSepThenFrag at h
  simp only [] at h
  split at h
  · simp at h
  · obtain ⟨sep, hsep, hf⟩ := List.exists_of_findSome?_eq_some h
    try simp only [] at hf
    repeat' split at hf
    all_goals try simp at hf
    all_goals
      (obtain ⟨e2, he2, hsome⟩ := List.exists_of_findSome?_eq_some hf
       obtain ⟨c, hc, hd⟩ := dateFragEnds_end _ _ _ he2
       have h1 := congrArg Prod.snd (Option.some.inj hsome)
       simp at h1
       rw [← h1]
       exact ⟨c, hc, hd⟩)

theorem popCont_end (s : Chars) (k : Nat) (r : Nat × (G1 × G1))
    (h : popCont s k = some r) :
    ∃ c, (s.drop (r.1 - 1)).head? = some c ∧ isPyDigit c = true := by
  unfold popCont at h
  obtain ⟨e1, he1, hf⟩ := List.exists_of_findSome?_eq_some h
  try simp only [] at hf
  cases hps : popSepThenFrag s e1 with
  | none => rw [hps] at hf; simp at hf
  | some f2 =>
    rw [hps] at hf
    simp only [Option.map_some'] at hf
    have h1 := congrArg Prod.fst (Option.some.inj hf)
    simp at h1
    obtain ⟨c, hc, hd⟩ := popSepThenFrag_end s e1 f2 hps
    rw [h1] at hc
    exact ⟨c, hc, hd⟩

theorem matchPop_end (pr : Option Char) (s : Chars) (r : Nat × (G1 × G1))
    (h : matchPop pr s = some r) :
    ∃ c, (s.drop (r.1 - 1)).head? = some c ∧ isPyDigit c = true := by
  unfold matchPop at h
  simp only [] at h
  split at h
  · split at h
    · rename_i r' heq'
      obtain rfl := Option.some.inj h
      exact popCont_end s _ _ heq'
    · exact popCont_end s 0 r h
  · exact popCont_end s 0 r h

theorem matchPopFrom_end (pr : Option Char) (s : Chars) (r : Nat × (G1 × G1))
    (h : matchPopFrom pr s = some r) :
    ∃ c, (s.drop (r.1 - 1)).head? = some c ∧ isPyDigit c = true := by
  unfold matchPopFrom at h
  simp only [] at h
  split at h
  · split at h
    · simp at h
    · obtain ⟨e1, he1, hf⟩ := List.exists_of_findSome?_eq_some h
      try simp only [] at hf
      repeat' split at hf
      all_goals try simp at hf
      all_goals
        (obtain ⟨e2, he2, hsome⟩ := List.exists_of_findSome?_eq_some hf
         obtain ⟨c, hc, hd⟩ := dateFragEnds_end _ _ _ he2
         have h1 := congrArg Prod.fst (Option.some.inj hsome)
         simp at h1
         rw [← h1]
         exact ⟨c, hc, hd⟩)
  · simp at h

theorem dateScan_out_value (t : Chars)
    (getYMD : Nat → DateG → Nat × Nat × Nat) (cs : Bool) :
    ∀ (ms : List (Nat × Nat × DateG)) (seen : List (Nat × Nat))
      (a : EntityAnn), a ∈ (dateScan t getYMD cs ms seen).1 →
      a.entity_value = chStr (pySlice t a.start_char a.end_char)
  | [], seen, a, ha => by simp [dateScan] at ha
  | (pos, len, g) :: rest, seen, a, ha => by
    unfold dateScan at ha
    simp only [] at ha
    by_cases hv : validate_date (getYMD pos g).1 (getYMD pos g).2.1
        (getYMD pos g).2.2 = true
    · rw [if_pos hv] at ha
      by_cases hs : (cs && List.any seen fun sp => sp.1 ≤ pos && pos < sp.2)
          = true
      · rw [if_pos hs] at ha
        exact dateScan_out_value t getYMD cs rest seen a ha
      · rw [if_neg hs] at ha
        rcases List.mem_cons.mp ha with hea | ha2
        · rw [hea]
        · exact dateScan_out_value t getYMD cs rest _ a ha2
    · rw [if_neg hv] at ha
      exact dateScan_out_value t getYMD cs rest seen a ha

theorem contractScan_out (t : Chars) (ag : String) :
    ∀ (ms : List (Nat × Nat × Unit)) (seen : List (Nat × Nat))
      (a : EntityAnn), a ∈ (contractScan t ag ms seen).1 →
      ∃ x ∈ ms, a.start_char = x.1 ∧ a.end_char = x.1 + x.2.1 ∧
        a.entity_value = chStr (pySlice t x.1 (x.1 + x.2.1))
  | [], seen, a, ha => by simp [contractScan] at ha
  | (pos, len, u) :: rest, seen, a, ha => by
    unfold contractScan at ha
    simp only [] at ha
    split at ha
    · rcases contractScan_out t ag rest seen a ha with ⟨x, hx, hh⟩
      exact ⟨x, List.mem_cons_of_mem _ hx, hh⟩
    · split at ha
      · rcases contractScan_out t ag rest seen a ha with ⟨x, hx, hh⟩
        exact ⟨x, List.mem_cons_of_mem _ hx, hh⟩
      · rcases List.mem_cons.mp ha with hea | ha2
        · exact ⟨(pos, len, u), List.mem_cons_self _ _, by rw [hea],
            by rw [hea], by rw [hea]⟩
        · rcases contractScan_out t ag rest _ a ha2 with ⟨x, hx, hh⟩
          exact ⟨x, List.mem_cons_of_mem _ hx, hh⟩

theorem contractPatsLoop_out (t : Chars) :
    ∀ (ps : List (String × Matcher Unit)) (seen : List (Nat × Nat))
      (a : EntityAnn), a ∈ contractPatsLoop t ps seen →
      ∃ p ∈ ps, ∃ x ∈ finditer p.2 t, a.start_char = x.1 ∧
        a.end_char = x.1 + x.2.1 ∧
        a.entity_value = chStr (pySlice t x.1 (x.1 + x.2.1))
  | [], seen, a, ha => by simp [contractPatsLoop] at ha
  | (ag, m) :: ps, seen, a, ha => by
    unfold contractPatsLoop at ha
    simp only [] at ha
    rcases List.mem_append.mp ha with h1 | h2
    · rcases contractScan_out t ag _ _ a h1 with ⟨x, hx, hh⟩
      exact ⟨(ag, m), List.mem_cons_self _ _, x, hx, hh⟩
    · rcases contractPatsLoop_out t ps _ a h2 with ⟨p, hp, hrest⟩
      exact ⟨p, List.mem_cons_of_mem _ hp, hrest⟩

theorem securityScan_out (t : Chars) (lv : String) :
    ∀ (ms : List (Nat × Nat × Unit)) (seen : List (Nat × Nat))
      (a : EntityAnn), a ∈ (securityScan t lv ms seen).1 →
      a.entity_value = lv ∧
      ∃ x ∈ ms, a.start_char = x.1 ∧ a.end_char = x.1 + x.2.1 ∧
        a.metadata =
          [("raw_text", MetaVal.str (chStr (pySlice t x.1 (x.1 + x.2.1))))]
  | [], seen, a, ha => by simp [securityScan] at ha
  | (pos, len, u) :: rest, seen, a, ha => by
    unfold securityScan at ha
    simp only [] at ha
    split at ha
    · rcases securityScan_out t lv rest seen a ha with ⟨hv, x, hx, hh⟩
      exact ⟨hv, x, List.mem_cons_of_mem _ hx, hh⟩
    · rcases List.mem_cons.mp ha with hea | ha2
      · exact ⟨by rw [hea], (pos, len, u), List.mem_cons_self _ _,
          by rw [hea], by rw [hea], by rw [hea]⟩
      · rcases securityScan_out t lv rest _ a ha2 with ⟨hv, x, hx, hh⟩
        exact ⟨hv, x, List.mem_cons_of_mem _ hx, hh⟩

theorem securityPatsLoop_out (t : Chars) :
    ∀ (ps : List (String × Matcher Unit)) (seen : List (Nat × Nat))
      (a : EntityAnn), a ∈ securityPatsLoop t ps seen →
      ∃ p ∈ ps, a.entity_value = p.1 ∧
      ∃ x ∈ finditer p.2 t, a.start_char = x.1 ∧ a.end_char = x.1 + x.2.1 ∧
        a.metadata =
          [("raw_text", MetaVal.str (chStr (pySlice t x.1 (x.1 + x.2.1))))]
  | [], seen, a, ha => by simp [securityPatsLoop] at ha
  | (lv, m) :: ps, seen, a, ha => by
    unfold securityPatsLoop at ha
    simp only [] at ha
    rcases List.mem_append.mp ha with h1 | h2
    · rcases securityScan_out t lv _ _ a h1 with ⟨hv, x, hx, hh⟩
      exact ⟨(lv, m), List.mem_cons_self _ _, hv, x, hx, hh⟩
    · rcases securityPatsLoop_out t ps _ a h2 with ⟨p, hp, hrest⟩
      exact ⟨p, List.mem_cons_of_mem _ hp, hrest⟩

theorem popTake_out (t : Chars) :
    ∀ (cands : List PopCand) (taken : List (Nat × Nat)) (a : EntityAnn),
      a ∈ popTake t cands taken →
      ∃ c ∈ cands, a.start_char = c.1 ∧ a.end_char = c.2.1 ∧
        a.entity_value = chStr (pyStrip (pySlice t c.1 c.2.1))
  | [], taken, a, ha => by simp [popTake] at ha
  | c :: rest, taken, a, ha => by
    unfold popTake at ha
    split at ha
    · rcases popTake_out t rest taken a ha with ⟨c', hc', hh⟩
      exact ⟨c', List.mem_cons_of_mem _ hc', hh⟩
    · rcases List.mem_cons.mp ha with hea | ha2
      · exact ⟨c, List.mem_cons_self _ _, by rw [hea], by rw [hea],
          by rw [hea]⟩
      · rcases popTake_out t rest _ a ha2 with ⟨c', hc', hh⟩
        exact ⟨c', List.mem_cons_of_mem _ hc', hh⟩

theorem pySlice_split (t : Chars) (pos k l : Nat) :
    pySlice t pos (pos + (k + l)) =
      pySlice t pos (pos + k) ++ pySlice t (pos + k) (pos + k + l) := by
  unfold pySlice
  rw [show pos + (k + l) - pos = k + l from by omega,
    show pos + k - pos = k from by omega,
    show pos + k + l - (pos + k) = l from by omega]
  rw [List.take_add]
  have hdd : (t.drop pos).drop k = t.drop (pos + k) := by
    rw [List.drop_drop]
    try congr 1
    try omega
  rw [hdd]

theorem far_ann_ok (t : Chars) (a : EntityAnn)
    (ha : a ∈ extract_far_clauses t) :
    a.start_char < a.end_char ∧
      a.entity_value = chStr (pySlice t a.start_char a.end_char) := by
  unfold extract_far_clauses at ha
  rcases List.mem_map.mp ha with ⟨m, hm, heq⟩
  obtain ⟨pr, hpr⟩ := finditer_sound matchFar t m hm
  obtain ⟨hlen, hhd⟩ := matchFar_facts pr _ _ hpr
  have hlen' : 1 ≤ m.2.1 := hlen
  obtain ⟨hval, hlt⟩ := strip_slice_eq t m.1 m.2.1 hlen' '5' hhd (by decide)
  subst heq
  exact ⟨hlt, hval⟩

theorem dfars_ann_ok (t : Chars) (a : EntityAnn)
    (ha : a ∈ extract_dfars_clauses t) :
    a.start_char < a.end_char ∧
      a.entity_value = chStr (pySlice t a.start_char a.end_char) := by
  unfold extract_dfars_clauses at ha
  rcases List.mem_map.mp ha with ⟨m, hm, heq⟩
  obtain ⟨pr, hpr⟩ := finditer_sound matchDfars t m hm
  obtain ⟨hlen, hhd⟩ := matchDfars_facts pr _ _ hpr
  have hlen' : 1 ≤ m.2.1 := hlen
  obtain ⟨hval, hlt⟩ := strip_slice_eq t m.1 m.2.1 hlen' '2' hhd (by decide)
  subst heq
  exact ⟨hlt, hval⟩

theorem dollar_ann_ok (t : Chars) (a : EntityAnn)
    (ha : a ∈ extract_dollar_amounts t) :
    a.start_char < a.end_char ∧
      a.entity_value = chStr (pySlice t a.start_char a.end_char) := by
  unfold extract_dollar_amounts at ha
  rcases List.mem_map.mp ha with ⟨m, hm, heq⟩
  obtain ⟨pr, hpr⟩ := finditer_sound matchDollar t m hm
  obtain ⟨hlen, c, hc, hcn⟩ := matchDollar_facts pr _ _ hpr
  have hlen' : 1 ≤ m.2.1 := hlen
  obtain ⟨hval, hlt⟩ := strip_slice_eq t m.1 m.2.1 hlen' c hc hcn
  subst heq
  exact ⟨hlt, hval⟩

theorem contract_ann_ok (t : Chars) (a : EntityAnn)
    (ha : a ∈ extract_contract_numbers t) :
    a.start_char < a.end_char ∧
      a.entity_value = chStr (pySlice t a.start_char a.end_char) := by
  unfold extract_contract_numbers at ha
  rcases contractPatsLoop_out t _ _ a ha with ⟨p, hp, x, hx, hs, he, hv⟩
  have hpos : 1 ≤ x.2.1 := by
    simp only [List.mem_cons, List.not_mem_nil, or_false] at hp
    rcases hp with rfl | rfl | rfl | rfl | rfl
    · obtain ⟨pr, hpr⟩ := finditer_sound matchArmy t x hx
      exact matchArmy_pos pr _ _ hpr
    · obtain ⟨pr, hpr⟩ := finditer_sound matchNavy t x hx
      exact matchNavy_pos pr _ _ hpr
    · obtain ⟨pr, hpr⟩ := finditer_sound matchAirForce t x hx
      exact matchAirForce_pos pr _ _ hpr
    · obtain ⟨pr, hpr⟩ := finditer_sound matchGsa t x hx
      exact matchGsa_pos pr _ _ hpr
    · obtain ⟨pr, hpr⟩ := finditer_sound matchGenericContract t x hx
      exact matchGenericContract_pos pr _ _ hpr
  constructor
  · rw [hs, he]
    omega
  · rw [hv, hs, he]

theorem naics_ann_ok (t : Chars) (a : EntityAnn)
    (ha : a ∈ extract_naics_codes t) :
    a.start_char < a.end_char ∧
      a.entity_value = chStr (pySlice t a.start_char a.end_char) := by
  unfold extract_naics_codes at ha
  try simp only [] at ha
  rcases List.mem_filterMap.mp ha with ⟨m, hm, hf⟩
  try simp only [] at hf
  repeat' split at hf
  all_goals try simp at hf
  all_goals
    (have hs := congrArg EntityAnn.start_char hf
     have he := congrArg EntityAnn.end_char hf
     have hv := congrArg EntityAnn.entity_value hf
     simp only [] at hs he hv
     refine ⟨by omega, ?_⟩
     rw [← hv, ← hs, ← he])

theorem psc_ann_ok (t : Chars) (a : EntityAnn)
    (ha : a ∈ extract_psc_codes t) :
    a.start_char < a.end_char ∧
      a.entity_value = chStr (pySlice t a.start_char a.end_char) := by
  unfold extract_psc_codes at ha
  rcases List.mem_map.mp ha with ⟨m, hm, heq⟩
  obtain ⟨pr, hpr⟩ := finditer_sound matchPsc t m hm
  have hg : m.2.2.len = 4 := matchPsc_glen pr _ _ hpr
  subst heq
  refine ⟨?_, rfl⟩
  show m.1 + m.2.2.off < m.1 + m.2.2.off + m.2.2.len
  omega

theorem cage_ann_ok (t : Chars) (a : EntityAnn)
    (ha : a ∈ extract_cage_codes t) :
    a.start_char < a.end_char ∧
      a.entity_value = chStr (pySlice t a.start_char a.end_char) := by
  unfold extract_cage_codes at ha
  rcases List.mem_map.mp ha with ⟨m, hm, heq⟩
  obtain ⟨pr, hpr⟩ := finditer_sound matchCage t m hm
  have hg : m.2.2.len = 5 := matchCage_glen pr _ _ hpr
  subst heq
  refine ⟨?_, rfl⟩
  show m.1 + m.2.2.off < m.1 + m.2.2.off + m.2.2.len
  omega

theorem uei_ann_ok (t : Chars) (a : EntityAnn)
    (ha : a ∈ extract_uei_numbers t) :
    a.start_char < a.end_char ∧
      a.entity_value = chStr (pySlice t a.start_char a.end_char) := by
  unfold extract_uei_numbers at ha
  rcases List.mem_map.mp ha with ⟨m, hm, heq⟩
  obtain ⟨pr, hpr⟩ := finditer_sound matchUei t m hm
  have hg : m.2.2.len = 12 := matchUei_glen pr _ _ hpr
  subst heq
  refine ⟨?_, rfl⟩
  show m.1 + m.2.2.off < m.1 + m.2.2.off + m.2.2.len
  omega

theorem dates_ann_ok (t : Chars) (a : EntityAnn) (ha : a ∈ extract_dates t) :
    a.start_char < a.end_char ∧
      a.entity_value = chStr (pySlice t a.start_char a.end_char) := by
  rw [extract_dates_eq] at ha
  unfold datePass1 datePass2 datePass3 datePass4 at ha
  simp only [List.mem_append] at ha
  rcases ha with ((h | h) | h) | h
  · refine ⟨?_, dateScan_out_value t (dmyYMD t) false _ _ a h⟩
    rcases dateScan_out_from_ms t (dmyYMD t) false _ _ a h with ⟨x, hx, hs, he⟩
    obtain ⟨pr, hpr⟩ := finditer_sound matchDMY t x hx
    have hp : 1 ≤ x.2.1 := matchDMY_pos pr _ _ hpr
    rw [hs, he]
    omega
  · refine ⟨?_, dateScan_out_value t (mdyYMD t) true _ _ a h⟩
    rcases dateScan_out_from_ms t (mdyYMD t) true _ _ a h with ⟨x, hx, hs, he⟩
    obtain ⟨pr, hpr⟩ := finditer_sound matchMDY t x hx
    have hp : 1 ≤ x.2.1 := matchMDY_pos pr _ _ hpr
    rw [hs, he]
    omega
  · refine ⟨?_, dateScan_out_value t (isoYMD t) true _ _ a h⟩
    rcases dateScan_out_from_ms t (isoYMD t) true _ _ a h with ⟨x, hx, hs, he⟩
    obtain ⟨pr, hpr⟩ := finditer_sound matchISO t x hx
    have hp : 1 ≤ x.2.1 := matchISO_pos pr _ _ hpr
    rw [hs, he]
    omega
  · refine ⟨?_, dateScan_out_value t (usYMD t) true _ _ a h⟩
    rcases dateScan_out_from_ms t (usYMD t) true _ _ a h with ⟨x, hx, hs, he⟩
    obtain ⟨pr, hpr⟩ := finditer_sound matchUS t x hx
    have hp : 1 ≤ x.2.1 := matchUS_pos pr _ _ hpr
    rw [hs, he]
    omega

theorem pop_ann_ok (t : Chars) (a : EntityAnn)
    (ha : a ∈ extract_pop_ranges t) :
    a.start_char < a.end_char ∧
      a.entity_value = chStr (pySlice t a.start_char a.end_char) := by
  unfold extract_pop_ranges at ha
  simp only [] at ha
  have ha2 := (pySortBy_perm
    (fun a b : EntityAnn => decide (a.start_char ≤ b.start_char))
    _).mem_iff.mp ha
  rcases popTake_out t _ _ a ha2 with ⟨c, hc, hstart, hend, hvalue⟩
  have hc2 := (pySortBy_perm popCandLe _).mem_iff.mp hc
  rcases List.mem_append.mp hc2 with h1 | h2
  · rcases List.mem_filterMap.mp h1 with ⟨m, hm, hf⟩
    try simp only [] at hf
    split at hf
    · have hfc := Option.some.inj hf
      have h1c : m.1 = c.1 := by
        have := congrArg Prod.fst hfc
        simpa using this
      have h2c : m.1 + m.2.1 = c.2.1 := by
        have := congrArg (fun z => z.2.1) hfc
        simpa using this
      obtain ⟨pr, hpr⟩ := finditer_sound matchPopFrom t m hm
      obtain ⟨hlen, ch, hch, hchn⟩ := matchPopFrom_facts pr _ _ hpr
      have hlen' : 1 ≤ m.2.1 := hlen
      obtain ⟨cL, hcL, hdL⟩ := matchPopFrom_end pr _ _ hpr
      have hslice : pySlice t c.1 c.2.1 = (t.drop m.1).take m.2.1 := by
        rw [← h1c, ← h2c]
        unfold pySlice
        congr 1
        omega
      have hhead : ((t.drop m.1).take m.2.1).head? = some ch := by
        cases hdp : t.drop m.1 with
        | nil => rw [hdp] at hch; simp at hch
        | cons d v =>
          rw [hdp] at hch
          have hdc : d = ch := by simpa using hch
          subst hdc
          cases hml : m.2.1 with
          | zero => omega
          | succ k => simp [List.take]
      have hlast : ((t.drop m.1).take m.2.1).getLast? = some cL :=
        take_getLast_of_head _ _ hlen' cL hcL
      have hstrip : pyStrip ((t.drop m.1).take m.2.1) =
          (t.drop m.1).take m.2.1 :=
        pyStrip_eq_self_of _ ch hhead hchn cL hlast
          (isPyDigit_nonspace cL hdL)
      constructor
      · rw [hstart, hend]
        omega
      · rw [hvalue, hstart, hend, hslice, hstrip]
    · simp at hf
  · rcases List.mem_filterMap.mp h2 with ⟨m, hm, hf⟩
    try simp only [] at hf
    split at hf
    · have hfc := Option.some.inj hf
      have h1c : m.1 = c.1 := by
        have := congrArg Prod.fst hfc
        simpa using this
      have h2c : m.1 + m.2.1 = c.2.1 := by
        have := congrArg (fun z => z.2.1) hfc
        simpa using this
      obtain ⟨pr, hpr⟩ := finditer_sound matchPop t m hm
      obtain ⟨hlen, ch, hch, hchn⟩ := matchPop_facts pr _ _ hpr
      have hlen' : 1 ≤ m.2.1 := hlen
      obtain ⟨cL, hcL, hdL⟩ := matchPop_end pr _ _ hpr
      have hslice : pySlice t c.1 c.2.1 = (t.drop m.1).take m.2.1 := by
        rw [← h1c, ← h2c]
        unfold pySlice
        congr 1
        omega
      have hhead : ((t.drop m.1).take m.2.1).head? = some ch := by
        cases hdp : t.drop m.1 with
        | nil => rw [hdp] at hch; simp at hch
        | cons d v =>
          rw [hdp] at hch
          have hdc : d = ch := by simpa using hch
          subst hdc
          cases hml : m.2.1 with
          | zero => omega
          | succ k => simp [List.take]
      have hlast : ((t.drop m.1).take m.2.1).getLast? = some cL :=
        take_getLast_of_head _ _ hlen' cL hcL
      have hstrip : pyStrip ((t.drop m.1).take m.2.1) =
          (t.drop m.1).take m.2.1 :=
        pyStrip_eq_self_of _ ch hhead hchn cL hlast
          (isPyDigit_nonspace cL hdL)
      constructor
      · rw [hstart, hend]
        omega
      · rw [hvalue, hstart, hend, hslice, hstrip]
    · simp at hf

theorem security_ann_ok (t : Chars) (a : EntityAnn)
    (ha : a ∈ extract_security_levels t) :
    a.start_char < a.end_char ∧
      a.entity_value ∈ (["TS/SCI", "TOP_SECRET", "SECRET", "CUI", "FOUO",
        "UNCLASSIFIED"] : List String) ∧
      a.metadata = [("raw_text",
        MetaVal.str (chStr (pySlice t a.start_char a.end_char)))] := by
  unfold extract_security_levels at ha
  rcases securityPatsLoop_out t _ _ a ha with ⟨p, hp, hv, x, hx, hs, he, hmeta⟩
  simp only [List.mem_cons, List.not_mem_nil, or_false] at hp
  have hkey : 1 ≤ x.2.1 ∧ a.entity_value ∈ (["TS/SCI", "TOP_SECRET",
      "SECRET", "CUI", "FOUO", "UNCLASSIFIED"] : List String) := by
    rcases hp with rfl | rfl | rfl | rfl | rfl | rfl
    · obtain ⟨pr, hpr⟩ := finditer_sound matchTsSci t x hx
      exact ⟨matchTsSci_pos pr _ _ hpr, by rw [hv]; simp⟩
    · obtain ⟨pr, hpr⟩ := finditer_sound matchTopSecret t x hx
      exact ⟨matchTopSecret_pos pr _ _ hpr, by rw [hv]; simp⟩
    · obtain ⟨pr, hpr⟩ := finditer_sound matchSecretLvl t x hx
      exact ⟨matchSecretLvl_pos pr _ _ hpr, by rw [hv]; simp⟩
    · obtain ⟨pr, hpr⟩ := finditer_sound matchCui t x hx
      exact ⟨matchCui_pos pr _ _ hpr, by rw [hv]; simp⟩
    · obtain ⟨pr, hpr⟩ := finditer_sound matchFouo t x hx
      exact ⟨matchFouo_pos pr _ _ hpr, by rw [hv]; simp⟩
    · obtain ⟨pr, hpr⟩ := finditer_sound matchUnclassified t x hx
      exact ⟨matchUnclassified_pos pr _ _ hpr, by rw [hv]; simp⟩
  refine ⟨?_, hkey.2, ?_⟩
  · rw [hs, he]
    have := hkey.1
    omega
  · rw [hmeta, hs, he]

theorem clin_ann_ok (t : Chars) (a : EntityAnn) (ha : a ∈ extract_clins t) :
    a.start_char < a.end_char ∧
      ∃ pre, pre ≠ [] ∧
        pySlice t a.start_char a.end_char = pre ++ (a.entity_value).data := by
  unfold extract_clins at ha
  rcases List.mem_map.mp ha with ⟨m, hm, heq⟩
  obtain ⟨pr, hpr⟩ := finditer_sound matchClin t m hm
  obtain ⟨hsum, hgoff, hglen, hne⟩ := matchClin_facts pr _ _ hpr
  have hsum' : m.2.1 = m.2.2.1 + m.2.2.2 := hsum
  have hgoff' : 1 ≤ m.2.2.1 := hgoff
  have hglen' : 1 ≤ m.2.2.2 := hglen
  subst heq
  constructor
  · show m.1 < m.1 + m.2.1
    omega
  · refine ⟨pySlice t m.1 (m.1 + m.2.2.1), ?_, ?_⟩
    · unfold pySlice
      rw [show m.1 + m.2.2.1 - m.1 = m.2.2.1 from by omega]
      cases hdp : t.drop m.1 with
      | nil => exact absurd hdp hne
      | cons d v =>
        cases hg : m.2.2.1 with
        | zero => exfalso; omega
        | succ k => simp
    · show pySlice t m.1 (m.1 + m.2.1) = _
      rw [show m.1 + m.2.1 = m.1 + (m.2.2.1 + m.2.2.2) from by omega]
      rw [pySlice_split t m.1 m.2.2.1 m.2.2.2]
      rfl

/-- C3 counterexample: `extract_security_levels` stores the canonical
level tag (`"TOP_SECRET"`), not the matched text (`"TOP SECRET"`), and
`extract_clins` stores only the captured CLIN code (`"0001"`) while its
span covers the whole `CLIN 0001` match — so `entity_value =
text[start_char:end_char]` fails for both extractors. -/
theorem C3_counterexample :
    (extract_security_levels ("TOP SECRET").data =
        [{ entity_type := "SECURITY_LEVEL", entity_value := "TOP_SECRET"
           start_char := 0, end_char := 10, confidence := 1
           metadata := [("raw_text", .str "TOP SECRET")] }]
      ∧ chStr (pySlice ("TOP SECRET").data 0 10) = "TOP SECRET"
      ∧ ("TOP_SECRET" : String) ≠ "TOP SECRET")
    ∧ (extract_clins ("CLIN 0001").data =
        [{ entity_type := "CLIN", entity_value := "0001"
           start_char := 0, end_char := 9, confidence := 1
           metadata := [] }]
      ∧ chStr (pySlice ("CLIN 0001").data 0 9) = "CLIN 0001"
      ∧ ("0001" : String) ≠ "CLIN 0001") := by
  exact ⟨⟨by decide, by decide, by decide⟩, ⟨by decide, by decide, by decide⟩⟩

/-- C3 amended: for every input text, every annotation from every one of
the twelve extractors satisfies `start_char < end_char`; for the ten
extractors other than security levels and CLINs, `entity_value` equals
`text[start_char:end_char]` exactly; `extract_security_levels` instead
stores the canonical level tag as the value and the matched text in the
`raw_text` metadata entry; `extract_clins` stores the captured CLIN code,
which is a proper suffix of `text[start_char:end_char]` (the uncaptured
`CLIN`-label prefix precedes it). -/
theorem C3_extractor_values_amended (t : Chars) :
    (∀ a ∈ extract_far_clauses t, a.start_char < a.end_char ∧
      a.entity_value = chStr (pySlice t a.start_char a.end_char))
    ∧ (∀ a ∈ extract_dfars_clauses t, a.start_char < a.end_char ∧
      a.entity_value = chStr (pySlice t a.start_char a.end_char))
    ∧ (∀ a ∈ extract_contract_numbers t, a.start_char < a.end_char ∧
      a.entity_value = chStr (pySlice t a.start_char a.end_char))
    ∧ (∀ a ∈ extract_naics_codes t, a.start_char < a.end_char ∧
      a.entity_value = chStr (pySlice t a.start_char a.end_char))
    ∧ (∀ a ∈ extract_psc_codes t, a.start_char < a.end_char ∧
      a.entity_value = chStr (pySlice t a.start_char a.end_char))
    ∧ (∀ a ∈ extract_cage_codes t, a.start_char < a.end_char ∧
      a.entity_value = chStr (pySlice t a.start_char a.end_char))
    ∧ (∀ a ∈ extract_uei_numbers t, a.start_char < a.end_char ∧
      a.entity_value = chStr (pySlice t a.start_char a.end_char))
    ∧ (∀ a ∈ extract_dollar_amounts t, a.start_char < a.end_char ∧
      a.entity_value = chStr (pySlice t a.start_char a.end_char))
    ∧ (∀ a ∈ extract_dates t, a.start_char < a.end_char ∧
      a.entity_value = chStr (pySlice t a.start_char a.end_char))
    ∧ (∀ a ∈ extract_pop_ranges t, a.start_char < a.end_char ∧
      a.entity_value = chStr (pySlice t a.start_char a.end_char))
    ∧ (∀ a ∈ extract_security_levels t, a.start_char < a.end_char ∧
      a.entity_value ∈ (["TS/SCI", "TOP_SECRET", "SECRET", "CUI", "FOUO",
        "UNCLASSIFIED"] : List String) ∧
      a.metadata = [("raw_text",
        MetaVal.str (chStr (pySlice t a.start_char a.end_char)))])
    ∧ (∀ a ∈ extract_clins t, a.start_char < a.end_char ∧
      ∃ pre, pre ≠ [] ∧
        pySlice t a.start_char a.end_char = pre ++ (a.entity_value).data) :=
  ⟨fun a ha => far_ann_ok t a ha, fun a ha => dfars_ann_ok t a ha,
    fun a ha => contract_ann_ok t a ha, fun a ha => naics_ann_ok t a ha,
    fun a ha => psc_ann_ok t a ha, fun a ha => cage_ann_ok t a ha,
    fun a ha => uei_ann_ok t a ha, fun a ha => dollar_ann_ok t a ha,
    fun a ha => dates_ann_ok t a ha, fun a ha => pop_ann_ok t a ha,
    fun a ha => security_ann_ok t a ha, fun a ha => clin_ann_ok t a ha⟩

lemma persistPhase_ok_shape (env : IngestEnv σ Content Chk EChk M Q)
    (s3_key document_type task_id : String) (pd : PreData Chk EChk M Q)
    (s : σ) (r : IngResult M Q) (s1 : σ)
    (h : persistPhase env s3_key document_type task_id pd s = (Except.ok r, s1)) :
    ∃ s2, s1 = env.log_exec
      (successEntry task_id s3_key document_type
        (env.needs_human_review r.quality)) s2 := by
  unfold persistPhase at h
  repeat' split at h
  all_goals (
    have h1 := congrArg Prod.fst h
    have h2 := congrArg Prod.snd h
    simp only [] at h1 h2)
  · exact absurd h1 (by simp)
  · exact absurd h1 (by simp)
  · exact absurd h1 (by simp)
  · obtain rfl := Except.ok.inj h1
    exact ⟨_, h2.symm⟩

/-- C2 (amended): `IngestionPipeline.ingest` error-handling shape. -/
theorem C2_ingest_amended (env : IngestEnv σ Content Chk EChk M Q)
    (s3_key document_type task_id : String) (s0 : σ) :
    (∀ e, prePersist env document_type = Except.error e →
       ingest env s3_key document_type task_id s0 =
         (Except.error e,
          env.log_exec (failureEntry task_id s3_key document_type e)
            (env.log_exec (runningEntry task_id s3_key document_type) s0)))
  ∧ (∀ e s1, ingest env s3_key document_type task_id s0 = (Except.error e, s1) →
       ∃ s2, s1 = env.log_exec (failureEntry task_id s3_key document_type e) s2)
  ∧ (∀ r s1, ingest env s3_key document_type task_id s0 = (Except.ok r, s1) →
       ∃ s2, s1 = env.log_exec
         (successEntry task_id s3_key document_type
           (env.needs_human_review r.quality)) s2)
  ∧ (∀ pd cid s2 e, prePersist env document_type = Except.ok pd →
       env.upsert_contract pd.metadata
         (env.log_exec (runningEntry task_id s3_key document_type) s0) =
           Except.ok (cid, s2) →
       env.store_chunks cid pd.embedded s2 = Except.error e →
       ingest env s3_key document_type task_id s0 =
         (Except.error e,
          env.log_exec (failureEntry task_id s3_key document_type e) s2)) := by
  refine ⟨?_, ?_, ?_, ?_⟩
  · intro e he
    unfold ingest ingestBody
    rw [he]
  · intro e s1 h
    unfold ingest at h
    rcases hM : ingestBody env s3_key document_type task_id
        (env.log_exec (runningEntry task_id s3_key document_type) s0) with ⟨res, st⟩
    rw [hM] at h
    cases res with
    | ok r =>
      exact absurd (congrArg Prod.fst h) (by simp)
    | error e2 =>
      have h1 := congrArg Prod.fst h
      have h2 := congrArg Prod.snd h
      simp only [] at h1 h2
      obtain rfl := Except.error.inj h1
      exact ⟨st, h2.symm⟩
  · intro r s1 h
    unfold ingest at h
    rcases hM : ingestBody env s3_key document_type task_id
        (env.log_exec (runningEntry task_id s3_key document_type) s0) with ⟨res, st⟩
    rw [hM] at h
    cases res with
    | error e2 =>
      exact absurd (congrArg Prod.fst h) (by simp)
    | ok r2 =>
      have h1 := congrArg Prod.fst h
      have h2 := congrArg Prod.snd h
      simp only [] at h1 h2
      obtain rfl := Except.ok.inj h1
      unfold ingestBody at hM
      rcases hP : prePersist env document_type with e | pd
      · rw [hP] at hM
        exact absurd (congrArg Prod.fst hM) (by simp)
      · rw [hP] at hM
        obtain ⟨s2, hs2⟩ := persistPhase_ok_shape env s3_key document_type
          task_id pd _ r2 st hM
        exact ⟨s2, h2 ▸ hs2⟩
  · intro pd cid s2 e hpre hup hsc
    unfold ingest ingestBody persistPhase
    simp only [hpre, hup, hsc]

/-- C2 witness: the amended theorem applied at a pre-persistence failure
(`exEnvPre`, whose S3 fetch raises) and at a post-`upsert_contract`
failure (`exEnv`, whose `store_chunks` raises). -/
theorem C2_ingest_amended_witness :
    ingest exEnvPre "doc.docx" "docx" "task-1" exS0 =
      (Except.error "s3 unavailable",
       exEnvPre.log_exec (failureEntry "task-1" "doc.docx" "docx" "s3 unavailable")
         (exEnvPre.log_exec (runningEntry "task-1" "doc.docx" "docx") exS0))
  ∧ ingest exEnv "doc.docx" "docx" "task-1" exS0 =
      (Except.error "store_chunks: connection lost",
       exEnv.log_exec
         (failureEntry "task-1" "doc.docx" "docx" "store_chunks: connection lost")
         exPostUpsert) := by
  constructor
  · exact (C2_ingest_amended exEnvPre "doc.docx" "docx" "task-1" exS0).1
      "s3 unavailable" rfl
  · exact (C2_ingest_amended exEnv "doc.docx" "docx" "task-1" exS0).2.2.2
      exPreData "contract-1" exPostUpsert "store_chunks: connection lost"
      rfl rfl rfl

/-- C2 counterexample: with `exEnv`, `store_chunks` raises after
`upsert_contract` succeeded; the run fails (and is re-raised with the
FAILURE entry carrying the error text) yet the contract row written by
`upsert_contract` remains in the final database state — a failed run is
partially persisted, falsifying "no persistence effect occurs at all". -/
theorem C2_counterexample :
    (ingest exEnv "doc.docx" "docx" "task-1" exS0).1 =
      Except.error "store_chunks: connection lost"
  ∧ exS0.contracts = []
  ∧ (ingest exEnv "doc.docx" "docx" "task-1" exS0).2.contracts = ["contract-1"]
  ∧ (ingest exEnv "doc.docx" "docx" "task-1" exS0).2.logs =
      [runningEntry "task-1" "doc.docx" "docx",
       failureEntry "task-1" "doc.docx" "docx" "store_chunks: connection lost"] :=
  ⟨rfl, rfl, rfl, rfl⟩

end Forge
